import Mathlib

/-!
# hpg-variant: TDT kernel and epistasis model

A shallow embedding of `gwas/tdt_runner.c` (the TDT kernel `tdt_test`,
`tdt_result_new`) and of `gwas/epistasis/model.c` (mask builder, combination
counter, confusion matrix), followed by the theorems that settle the
specification claims about them.

Conventions of the embedding

* C `int` values are `Int`; sizes, offsets and sample counts are `Nat`.
  The transmission counters only ever grow by one per transmission; the one
  `int` expression of the kernel that leaves the 32-bit range for moderate
  counts, the square `(t1-t2)*(t1-t2)`, is wrapped explicitly with `int32`.
* Sample counts and population counts of the epistasis engine are `Nat`: the
  `int` accumulators hold at most eight times a padded sample count. The
  entries of the confusion matrix are converted to `unsigned int` explicitly
  (`uint32`).
* A C `double` that is finite is represented by the exact rational value of
  the expression that produced it (rounding is not modelled); `none` is NaN.
* `get_alleles`, the sample index (`cp_hashtable_get`) and the pedigree
  containers live outside this repository's sources; the kernel takes them
  as parameters.
-/

namespace HpgVariant

/-! ## Data model of the TDT kernel -/

/-- A C `double`: `some q` is a finite value, `none` is NaN. -/
abbrev double := Option ℚ

/-- The NaN constant of `math.h`. -/
def NAN : double := none

/-- Pedigree individual (`individual_t`): the fields the kernel reads. -/
structure individual where
  id : String
  phenotype : ℚ
deriving DecidableEq

/-- Nuclear family (`family_t`): either parent slot may be `NULL`. -/
structure family where
  id : String
  father : Option individual
  mother : Option individual
  children : List individual
deriving DecidableEq

/-- Variant record (`vcf_record_t`): the fields the kernel reads. -/
structure vcf_record where
  chromosome : String
  position : Nat
  reference : String
  alternate : String
  samples : List String
deriving DecidableEq

/-- Result record (`tdt_result_t`); `t1`, `t2` are printed with `%d`. -/
structure tdt_result where
  chromosome : String
  position : Nat
  reference : String
  alternate : String
  t1 : Int
  t2 : Int
  o_range : double
  chi_square : double
deriving DecidableEq

/-- Two's-complement wrap of a mathematical integer into the range of `int`. -/
def int32 (x : Int) : Int := (x + 2147483648) % 4294967296 - 2147483648

/-- Conversion of a finite `double` to `int`: truncation toward zero. -/
def double_to_int (q : ℚ) : Int := if 0 ≤ q then ⌊q⌋ else ⌈q⌉

/-- The array `list_to_array(record->samples)`, indexed by sample position
(an index past the end reads the empty cell). -/
def list_to_array (samples : List String) (pos : Nat) : String := samples.getD pos ""

/-- Per-family scratch variables of `tdt_test` together with the counters:
`trA`, `unA`, `trB`, `unB` are declared once per family, before the loop over
the children. -/
structure tdt_state where
  trA : Int
  unA : Int
  trB : Int
  unB : Int
  t1 : Int
  t2 : Int
deriving DecidableEq

/-- The case analysis of `tdt_test` (lines 347-387) that assigns the
transmitted / untransmitted alleles for one counted child. -/
def tdt_transmit (father_allele1 father_allele2 mother_allele1 mother_allele2
    child_allele1 child_allele2 : Int) (s : tdt_state) : tdt_state :=
  if child_allele1 = 0 ∧ child_allele2 = 0 then
    if (father_allele1 = 0 ∧ father_allele2 ≠ 0) ∧ (mother_allele1 = 0 ∧ mother_allele2 ≠ 0) then
      { s with trA := 1, unA := 2, trB := 1, unB := 2 }
    else
      { s with trA := 1, unA := 2 }
  else if child_allele1 = 0 ∧ child_allele2 ≠ 0 then
    if father_allele1 ≠ father_allele2 then
      if mother_allele1 ≠ mother_allele2 then
        { s with trA := 1, trB := 2, unA := 2, unB := 1 }
      else if mother_allele1 = 0 then
        { s with trA := 2, unA := 1 }
      else
        { s with trA := 1, unA := 2 }
    else if father_allele1 = 0 then
      { s with trA := 2, unA := 1 }
    else
      { s with trA := 1, unA := 2 }
  else
    if (father_allele1 = 0 ∧ father_allele2 ≠ 0) ∧ (mother_allele1 = 0 ∧ mother_allele2 ≠ 0) then
      { s with trA := 2, unA := 1, trB := 2, unB := 1 }
    else
      { s with trA := 2, unA := 1 }

/-- The `if (permute)` block: exchange transmitted and untransmitted alleles. -/
def tdt_permute (permute : Int) (s : tdt_state) : tdt_state :=
  if permute ≠ 0 then { s with trA := s.unA, unA := s.trA, trB := s.unB, unB := s.trB } else s

/-- The four `if (trX==n) { tN++; }` statements. -/
def tdt_increment (s : tdt_state) : tdt_state :=
  let s := if s.trA = 1 then { s with t1 := s.t1 + 1 } else s
  let s := if s.trB = 1 then { s with t1 := s.t1 + 1 } else s
  let s := if s.trA = 2 then { s with t2 := s.t2 + 1 } else s
  if s.trB = 2 then { s with t2 := s.t2 + 1 } else s

/-- One iteration of the loop over a family's children (lines 320-417). -/
def tdt_child (get_alleles : String → Option (Int × Int)) (sample_ids : String → Option Nat)
    (sample_data : Nat → String) (permute : Int)
    (father_allele1 father_allele2 mother_allele1 mother_allele2 : Int)
    (s : tdt_state) (child : individual) : tdt_state :=
  if child.phenotype ≠ 2 then s
  else match sample_ids child.id with
    | none => s
    | some child_pos =>
      match get_alleles (sample_data child_pos) with
      | none => s
      | some (child_allele1, child_allele2) =>
        if child_allele1 ≠ 0 ∧ child_allele2 = 0 then s
        else
          tdt_increment (tdt_permute permute
            (tdt_transmit father_allele1 father_allele2 mother_allele1 mother_allele2
              child_allele1 child_allele2 s))

/-- The loop over a family's children, from a given state. -/
def tdt_children (get_alleles : String → Option (Int × Int)) (sample_ids : String → Option Nat)
    (sample_data : Nat → String) (permute : Int)
    (father_allele1 father_allele2 mother_allele1 mother_allele2 : Int)
    (s : tdt_state) (children : List individual) : tdt_state :=
  children.foldl (tdt_child get_alleles sample_ids sample_data permute
    father_allele1 father_allele2 mother_allele1 mother_allele2) s

/-- One iteration of the loop over the families (lines 259-420): the counters
`(t1, t2)` after the family, from the counters before it. -/
def tdt_family (get_alleles : String → Option (Int × Int)) (sample_ids : String → Option Nat)
    (sample_data : Nat → String) (permute : Int) (t : Int × Int) (fam : family) : Int × Int :=
  match fam.father, fam.mother with
  | some father, some mother =>
    match sample_ids father.id with
    | none => t
    | some father_pos =>
      match sample_ids mother.id with
      | none => t
      | some mother_pos =>
        match get_alleles (sample_data father_pos) with
        | none => t
        | some (father_allele1, father_allele2) =>
          match get_alleles (sample_data mother_pos) with
          | none => t
          | some (mother_allele1, mother_allele2) =>
            if father_allele1 = father_allele2 ∧ mother_allele1 = mother_allele2 then t
            else if (father_allele1 ≠ 0 ∧ father_allele2 = 0) ∨
                (mother_allele1 ≠ 0 ∧ mother_allele2 = 0) then t
            else
              let s := tdt_children get_alleles sample_ids sample_data permute
                father_allele1 father_allele2 mother_allele1 mother_allele2
                ⟨0, 0, 0, 0, t.1, t.2⟩ fam.children
              (s.t1, s.t2)
  | _, _ => t

/-- The transmission counts `(t1, t2)` of one variant: the loop over all
families, in the order of the key array. -/
def tdt_counts (get_alleles : String → Option (Int × Int)) (sample_ids : String → Option Nat)
    (sample_data : Nat → String) (permute : Int) (families : List family) : Int × Int :=
  families.foldl (tdt_family get_alleles sample_ids sample_data permute) (0, 0)

/-- The statistic computed at lines 426-432: `-1` unless `t1+t2 > 0`. -/
def tdt_chisq (t1 t2 : Int) : ℚ :=
  if int32 (t1 + t2) > 0 then
    ((int32 (int32 (t1 - t2) * int32 (t1 - t2)) : Int) : ℚ) / ((int32 (t1 + t2) : Int) : ℚ)
  else -1

/-- Constructor `tdt_result_new`; the `double` arguments are finite. -/
def tdt_result_new (chromosome : String) (position : Nat) (reference alternate : String)
    (t1 t2 chi_square : ℚ) : tdt_result :=
  { chromosome := chromosome
    position := position
    reference := reference
    alternate := alternate
    t1 := double_to_int t1
    t2 := double_to_int t2
    o_range := if t2 = 0 then NAN else some (t1 / t2)
    chi_square := some chi_square }

/-- The body of the loop over the variants: the result pushed for one record. -/
def tdt_variant (get_alleles : String → Option (Int × Int)) (sample_ids : String → Option Nat)
    (permute : Int) (families : List family) (record : vcf_record) : tdt_result :=
  let t := tdt_counts get_alleles sample_ids (list_to_array record.samples) permute families
  tdt_result_new record.chromosome record.position record.reference record.alternate
    (t.1 : ℚ) (t.2 : ℚ) (tdt_chisq t.1 t.2)

/-- Value of a run of decimal digits. -/
def allele_value (digits : List Char) : Int :=
  digits.foldl (fun n c => 10 * n + ((c.toNat : Int) - 48)) 0

/-- Modelled from the spec: the genotype decoder `get_alleles` (section 4.2),
which is not part of these sources. The leading characters of the cell are a
decimal allele, `/` or `|`, and a decimal allele; the cell is missing when
either side is `.` or does not parse. -/
def get_alleles_spec (sample : String) : Option (Int × Int) :=
  let a := sample.data.takeWhile Char.isDigit
  match sample.data.dropWhile Char.isDigit with
  | sep :: rest =>
    let b := rest.takeWhile Char.isDigit
    if (sep = '/' ∨ sep = '|') ∧ a ≠ [] ∧ b ≠ [] then some (allele_value a, allele_value b)
    else none
  | [] => none

/-- Number of iterations of the loop over the families that leave the
counters different from what they were before the iteration, starting from
counters `t` (a measurement on the loop of `tdt_counts`). -/
def tdt_changes (get_alleles : String → Option (Int × Int)) (sample_ids : String → Option Nat)
    (sample_data : Nat → String) (permute : Int) : Int × Int → List family → Nat
  | _, [] => 0
  | t, fam :: rest =>
    (if tdt_family get_alleles sample_ids sample_data permute t fam ≠ t then 1 else 0) +
      tdt_changes get_alleles sample_ids sample_data permute
        (tdt_family get_alleles sample_ids sample_data permute t fam) rest

/-- The bound named by the specification: both parents of the family are
present, positioned and genotyped, and at least one of them is heterozygous. -/
def parents_genotyped_het (get_alleles : String → Option (Int × Int))
    (sample_ids : String → Option Nat) (sample_data : Nat → String) (fam : family) : Bool :=
  match fam.father, fam.mother with
  | some father, some mother =>
    match sample_ids father.id, sample_ids mother.id with
    | some father_pos, some mother_pos =>
      match get_alleles (sample_data father_pos), get_alleles (sample_data mother_pos) with
      | some (f1, f2), some (m1, m2) => decide (f1 ≠ f2 ∨ m1 ≠ m2)
      | _, _ => false
    | _, _ => false
  | _, _ => false

/-! ## Data model of the epistasis engine -/

/-- A byte of a genotype column or of a genotype cell. -/
abbrev uint8_t := Fin 256

/-- Modelled from the spec: the macro `NUM_GENOTYPES` of `model.h`, which is
not part of these sources; there is one mask per genotype code 0, 1, 2. -/
def NUM_GENOTYPES : Nat := 3

/-- The layout record `masks_info`. The buffer `info.masks` itself is passed
separately, as the byte content of the region (offset to byte value). -/
structure masks_info where
  num_affected : Nat
  num_unaffected : Nat
  num_affected_with_padding : Nat
  num_unaffected_with_padding : Nat
  num_combinations_in_a_row : Nat
  num_counts_per_combination : Nat
  num_samples_per_mask : Nat
  num_masks : Nat
deriving DecidableEq

/-- Initialiser `masks_info_init`: `none` when one of its assertions on the
padded sizes fails (the allocation is not modelled). `ceil(n / 16.0)` on a
sample count is `(n + 15) / 16`. -/
def masks_info_init (order num_combinations_in_a_row num_affected num_unaffected : Nat) :
    Option masks_info :=
  let num_affected_with_padding := 16 * ((num_affected + 15) / 16)
  let num_unaffected_with_padding := 16 * ((num_unaffected + 15) / 16)
  let num_samples_per_mask := num_affected_with_padding + num_unaffected_with_padding
  if num_affected_with_padding ≠ 0 ∧ num_unaffected_with_padding ≠ 0 then
    some
      { num_affected := num_affected
        num_unaffected := num_unaffected
        num_affected_with_padding := num_affected_with_padding
        num_unaffected_with_padding := num_unaffected_with_padding
        num_combinations_in_a_row := num_combinations_in_a_row
        num_counts_per_combination := NUM_GENOTYPES ^ order
        num_samples_per_mask := num_samples_per_mask
        num_masks := NUM_GENOTYPES * order * num_samples_per_mask }
  else none

/-- The record `risky_combination`: `genotypes` is the flat array holding
`order` codes per high-risk cell; `accuracy` is a `double`. -/
structure risky_combination where
  order : Nat
  combination : List Int
  genotypes : Nat → uint8_t
  num_risky_genotypes : Nat
  auxiliary_info : Option Nat
  accuracy : double

/-! ### Bytes, 128-bit registers and memory

A memory region is a function from byte offset to byte value; a 128-bit
register is a function from lane (0..15) to byte value. -/

/-- Lane result of `_mm_cmpeq_epi8`: all ones when the bytes are equal. -/
def cmpeq_epi8 (a b : uint8_t) : Nat := if a = b then 255 else 0

/-- Lane value of `_mm_set1_epi8(i)` for an `int` code `i`. -/
def set1_epi8 (i : Nat) : uint8_t := Fin.ofNat i

/-- The intrinsic `_mm_load_si128`: the 16 bytes at `addr`. -/
def load_si128 (mem : Nat → Nat) (addr : Nat) : Nat → Nat := fun lane => mem (addr + lane)

/-- The intrinsic `_mm_store_si128`: write the 16 lanes at `addr`. -/
def store_si128 (mem : Nat → Nat) (addr : Nat) (reg : Nat → Nat) : Nat → Nat :=
  fun a => if addr ≤ a ∧ a < addr + 16 then reg (a - addr) else mem a

/-- The intrinsic `_mm_and_si128`. -/
def and_si128 (x y : Nat → Nat) : Nat → Nat := fun lane => x lane &&& y lane

/-- The intrinsic `_mm_or_si128`. -/
def or_si128 (x y : Nat → Nat) : Nat → Nat := fun lane => x lane ||| y lane

/-- The library call `memset(addr, value, n)`. -/
def memset (mem : Nat → Nat) (addr value n : Nat) : Nat → Nat :=
  fun a => if addr ≤ a ∧ a < addr + n then value else mem a

/-- Number of set bits among the low eight bits of a byte value. -/
def popcnt8 (b : Nat) : Nat := ((List.range 8).map (fun i => b / 2 ^ i % 2)).sum

/-- The intrinsic `_mm_extract_epi64(x, imm)`: the eight bytes of one half. -/
def extract_epi64 (x : Nat → Nat) (imm : Nat) : Nat → Nat := fun b => x (8 * imm + b)

/-- The intrinsic `_mm_popcnt_u64` on a 64-bit word given by its eight bytes. -/
def popcnt_u64 (word : Nat → Nat) : Nat := ((List.range 8).map (fun b => popcnt8 (word b))).sum

/-- Conversion of an `int` value to `unsigned int`. -/
def uint32 (x : Int) : Nat := (x % 4294967296).toNat

/-! ### Mask builder -/

/-- Body of the loops over `j` and `i` in `set_genotypes_masks`: the block of
genotype code `i` of SNP `j` of row `c` (16-byte compare-and-store sweep, then
the two `memset` calls on the padding). -/
def set_genotypes_masks_block (order : Nat) (genotypes : Nat → Nat → uint8_t)
    (info : masks_info) (c j : Nat) (mem : Nat → Nat) (i : Nat) : Nat → Nat :=
  let masks := c * info.num_masks
  let block := masks + j * NUM_GENOTYPES * info.num_samples_per_mask
    + i * info.num_samples_per_mask
  let mem := (List.range ((info.num_samples_per_mask + 15) / 16)).foldl
    (fun mem t =>
      store_si128 mem (block + 16 * t)
        (fun lane => cmpeq_epi8 (genotypes (c * order + j) (16 * t + lane)) (set1_epi8 i)))
    mem
  let mem := memset mem (block + info.num_affected) 0
    (info.num_affected_with_padding - info.num_affected)
  memset mem (block + info.num_affected_with_padding + info.num_unaffected) 0
    (info.num_unaffected_with_padding - info.num_unaffected)

/-- Body of the loop over `j`: the three blocks of SNP `j` of row `c`. -/
def set_genotypes_masks_snp (order : Nat) (genotypes : Nat → Nat → uint8_t)
    (info : masks_info) (c : Nat) (mem : Nat → Nat) (j : Nat) : Nat → Nat :=
  (List.range NUM_GENOTYPES).foldl (set_genotypes_masks_block order genotypes info c j) mem

/-- Body of the loop over `c`: the masks of row `c`. -/
def set_genotypes_masks_row (order : Nat) (genotypes : Nat → Nat → uint8_t)
    (info : masks_info) (mem : Nat → Nat) (c : Nat) : Nat → Nat :=
  (List.range order).foldl (set_genotypes_masks_snp order genotypes info c) mem

/-- The function `set_genotypes_masks`: the content of the region
`info.masks` after the call, from its content `masks` before the call.
`genotypes n` is the column `genotypes[n]`. -/
def set_genotypes_masks (order : Nat) (genotypes : Nat → Nat → uint8_t)
    (num_combinations : Nat) (info : masks_info) (masks : Nat → Nat) : Nat → Nat :=
  (List.range num_combinations).foldl (set_genotypes_masks_row order genotypes info) masks

/-! ### Combination counter -/

/-- One of the two counting sweeps of `combination_counts` over the `n`
samples that start at `offset` in every block: AND of the chosen blocks in
16-byte lanes, summed population count. -/
def combination_count (order : Nat) (masks : Nat → Nat) (rc_masks : Nat)
    (permutation : Nat → uint8_t) (info : masks_info) (offset n : Nat) : Nat :=
  (List.range ((n + 15) / 16)).foldl
    (fun count t =>
      let i := 16 * t
      let snp_and := load_si128 masks
        (rc_masks + (permutation 0).val * info.num_samples_per_mask + offset + i)
      let snp_and := (List.range order).foldl
        (fun snp_and j =>
          and_si128 snp_and (load_si128 masks
            (rc_masks + j * NUM_GENOTYPES * info.num_samples_per_mask
              + (permutation j).val * info.num_samples_per_mask + offset + i)))
        snp_and
      count + (popcnt_u64 (extract_epi64 snp_and 0) + popcnt_u64 (extract_epi64 snp_and 1)))
    0

/-- The function `combination_counts`: the arrays `counts_aff`, `counts_unaff`
after the call. `masks` is the content of the region `info.masks`. -/
def combination_counts (order : Nat) (masks : Nat → Nat)
    (genotype_permutations : Nat → Nat → uint8_t) (num_genotype_permutations : Nat)
    (counts_aff counts_unaff : Nat → Nat) (info : masks_info) : (Nat → Nat) × (Nat → Nat) :=
  (List.range info.num_combinations_in_a_row).foldl
    (fun counts rc =>
      let rc_masks := rc * order * NUM_GENOTYPES * info.num_samples_per_mask
      (List.range num_genotype_permutations).foldl
        (fun counts c =>
          let permutation := genotype_permutations c
          let count_aff := combination_count order masks rc_masks permutation info
            0 info.num_affected
          let count_unaff := combination_count order masks rc_masks permutation info
            info.num_affected_with_padding info.num_unaffected
          (fun n => if n = rc * info.num_counts_per_combination + c then count_aff / 8
            else counts.1 n,
           fun n => if n = rc * info.num_counts_per_combination + c then count_unaff / 8
            else counts.2 n))
        counts)
    (counts_aff, counts_unaff)

/-! ### Confusion matrix -/

/-- First part of `confusion_matrix`: the array `confusion_masks`, zeroed over
its `num_risky_genotypes * num_samples` bytes, then filled cell by cell with
the AND over the SNPs of the byte-wise comparisons. `stack` is the content of
the memory around the array before the call. -/
def confusion_masks (order : Nat) (combination : risky_combination) (info : masks_info)
    (genotypes : Nat → Nat → uint8_t) (stack : Nat → Nat) : Nat → Nat :=
  let num_samples := info.num_samples_per_mask
  let mem := memset stack 0 0 (combination.num_risky_genotypes * num_samples)
  (List.range combination.num_risky_genotypes).foldl
    (fun mem i =>
      let mem := (List.range ((info.num_samples_per_mask + 15) / 16)).foldl
        (fun mem t =>
          store_si128 mem (i * num_samples + 16 * t)
            (fun lane => cmpeq_epi8 (genotypes 0 (16 * t + lane))
              (combination.genotypes (i * order))))
        mem
      (List.range (order - 1)).foldl
        (fun mem j' =>
          let j := j' + 1
          (List.range ((info.num_samples_per_mask + 15) / 16)).foldl
            (fun mem t =>
              store_si128 mem (i * num_samples + 16 * t)
                (and_si128 (load_si128 mem (i * num_samples + 16 * t))
                  (fun lane => cmpeq_epi8 (genotypes j (16 * t + lane))
                    (combination.genotypes (i * order + j)))))
            mem)
        mem)
    mem

/-- Second part of `confusion_matrix`: the array `final_masks`, the OR over
the cells of the array `confusion_masks` (content `confusion`), with the
padding cleared. `stack` is the content of the array before the call. -/
def final_masks (combination : risky_combination) (info : masks_info)
    (confusion : Nat → Nat) (stack : Nat → Nat) : Nat → Nat :=
  let num_samples := info.num_samples_per_mask
  let mem := (List.range ((num_samples + 15) / 16)).foldl
    (fun mem t =>
      let k := 16 * t
      let final_or := load_si128 confusion k
      let final_or := (List.range (combination.num_risky_genotypes - 1)).foldl
        (fun final_or j' =>
          or_si128 final_or (load_si128 confusion ((j' + 1) * num_samples + k)))
        final_or
      store_si128 mem k final_or)
    stack
  let mem := memset mem info.num_affected 0
    (info.num_affected_with_padding - info.num_affected)
  memset mem (info.num_affected_with_padding + info.num_unaffected) 0
    (info.num_unaffected_with_padding - info.num_unaffected)

/-- Population count of the `n` samples that start at `offset` in a mask,
taken in 16-byte lanes. -/
def final_popcount (mask : Nat → Nat) (offset n : Nat) : Nat :=
  (List.range ((n + 15) / 16)).foldl
    (fun popcount t =>
      let snp_and := load_si128 mask (offset + 16 * t)
      popcount + (popcnt_u64 (extract_epi64 snp_and 0) + popcnt_u64 (extract_epi64 snp_and 1)))
    0

/-- The function `confusion_matrix`: the four entries `matrix[0..3]`, that
is (TP, FN, FP, TN). `stack_confusion` and `stack_final` are the contents,
before the call, of the memory where the two local arrays are placed. -/
def confusion_matrix (order : Nat) (combination : risky_combination) (info : masks_info)
    (genotypes : Nat → Nat → uint8_t) (stack_confusion stack_final : Nat → Nat) :
    Nat × Nat × Nat × Nat :=
  let masks := final_masks combination info
    (confusion_masks order combination info genotypes stack_confusion) stack_final
  let popcount0 := final_popcount masks 0 info.num_affected
  let popcount1 := final_popcount masks info.num_affected_with_padding info.num_unaffected
  (uint32 ((popcount0 / 8 : Nat) : Int),
   uint32 ((info.num_affected : Int) - ((popcount0 / 8 : Nat) : Int)),
   uint32 ((popcount1 / 8 : Nat) : Int),
   uint32 ((info.num_unaffected : Int) - ((popcount1 / 8 : Nat) : Int)))

/-- The layout invariant that `masks_info_init` establishes for order `order`:
padded sizes are the multiples of 16 just above the sample counts, a mask
holds both padded halves, a row holds three masks per SNP. -/
def masks_layout (order : Nat) (info : masks_info) : Prop :=
  info.num_affected ≤ info.num_affected_with_padding ∧
  info.num_affected_with_padding < info.num_affected + 16 ∧
  info.num_affected_with_padding % 16 = 0 ∧
  info.num_unaffected ≤ info.num_unaffected_with_padding ∧
  info.num_unaffected_with_padding < info.num_unaffected + 16 ∧
  info.num_unaffected_with_padding % 16 = 0 ∧
  info.num_samples_per_mask = info.num_affected_with_padding + info.num_unaffected_with_padding ∧
  info.num_masks = order * (3 * info.num_samples_per_mask) ∧
  info.num_counts_per_combination = 3 ^ order

/-! ## Evaluation and ranking -/

/-- The enumerators of `enum eval_function`. The declaration (in `model.h`) is
not part of these sources, so the integer value of each enumerator is a
parameter `enum_value` of `evaluate_model`. -/
inductive eval_function where
  | CA
  | BA
  | GAMMA
  | TAU_B
deriving DecidableEq

/-- Quotient of two finite doubles. A zero divisor gives NaN when the dividend
is zero too; a non-zero dividend over zero (an infinity in C) has no place in
this model of `double` and is rendered as NaN as well: on the counts of a
confusion matrix the numerator of every evaluator vanishes with its
denominator. -/
def double_div (a b : ℚ) : double := if b = 0 then NAN else some (a / b)

/-- Comparison `a > b` of doubles: false as soon as one side is NaN. -/
def double_gt (a b : double) : Bool :=
  match a, b with
  | some x, some y => decide (y < x)
  | _, _ => false

/-- Comparison `a <= b` of doubles: false as soon as one side is NaN. -/
def double_le (a b : double) : Bool :=
  match a, b with
  | some x, some y => decide (x ≤ y)
  | _, _ => false

/-- The function `evaluate_model`. `enum_value` gives the integer values of
the enumerators (the test `!function` holds for the one whose value is 0) and
`sqrt` is the function of `math.h`. -/
def evaluate_model (enum_value : eval_function → Int) (sqrt : ℚ → ℚ)
    (confusion_matrix : Nat × Nat × Nat × Nat) (function : eval_function) : double :=
  let TP : ℚ := confusion_matrix.1
  let FN : ℚ := confusion_matrix.2.1
  let FP : ℚ := confusion_matrix.2.2.1
  let TN : ℚ := confusion_matrix.2.2.2
  let function := if enum_value function = 0 then eval_function.BA else function
  match function with
  | eval_function.CA => double_div (TP + TN) (TP + FN + TN + FP)
  | eval_function.BA =>
    match double_div TP (TP + FN), double_div TN (TN + FP) with
    | some x, some y => some ((x + y) / 2)
    | _, _ => NAN
  | eval_function.GAMMA => double_div (TP * TN - FP * FN) (TP * TN + FP * FN)
  | eval_function.TAU_B =>
    double_div (TP * TN - FP * FN) (sqrt ((TP + FN) * (TN + FP) * (TP + FP) * (TN + FN)))

/-- The function `test_model`: the returned value, the combination with its
accuracy set, and the confusion matrix written to `conf_matrix`. -/
def test_model (enum_value : eval_function → Int) (sqrt : ℚ → ℚ) (order : Nat)
    (risky_comb : risky_combination) (val : Nat → Nat → uint8_t) (info : masks_info)
    (stack_confusion stack_final : Nat → Nat) :
    double × risky_combination × (Nat × Nat × Nat × Nat) :=
  let conf_matrix := confusion_matrix order risky_comb info val stack_confusion stack_final
  let eval := evaluate_model enum_value sqrt conf_matrix eval_function.BA
  (eval, { risky_comb with accuracy := eval }, conf_matrix)

/-- Conversion of an `int` to `size_t`, as in the comparisons between
`current_ranking_size` and `max_ranking_size`. -/
def int_to_size_t (x : Int) : Nat :=
  if x < 0 then (x + 18446744073709551616).toNat else x.toNat

/-- Modelled from the spec: `linked_list_insert_last` of the container
library, which is not part of these sources; it appends the item. -/
def linked_list_insert_last (item : risky_combination) (list : List risky_combination) :
    List risky_combination := list ++ [item]

/-- Modelled from the spec: `linked_list_get_last`; `none` is `NULL`. -/
def linked_list_get_last (list : List risky_combination) : Option risky_combination :=
  list.getLast?

/-- Modelled from the spec: `linked_list_iterator_last` followed by
`linked_list_iterator_remove`; the last item leaves the list and is returned. -/
def linked_list_remove_last (list : List risky_combination) :
    List risky_combination × Option risky_combination := (list.dropLast, list.getLast?)

/-- The `while` loop of `add_to_model_ranking` from the iterator's current
element on: `none` when the iterator runs off the end, otherwise the number
of elements passed and the list after `linked_list_iterator_insert`, which
(modelled from the spec) inserts before the iterator's current element. -/
def ranking_scan (risky_comb : risky_combination) :
    List risky_combination → Option (Nat × List risky_combination)
  | [] => none
  | element :: rest =>
    if double_gt risky_comb.accuracy element.accuracy = true then
      some (0, risky_comb :: element :: rest)
    else
      match ranking_scan risky_comb rest with
      | some (position, list) => some (position + 1, element :: list)
      | none => none

/-- The function `add_to_model_ranking`: return value, the ranking after the
call and the content of `*removed` after the call (`removed` before it). -/
def add_to_model_ranking (risky_comb : risky_combination) (max_ranking_size : Int)
    (ranking_risky : List risky_combination) (removed : Option risky_combination) :
    Int × List risky_combination × Option risky_combination :=
  let current_ranking_size := ranking_risky.length
  match linked_list_get_last ranking_risky with
  | some last_element =>
    match (if double_gt risky_comb.accuracy last_element.accuracy = true then
        ranking_scan risky_comb ranking_risky else none) with
    | some (position, inserted) =>
      if current_ranking_size ≥ int_to_size_t max_ranking_size then
        ((position : Int), (linked_list_remove_last inserted).1,
          (linked_list_remove_last inserted).2)
      else ((position : Int), inserted, removed)
    | none =>
      if current_ranking_size < int_to_size_t max_ranking_size then
        (((linked_list_insert_last risky_comb ranking_risky).length : Int) - 1,
          linked_list_insert_last risky_comb ranking_risky, removed)
      else (-1, ranking_risky, removed)
  | none =>
    (((linked_list_insert_last risky_comb ranking_risky).length : Int) - 1,
      linked_list_insert_last risky_comb ranking_risky, removed)

/-- A sequence of calls of `add_to_model_ranking` on one ranking, each with
its combination and its cap: the return values in call order, the ranking
and the content of `*removed` after the last call. -/
def add_to_model_ranking_calls :
    List (risky_combination × Int) → List risky_combination → Option risky_combination →
    List Int × List risky_combination × Option risky_combination
  | [], ranking, removed => ([], ranking, removed)
  | (risky_comb, max_ranking_size) :: rest, ranking, removed =>
    let r := add_to_model_ranking risky_comb max_ranking_size ranking removed
    let t := add_to_model_ranking_calls rest r.2.1 r.2.2
    (r.1 :: t.1, t.2.1, t.2.2)


/-! ## Specification side of the ranking: the stable descending sort -/

/-- Specification-side definition (not taken from the code): stable insertion
into a list sorted by descending accuracy. The new combination goes after every
leading entry that it does not beat, so that equal scores keep their insertion
order. -/
def stable_insert_desc (c : risky_combination) (l : List risky_combination) :
    List risky_combination :=
  l.takeWhile (fun e => !double_gt c.accuracy e.accuracy) ++
    c :: l.dropWhile (fun e => !double_gt c.accuracy e.accuracy)

/-- Specification-side definition (not taken from the code): the stable
descending-by-accuracy sort of a sequence appended to an already sorted list,
one stable insertion per element, in sequence order. -/
def stable_sort_desc_from (l : List risky_combination) (combos : List risky_combination) :
    List risky_combination :=
  combos.foldl (fun acc c => stable_insert_desc c acc) l

/-- Specification-side definition (not taken from the code): the stable
descending-by-accuracy sort of a sequence of combinations. -/
def stable_sort_desc (combos : List risky_combination) : List risky_combination :=
  stable_sort_desc_from [] combos

/-! ## Sample index (`associate_samples_and_positions`)

The index is a `cp_hashtable` of an external library. The table is created
with the hash function `cp_hash_string` and the comparison `strcasecmp`: an
operation on a key selects the bucket `cp_hash_string key % table_size` and
compares the key with the keys stored in that bucket. The hash function and the
bucket count chosen from the size hint are parameters. -/

/-- The table of the sample index: the bucket count and the stored entries
`(key, *index)` in insertion order; the bucket of an entry is the one its key
hashes to. -/
structure cp_hashtable where
  table_size : Nat
  entries : List (String × Nat)
deriving DecidableEq

/-- The C library function `strcasecmp`, as far as the table uses it: the
result is 0 exactly when the two strings are equal after folding the case of
ASCII letters (the sign of a non-zero result is not modelled). -/
def strcasecmp (a b : String) : Int :=
  if a.data.map Char.toLower = b.data.map Char.toLower then 0 else 1

/-- Library call `cp_hashtable_create_by_option` with hash `cp_hash_string` and
comparison `strcasecmp`: an empty table; `table_size` is the bucket count the
library derives from the size hint. -/
def cp_hashtable_create_by_option (table_size : Nat → Nat) (size_hint : Nat) : cp_hashtable :=
  { table_size := table_size size_hint, entries := [] }

/-- The test a table operation on `key` applies to a stored key: same bucket
under the hash function, and equal under the comparison function. -/
def cp_entry_matches (cp_hash_string : String → Nat) (table_size : Nat) (key stored : String) :
    Bool :=
  decide (cp_hash_string stored % table_size = cp_hash_string key % table_size) &&
    decide (strcasecmp key stored = 0)

/-- Library call `cp_hashtable_put` (single-value mode): an entry of the key's
bucket whose key compares equal is replaced, otherwise a new entry is added. -/
def cp_hashtable_put (cp_hash_string : String → Nat) (table : cp_hashtable) (key : String)
    (value : Nat) : cp_hashtable :=
  if table.entries.any (fun e => cp_entry_matches cp_hash_string table.table_size key e.1) then
    { table with
      entries := table.entries.map (fun e =>
        if cp_entry_matches cp_hash_string table.table_size key e.1 = true then (key, value)
        else e) }
  else
    { table with entries := table.entries ++ [(key, value)] }

/-- Library call `cp_hashtable_get`: the value of the entry of the key's bucket
whose key compares equal, `none` (NULL) when there is none. -/
def cp_hashtable_get (cp_hash_string : String → Nat) (table : cp_hashtable) (key : String) :
    Option Nat :=
  (table.entries.find? (fun e => cp_entry_matches cp_hash_string table.table_size key e.1)).map
    Prod.snd

/-- The loop of `associate_samples_and_positions` (lines 490-496) from index
`i` over the remaining list items. -/
def associate_samples_loop (cp_hash_string : String → Nat) :
    Nat → List String → cp_hashtable → cp_hashtable
  | _, [], sample_ids => sample_ids
  | i, name :: rest, sample_ids =>
    associate_samples_loop cp_hash_string (i + 1) rest
      (cp_hashtable_put cp_hash_string sample_ids name i)

/-- The function `associate_samples_and_positions` (lines 474-505): the table
is created with size hint `2 * length` and every sample name is put with its
position; the table is returned on every path. -/
def associate_samples_and_positions (cp_hash_string : String → Nat) (table_size : Nat → Nat)
    (sample_names : List String) : cp_hashtable :=
  associate_samples_loop cp_hash_string 0 sample_names
    (cp_hashtable_create_by_option table_size (sample_names.length * 2))

/-! ## High-risk cells and the model of one combination -/

/-- Modelled from the spec: the rule `mdr_high_risk_combinations`, which is not
part of these sources (section 4.6: the default rule, MDR, classifies a cell as
high-risk when `aff/total_aff > unaff/total_unaff`, a tie is not high-risk).
The MDR rule carries no auxiliary payload. -/
def mdr_high_risk_combinations (count_aff count_unaff num_affected num_unaffected : Nat) :
    Bool × Option Nat :=
  (double_gt (double_div (count_aff : ℚ) (num_affected : ℚ))
    (double_div (count_unaff : ℚ) (num_unaffected : ℚ)), none)

/-- The function `choose_high_risk_combinations` (lines 270-289): the entries
written to the array `risky`, in order, the counter `*num_risky`, and the
payload `*aux_ret` (`aux_ret` is its value before the call). -/
def choose_high_risk_combinations (counts_aff counts_unaff : Nat → Nat)
    (num_counts num_affected num_unaffected : Nat) (aux_ret : Option Nat)
    (test_func : Nat → Nat → Nat → Nat → Bool × Option Nat) : List Nat × Nat × Option Nat :=
  (List.range num_counts).foldl
    (fun s i =>
      let r := test_func (counts_aff i) (counts_unaff i) num_affected num_unaffected
      if r.1 = true then
        (s.1 ++ [i], s.2.1 + 1, (match r.2 with | some v => some v | none => s.2.2))
      else s)
    ([], 0, aux_ret)

/-- The function `risky_combination_new` (lines 291-307). `fresh` is the
content of the allocated record before the assignments (the field `accuracy`
is not assigned). The `i`-th `memcpy` writes the `order` codes of cell
`risky_idx[i]` at offset `order * i` of the array `genotypes`. -/
def risky_combination_new (order : Nat) (comb : List Int)
    (possible_genotypes_combinations : Nat → Nat → uint8_t) (num_risky : Nat)
    (risky_idx : List Nat) (aux_info : Option Nat) (fresh : risky_combination) :
    risky_combination :=
  { fresh with
    order := order
    combination := comb
    genotypes := fun n =>
      if n < order * num_risky then
        possible_genotypes_combinations (risky_idx.getD (n / order) 0) (n % order)
      else fresh.genotypes n
    num_risky_genotypes := num_risky
    auxiliary_info := aux_info }

/-- The function `risky_combination_copy` (lines 309-321): the same
assignments on the scratchpad record, whose `order` is left as it is. -/
def risky_combination_copy (order : Nat) (comb : List Int)
    (possible_genotypes_combinations : Nat → Nat → uint8_t) (num_risky : Nat)
    (risky_idx : List Nat) (aux_info : Option Nat) (risky : risky_combination) :
    risky_combination :=
  { risky with
    combination := comb
    genotypes := fun n =>
      if n < order * num_risky then
        possible_genotypes_combinations (risky_idx.getD (n / order) 0) (n % order)
      else risky.genotypes n
    num_risky_genotypes := num_risky
    auxiliary_info := aux_info }

/-- The function `get_model_from_combination_in_fold` (lines 8-37): `none` is
the NULL result for a combination without high-risk cell. `masks` is the
content of the mask region before the call, `aux_info` the indeterminate
initial value of the local of that name, `fresh` the content of a newly
allocated record. -/
def get_model_from_combination_in_fold (order : Nat) (comb : List Int)
    (genotypes : Nat → Nat → uint8_t) (num_genotype_combinations : Nat)
    (genotype_combinations : Nat → Nat → uint8_t) (num_counts : Nat)
    (counts_aff counts_unaff : Nat → Nat) (info : masks_info) (masks : Nat → Nat)
    (aux_info : Option Nat) (risky_scratchpad : Option risky_combination)
    (fresh : risky_combination) : Option risky_combination :=
  let masks := set_genotypes_masks order genotypes info.num_combinations_in_a_row info masks
  let counts := combination_counts order masks genotype_combinations num_genotype_combinations
    counts_aff counts_unaff info
  let risky := choose_high_risk_combinations counts.1 counts.2 num_counts info.num_affected
    info.num_unaffected aux_info mdr_high_risk_combinations
  if risky.2.1 > 0 then
    match risky_scratchpad with
    | some scratchpad =>
      some (risky_combination_copy order comb genotype_combinations risky.2.1 risky.1
        risky.2.2 scratchpad)
    | none =>
      some (risky_combination_new order comb genotype_combinations risky.2.1 risky.1
        risky.2.2 fresh)
  else none
/-! # Theorems -/

/-! ## The child step -/

theorem tdt_increment_fields (s : tdt_state) :
    (tdt_increment s).trA = s.trA ∧ (tdt_increment s).unA = s.unA ∧
    (tdt_increment s).trB = s.trB ∧ (tdt_increment s).unB = s.unB ∧
    (tdt_increment s).t1 = s.t1 + (if s.trA = 1 then 1 else 0) + (if s.trB = 1 then 1 else 0) ∧
    (tdt_increment s).t2 = s.t2 + (if s.trA = 2 then 1 else 0) + (if s.trB = 2 then 1 else 0) := by
  unfold tdt_increment
  by_cases h1 : s.trA = 1 <;> by_cases h2 : s.trB = 1 <;> by_cases h3 : s.trA = 2 <;>
    by_cases h4 : s.trB = 2 <;> simp [h1, h2, h3, h4]

theorem tdt_transmit_counts (f1 f2 m1 m2 c1 c2 : Int) (s : tdt_state) :
    (tdt_transmit f1 f2 m1 m2 c1 c2 s).t1 = s.t1 ∧
    (tdt_transmit f1 f2 m1 m2 c1 c2 s).t2 = s.t2 := by
  unfold tdt_transmit
  split_ifs <;> simp

theorem tdt_permute_zero (s : tdt_state) : tdt_permute 0 s = s := by
  simp [tdt_permute]

/-- A child that passes every filter runs the case analysis and the increments. -/
theorem tdt_child_counted (get_alleles : String → Option (Int × Int))
    (sample_ids : String → Option Nat) (sample_data : Nat → String) (permute : Int)
    (f1 f2 m1 m2 : Int) (s : tdt_state) (child : individual) (child_pos : Nat) (gc : Int × Int)
    (hph : child.phenotype = 2) (hpos : sample_ids child.id = some child_pos)
    (hgc : get_alleles (sample_data child_pos) = some gc)
    (hmiss : ¬ (gc.1 ≠ 0 ∧ gc.2 = 0)) :
    tdt_child get_alleles sample_ids sample_data permute f1 f2 m1 m2 s child =
      tdt_increment (tdt_permute permute (tdt_transmit f1 f2 m1 m2 gc.1 gc.2 s)) := by
  obtain ⟨c1, c2⟩ := gc
  simp only [tdt_child, hph, hpos, hgc]
  simp only [ne_eq, not_true_eq_false, if_false]
  rw [if_neg hmiss]

/-- Parents among 0/0, 0/1, 1/1 and not both 0/1: no branch assigns `trB`. -/
theorem tdt_transmit_trB (f1 f2 m1 m2 c1 c2 : Int)
    (hfg : (f1 = 0 ∧ f2 = 0) ∨ (f1 = 0 ∧ f2 = 1) ∨ (f1 = 1 ∧ f2 = 1))
    (hmg : (m1 = 0 ∧ m2 = 0) ∨ (m1 = 0 ∧ m2 = 1) ∨ (m1 = 1 ∧ m2 = 1))
    (hnb : ¬ ((f1 = 0 ∧ f2 = 1) ∧ (m1 = 0 ∧ m2 = 1))) (s : tdt_state) :
    (tdt_transmit f1 f2 m1 m2 c1 c2 s).trB = s.trB := by
  rcases hfg with ⟨h1, h2⟩ | ⟨h1, h2⟩ | ⟨h1, h2⟩ <;>
    rcases hmg with ⟨h3, h4⟩ | ⟨h3, h4⟩ | ⟨h3, h4⟩ <;>
    subst h1 <;> subst h2 <;> subst h3 <;> subst h4 <;>
    (unfold tdt_transmit; split_ifs <;> simp_all)

theorem tdt_child_trB (get_alleles : String → Option (Int × Int))
    (sample_ids : String → Option Nat) (sample_data : Nat → String)
    (f1 f2 m1 m2 : Int)
    (hfg : (f1 = 0 ∧ f2 = 0) ∨ (f1 = 0 ∧ f2 = 1) ∨ (f1 = 1 ∧ f2 = 1))
    (hmg : (m1 = 0 ∧ m2 = 0) ∨ (m1 = 0 ∧ m2 = 1) ∨ (m1 = 1 ∧ m2 = 1))
    (hnb : ¬ ((f1 = 0 ∧ f2 = 1) ∧ (m1 = 0 ∧ m2 = 1)))
    (s : tdt_state) (child : individual) :
    (tdt_child get_alleles sample_ids sample_data 0 f1 f2 m1 m2 s child).trB = s.trB := by
  unfold tdt_child
  split
  · rfl
  · split
    · rfl
    · split
      · rfl
      · split
        · rfl
        · rw [tdt_permute_zero, (tdt_increment_fields _).2.2.1]
          exact tdt_transmit_trB f1 f2 m1 m2 _ _ hfg hmg hnb s

theorem tdt_children_trB (get_alleles : String → Option (Int × Int))
    (sample_ids : String → Option Nat) (sample_data : Nat → String)
    (f1 f2 m1 m2 : Int)
    (hfg : (f1 = 0 ∧ f2 = 0) ∨ (f1 = 0 ∧ f2 = 1) ∨ (f1 = 1 ∧ f2 = 1))
    (hmg : (m1 = 0 ∧ m2 = 0) ∨ (m1 = 0 ∧ m2 = 1) ∨ (m1 = 1 ∧ m2 = 1))
    (hnb : ¬ ((f1 = 0 ∧ f2 = 1) ∧ (m1 = 0 ∧ m2 = 1)))
    (children : List individual) (s : tdt_state) :
    (tdt_children get_alleles sample_ids sample_data 0 f1 f2 m1 m2 s children).trB
      = s.trB := by
  induction children generalizing s with
  | nil => rfl
  | cons c cs ih =>
    simp only [tdt_children, List.foldl_cons] at ih ⊢
    rw [ih, tdt_child_trB get_alleles sample_ids sample_data f1 f2 m1 m2 hfg hmg hnb]

/-- The amounts one counted child adds, for parents among 0/0, 0/1, 1/1 with at
least one 0/1 parent, from a state whose `trB` is clear unless both parents
are 0/1. -/
theorem tdt_transmit_table (f1 f2 m1 m2 c1 c2 : Int)
    (hfg : (f1 = 0 ∧ f2 = 0) ∨ (f1 = 0 ∧ f2 = 1) ∨ (f1 = 1 ∧ f2 = 1))
    (hmg : (m1 = 0 ∧ m2 = 0) ∨ (m1 = 0 ∧ m2 = 1) ∨ (m1 = 1 ∧ m2 = 1))
    (hhet : (f1 = 0 ∧ f2 = 1) ∨ (m1 = 0 ∧ m2 = 1))
    (hcg : (c1 = 0 ∧ c2 = 0) ∨ (c1 = 0 ∧ c2 = 1) ∨ (c1 = 1 ∧ c2 = 1))
    (s : tdt_state) (hs : ¬ ((f1 = 0 ∧ f2 = 1) ∧ (m1 = 0 ∧ m2 = 1)) → s.trB = 0) :
    ((tdt_increment (tdt_transmit f1 f2 m1 m2 c1 c2 s)).t1,
     (tdt_increment (tdt_transmit f1 f2 m1 m2 c1 c2 s)).t2) =
      if c1 = 0 ∧ c2 = 0 then
        (if (f1 = 0 ∧ f2 = 1) ∧ (m1 = 0 ∧ m2 = 1) then (s.t1 + 2, s.t2) else (s.t1 + 1, s.t2))
      else if c1 = 0 ∧ c2 = 1 then
        (if (f1 = 0 ∧ f2 = 1) ∧ (m1 = 0 ∧ m2 = 1) then (s.t1 + 1, s.t2 + 1)
         else if (if f1 = 0 ∧ f2 = 1 then m1 = 0 ∧ m2 = 0 else f1 = 0 ∧ f2 = 0) then
           (s.t1, s.t2 + 1)
         else (s.t1 + 1, s.t2))
      else
        (if (f1 = 0 ∧ f2 = 1) ∧ (m1 = 0 ∧ m2 = 1) then (s.t1, s.t2 + 2)
         else (s.t1, s.t2 + 1)) := by
  have hinc := (tdt_increment_fields (tdt_transmit f1 f2 m1 m2 c1 c2 s)).2.2.2.2
  have hc := tdt_transmit_counts f1 f2 m1 m2 c1 c2 s
  rw [hinc.1, hinc.2, hc.1, hc.2]
  clear hinc hc
  rcases hfg with ⟨h1, h2⟩ | ⟨h1, h2⟩ | ⟨h1, h2⟩ <;>
    rcases hmg with ⟨h3, h4⟩ | ⟨h3, h4⟩ | ⟨h3, h4⟩ <;>
    rcases hcg with ⟨h5, h6⟩ | ⟨h5, h6⟩ | ⟨h5, h6⟩ <;>
    subst h1 <;> subst h2 <;> subst h3 <;> subst h4 <;> subst h5 <;> subst h6 <;>
    simp_all [tdt_transmit] <;> omega

/-- A family that passes the parental filters runs the loop over its children. -/
theorem tdt_family_eligible (get_alleles : String → Option (Int × Int))
    (sample_ids : String → Option Nat) (sample_data : Nat → String) (permute : Int)
    (t : Int × Int) (fam : family) (father mother : individual) (father_pos mother_pos : Nat)
    (f1 f2 m1 m2 : Int)
    (hf : fam.father = some father) (hm : fam.mother = some mother)
    (hfp : sample_ids father.id = some father_pos)
    (hmp : sample_ids mother.id = some mother_pos)
    (hfa : get_alleles (sample_data father_pos) = some (f1, f2))
    (hma : get_alleles (sample_data mother_pos) = some (m1, m2))
    (hhom : ¬ (f1 = f2 ∧ m1 = m2))
    (hmiss : ¬ ((f1 ≠ 0 ∧ f2 = 0) ∨ (m1 ≠ 0 ∧ m2 = 0))) :
    tdt_family get_alleles sample_ids sample_data permute t fam =
      ((tdt_children get_alleles sample_ids sample_data permute f1 f2 m1 m2
          ⟨0, 0, 0, 0, t.1, t.2⟩ fam.children).t1,
       (tdt_children get_alleles sample_ids sample_data permute f1 f2 m1 m2
          ⟨0, 0, 0, 0, t.1, t.2⟩ fam.children).t2) := by
  simp only [tdt_family, hf, hm, hfp, hmp, hfa, hma]
  rw [if_neg hhom, if_neg hmiss]

/-- C1. In `tdt_test` with permutation off, for a family whose parents are
present, positioned and genotyped 0/0, 0/1 or 1/1 with at least one 0/1
parent: the family's counts are those of the loop over its children; in that
loop every affected, positioned child genotyped 0/0, 0/1 or 1/1 adds to
`(t1, t2)` exactly the amounts of the case table (child 0/0: (2,0) if both
parents are 0/1, else (1,0); child 0/1: (1,1) if both are 0/1, (0,1) if the
partner of the only 0/1 parent is 0/0, (1,0) if it is 1/1; child 1/1: (0,2) if
both are 0/1, else (0,1)); and the all-heterozygous trio gives t1 = 1, t2 = 1. -/
theorem tdt_test_case_table (get_alleles : String → Option (Int × Int))
    (sample_ids : String → Option Nat) (sample_data : Nat → String)
    (t : Int × Int) (fam : family) (father mother : individual) (father_pos mother_pos : Nat)
    (f1 f2 m1 m2 : Int)
    (hf : fam.father = some father) (hm : fam.mother = some mother)
    (hfp : sample_ids father.id = some father_pos)
    (hmp : sample_ids mother.id = some mother_pos)
    (hfa : get_alleles (sample_data father_pos) = some (f1, f2))
    (hma : get_alleles (sample_data mother_pos) = some (m1, m2))
    (hfg : (f1 = 0 ∧ f2 = 0) ∨ (f1 = 0 ∧ f2 = 1) ∨ (f1 = 1 ∧ f2 = 1))
    (hmg : (m1 = 0 ∧ m2 = 0) ∨ (m1 = 0 ∧ m2 = 1) ∨ (m1 = 1 ∧ m2 = 1))
    (hhet : (f1 = 0 ∧ f2 = 1) ∨ (m1 = 0 ∧ m2 = 1)) :
    (tdt_family get_alleles sample_ids sample_data 0 t fam =
      ((tdt_children get_alleles sample_ids sample_data 0 f1 f2 m1 m2
          ⟨0, 0, 0, 0, t.1, t.2⟩ fam.children).t1,
       (tdt_children get_alleles sample_ids sample_data 0 f1 f2 m1 m2
          ⟨0, 0, 0, 0, t.1, t.2⟩ fam.children).t2)) ∧
    (∀ (before : List individual) (child : individual) (child_pos : Nat) (c1 c2 : Int),
      child.phenotype = 2 → sample_ids child.id = some child_pos →
      get_alleles (sample_data child_pos) = some (c1, c2) →
      ((c1 = 0 ∧ c2 = 0) ∨ (c1 = 0 ∧ c2 = 1) ∨ (c1 = 1 ∧ c2 = 1)) →
      ((tdt_child get_alleles sample_ids sample_data 0 f1 f2 m1 m2
          (tdt_children get_alleles sample_ids sample_data 0 f1 f2 m1 m2
            ⟨0, 0, 0, 0, t.1, t.2⟩ before) child).t1,
       (tdt_child get_alleles sample_ids sample_data 0 f1 f2 m1 m2
          (tdt_children get_alleles sample_ids sample_data 0 f1 f2 m1 m2
            ⟨0, 0, 0, 0, t.1, t.2⟩ before) child).t2) =
      ((tdt_children get_alleles sample_ids sample_data 0 f1 f2 m1 m2
          ⟨0, 0, 0, 0, t.1, t.2⟩ before).t1, 
       (tdt_children get_alleles sample_ids sample_data 0 f1 f2 m1 m2
          ⟨0, 0, 0, 0, t.1, t.2⟩ before).t2) +
        (if c1 = 0 ∧ c2 = 0 then
          (if (f1 = 0 ∧ f2 = 1) ∧ (m1 = 0 ∧ m2 = 1) then (2, 0) else (1, 0))
        else if c1 = 0 ∧ c2 = 1 then
          (if (f1 = 0 ∧ f2 = 1) ∧ (m1 = 0 ∧ m2 = 1) then (1, 1)
           else if (if f1 = 0 ∧ f2 = 1 then m1 = 0 ∧ m2 = 0 else f1 = 0 ∧ f2 = 0) then (0, 1)
           else (1, 0))
        else
          (if (f1 = 0 ∧ f2 = 1) ∧ (m1 = 0 ∧ m2 = 1) then (0, 2) else (0, 1)))) ∧
    (∀ (child : individual) (child_pos : Nat),
      (f1 = 0 ∧ f2 = 1) → (m1 = 0 ∧ m2 = 1) → fam.children = [child] →
      child.phenotype = 2 → sample_ids child.id = some child_pos →
      get_alleles (sample_data child_pos) = some (0, 1) →
      tdt_counts get_alleles sample_ids sample_data 0 [fam] = (1, 1)) := by
  have hhom : ¬ (f1 = f2 ∧ m1 = m2) := by
    rcases hfg with ⟨h1, h2⟩ | ⟨h1, h2⟩ | ⟨h1, h2⟩ <;>
      rcases hmg with ⟨h3, h4⟩ | ⟨h3, h4⟩ | ⟨h3, h4⟩ <;>
      subst h1 <;> subst h2 <;> subst h3 <;> subst h4 <;> simp_all
  have hmiss : ¬ ((f1 ≠ 0 ∧ f2 = 0) ∨ (m1 ≠ 0 ∧ m2 = 0)) := by
    rcases hfg with ⟨h1, h2⟩ | ⟨h1, h2⟩ | ⟨h1, h2⟩ <;>
      rcases hmg with ⟨h3, h4⟩ | ⟨h3, h4⟩ | ⟨h3, h4⟩ <;>
      subst h1 <;> subst h2 <;> subst h3 <;> subst h4 <;> simp
  have hstep : ∀ (s : tdt_state) (child : individual) (child_pos : Nat) (c1 c2 : Int),
      (¬ ((f1 = 0 ∧ f2 = 1) ∧ (m1 = 0 ∧ m2 = 1)) → s.trB = 0) →
      child.phenotype = 2 → sample_ids child.id = some child_pos →
      get_alleles (sample_data child_pos) = some (c1, c2) →
      ((c1 = 0 ∧ c2 = 0) ∨ (c1 = 0 ∧ c2 = 1) ∨ (c1 = 1 ∧ c2 = 1)) →
      ((tdt_child get_alleles sample_ids sample_data 0 f1 f2 m1 m2 s child).t1,
       (tdt_child get_alleles sample_ids sample_data 0 f1 f2 m1 m2 s child).t2) =
      (s.t1, s.t2) +
        (if c1 = 0 ∧ c2 = 0 then
          (if (f1 = 0 ∧ f2 = 1) ∧ (m1 = 0 ∧ m2 = 1) then (2, 0) else (1, 0))
        else if c1 = 0 ∧ c2 = 1 then
          (if (f1 = 0 ∧ f2 = 1) ∧ (m1 = 0 ∧ m2 = 1) then (1, 1)
           else if (if f1 = 0 ∧ f2 = 1 then m1 = 0 ∧ m2 = 0 else f1 = 0 ∧ f2 = 0) then (0, 1)
           else (1, 0))
        else
          (if (f1 = 0 ∧ f2 = 1) ∧ (m1 = 0 ∧ m2 = 1) then (0, 2) else (0, 1))) := by
    intro s child child_pos c1 c2 hs hph hpos hgc hcg
    have hcm : ¬ ((c1, c2).1 ≠ 0 ∧ (c1, c2).2 = 0) := by
      rcases hcg with ⟨h1, h2⟩ | ⟨h1, h2⟩ | ⟨h1, h2⟩ <;> subst h1 <;> subst h2 <;> simp
    rw [tdt_child_counted get_alleles sample_ids sample_data 0 f1 f2 m1 m2 s child child_pos
      (c1, c2) hph hpos hgc hcm, tdt_permute_zero,
      tdt_transmit_table f1 f2 m1 m2 c1 c2 hfg hmg hhet hcg s hs]
    split_ifs <;> (apply Prod.ext <;> simp)
  refine ⟨tdt_family_eligible get_alleles sample_ids sample_data 0 t fam father mother
    father_pos mother_pos f1 f2 m1 m2 hf hm hfp hmp hfa hma hhom hmiss, ?_, ?_⟩
  · intro before child child_pos c1 c2 hph hpos hgc hcg
    refine hstep _ child child_pos c1 c2 ?_ hph hpos hgc hcg
    intro hnb
    rw [tdt_children_trB get_alleles sample_ids sample_data f1 f2 m1 m2 hfg hmg hnb]
  · intro child child_pos hfh hmh hch hph hpos hgc
    have h := hstep ⟨0, 0, 0, 0, 0, 0⟩ child child_pos 0 1 (fun hnb => absurd ⟨hfh, hmh⟩ hnb)
      hph hpos hgc (Or.inr (Or.inl ⟨rfl, rfl⟩))
    simp only [tdt_counts, List.foldl_cons, List.foldl_nil]
    rw [tdt_family_eligible get_alleles sample_ids sample_data 0 (0, 0) fam father mother
      father_pos mother_pos f1 f2 m1 m2 hf hm hfp hmp hfa hma hhom hmiss, hch]
    simp only [tdt_children, List.foldl_cons, List.foldl_nil]
    rw [h]
    simp [hfh, hmh]

/-- C1 witness: the all-heterozygous trio of the specification. -/
theorem tdt_test_case_table_witness :
    tdt_counts get_alleles_spec
      (fun name => if name = "F" then some 0 else if name = "M" then some 1
        else if name = "C" then some 2 else none)
      (list_to_array ["0/1", "0/1", "0/1"]) 0
      [⟨"fam", some ⟨"F", 1⟩, some ⟨"M", 1⟩, [⟨"C", 2⟩]⟩] = (1, 1) :=
  (tdt_test_case_table get_alleles_spec _ (list_to_array ["0/1", "0/1", "0/1"]) (0, 0)
    ⟨"fam", some ⟨"F", 1⟩, some ⟨"M", 1⟩, [⟨"C", 2⟩]⟩ ⟨"F", 1⟩ ⟨"M", 1⟩ 0 1 0 1 0 1
    rfl rfl (by decide) (by decide) (by decide) (by decide)
    (by decide) (by decide) (by decide)).2.2 ⟨"C", 2⟩ 2 (by decide) (by decide) rfl rfl
    (by decide) (by decide)

/-! ## Families that are skipped -/

theorem tdt_permute_counts (permute : Int) (s : tdt_state) :
    (tdt_permute permute s).t1 = s.t1 ∧ (tdt_permute permute s).t2 = s.t2 := by
  unfold tdt_permute
  split_ifs <;> simp

theorem tdt_child_mono (get_alleles : String → Option (Int × Int))
    (sample_ids : String → Option Nat) (sample_data : Nat → String) (permute : Int)
    (f1 f2 m1 m2 : Int) (s : tdt_state) (child : individual) :
    s.t1 ≤ (tdt_child get_alleles sample_ids sample_data permute f1 f2 m1 m2 s child).t1 ∧
    s.t2 ≤ (tdt_child get_alleles sample_ids sample_data permute f1 f2 m1 m2 s child).t2 := by
  have key : ∀ c1 c2 : Int,
      s.t1 ≤ (tdt_increment (tdt_permute permute (tdt_transmit f1 f2 m1 m2 c1 c2 s))).t1 ∧
      s.t2 ≤ (tdt_increment (tdt_permute permute (tdt_transmit f1 f2 m1 m2 c1 c2 s))).t2 := by
    intro c1 c2
    have hi := (tdt_increment_fields
      (tdt_permute permute (tdt_transmit f1 f2 m1 m2 c1 c2 s))).2.2.2.2
    have hp := tdt_permute_counts permute (tdt_transmit f1 f2 m1 m2 c1 c2 s)
    have ht := tdt_transmit_counts f1 f2 m1 m2 c1 c2 s
    rw [hi.1, hi.2, hp.1, hp.2, ht.1, ht.2]
    constructor <;> split_ifs <;> omega
  unfold tdt_child
  split
  · exact ⟨le_refl _, le_refl _⟩
  · split
    · exact ⟨le_refl _, le_refl _⟩
    · split
      · exact ⟨le_refl _, le_refl _⟩
      · split
        · exact ⟨le_refl _, le_refl _⟩
        · exact key _ _

theorem tdt_children_mono (get_alleles : String → Option (Int × Int))
    (sample_ids : String → Option Nat) (sample_data : Nat → String) (permute : Int)
    (f1 f2 m1 m2 : Int) (children : List individual) (s : tdt_state) :
    s.t1 ≤ (tdt_children get_alleles sample_ids sample_data permute f1 f2 m1 m2 s children).t1 ∧
    s.t2 ≤ (tdt_children get_alleles sample_ids sample_data permute f1 f2 m1 m2 s children).t2 := by
  induction children generalizing s with
  | nil => exact ⟨le_refl _, le_refl _⟩
  | cons c cs ih =>
    simp only [tdt_children, List.foldl_cons] at ih ⊢
    have h1 := tdt_child_mono get_alleles sample_ids sample_data permute f1 f2 m1 m2 s c
    have h2 := ih (tdt_child get_alleles sample_ids sample_data permute f1 f2 m1 m2 s c)
    exact ⟨le_trans h1.1 h2.1, le_trans h1.2 h2.2⟩

theorem tdt_family_mono (get_alleles : String → Option (Int × Int))
    (sample_ids : String → Option Nat) (sample_data : Nat → String) (permute : Int)
    (t : Int × Int) (fam : family) :
    t.1 ≤ (tdt_family get_alleles sample_ids sample_data permute t fam).1 ∧
    t.2 ≤ (tdt_family get_alleles sample_ids sample_data permute t fam).2 := by
  unfold tdt_family
  split
  · split
    · exact ⟨le_refl _, le_refl _⟩
    · split
      · exact ⟨le_refl _, le_refl _⟩
      · split
        · exact ⟨le_refl _, le_refl _⟩
        · split
          · exact ⟨le_refl _, le_refl _⟩
          · split_ifs
            · exact ⟨le_refl _, le_refl _⟩
            · exact ⟨le_refl _, le_refl _⟩
            · exact tdt_children_mono get_alleles sample_ids sample_data permute _ _ _ _
                fam.children ⟨0, 0, 0, 0, t.1, t.2⟩
  · exact ⟨le_refl _, le_refl _⟩

theorem tdt_counts_mono (get_alleles : String → Option (Int × Int))
    (sample_ids : String → Option Nat) (sample_data : Nat → String) (permute : Int)
    (families : List family) (t : Int × Int) :
    t.1 ≤ (families.foldl (tdt_family get_alleles sample_ids sample_data permute) t).1 ∧
    t.2 ≤ (families.foldl (tdt_family get_alleles sample_ids sample_data permute) t).2 := by
  induction families generalizing t with
  | nil => exact ⟨le_refl _, le_refl _⟩
  | cons fam rest ih =>
    simp only [List.foldl_cons]
    have h1 := tdt_family_mono get_alleles sample_ids sample_data permute t fam
    have h2 := ih (tdt_family get_alleles sample_ids sample_data permute t fam)
    exact ⟨le_trans h1.1 h2.1, le_trans h1.2 h2.2⟩

theorem tdt_counts_nonneg (get_alleles : String → Option (Int × Int))
    (sample_ids : String → Option Nat) (sample_data : Nat → String) (permute : Int)
    (families : List family) :
    0 ≤ (tdt_counts get_alleles sample_ids sample_data permute families).1 ∧
    0 ≤ (tdt_counts get_alleles sample_ids sample_data permute families).2 :=
  tdt_counts_mono get_alleles sample_ids sample_data permute families (0, 0)

/-- A family whose iteration changes the counters has both parents genotyped
and at least one of them heterozygous. -/
theorem tdt_family_changed (get_alleles : String → Option (Int × Int))
    (sample_ids : String → Option Nat) (sample_data : Nat → String) (permute : Int)
    (t : Int × Int) (fam : family)
    (h : tdt_family get_alleles sample_ids sample_data permute t fam ≠ t) :
    parents_genotyped_het get_alleles sample_ids sample_data fam = true := by
  unfold tdt_family at h
  unfold parents_genotyped_het
  cases hf : fam.father with
  | none => simp [hf] at h
  | some father =>
    cases hm : fam.mother with
    | none => simp [hf, hm] at h
    | some mother =>
      cases hfp : sample_ids father.id with
      | none => simp [hf, hm, hfp] at h
      | some father_pos =>
        cases hmp : sample_ids mother.id with
        | none => simp [hf, hm, hfp, hmp] at h
        | some mother_pos =>
          cases hfa : get_alleles (sample_data father_pos) with
          | none => simp [hf, hm, hfp, hmp, hfa] at h
          | some fa =>
            cases hma : get_alleles (sample_data mother_pos) with
            | none => simp [hf, hm, hfp, hmp, hfa, hma] at h
            | some ma =>
              obtain ⟨f1, f2⟩ := fa
              obtain ⟨m1, m2⟩ := ma
              simp only [hf, hm, hfp, hmp, hfa, hma] at h
              by_cases hhom : f1 = f2 ∧ m1 = m2
              · rw [if_pos hhom] at h
                exact absurd rfl h
              · simp only [hfp, hmp, hfa, hma, decide_eq_true_eq]
                by_contra hcon
                exact hhom ⟨not_not.mp (fun hne => hcon (Or.inl hne)),
                  not_not.mp (fun hne => hcon (Or.inr hne))⟩

theorem tdt_changes_le (get_alleles : String → Option (Int × Int))
    (sample_ids : String → Option Nat) (sample_data : Nat → String) (permute : Int)
    (families : List family) (t : Int × Int) :
    tdt_changes get_alleles sample_ids sample_data permute t families ≤
      (families.filter (parents_genotyped_het get_alleles sample_ids sample_data)).length := by
  induction families generalizing t with
  | nil => simp [tdt_changes]
  | cons fam rest ih =>
    simp only [tdt_changes]
    have hrest := ih (tdt_family get_alleles sample_ids sample_data permute t fam)
    by_cases hch : tdt_family get_alleles sample_ids sample_data permute t fam ≠ t
    · have hel := tdt_family_changed get_alleles sample_ids sample_data permute t fam hch
      rw [if_pos hch, List.filter_cons_of_pos hel, List.length_cons]
      omega
    · rw [if_neg hch]
      by_cases hel : parents_genotyped_het get_alleles sample_ids sample_data fam = true
      · rw [List.filter_cons_of_pos hel, List.length_cons]
        omega
      · rw [List.filter_cons_of_neg hel]
        omega

theorem double_to_int_intCast (n : Int) : double_to_int (n : ℚ) = n := by
  unfold double_to_int
  split_ifs <;> simp

theorem tdt_chisq_zero : tdt_chisq 0 0 = -1 := by
  simp [tdt_chisq, int32]

/-- C2. In `tdt_test` a family leaves `(t1, t2)` unchanged when its father or
mother is absent, when a parent's identifier is not in the sample index, when
a parent's genotype is missing or unparseable, or when both parents are
homozygous; for every variant `t1 ≥ 0`, `t2 ≥ 0`, and the number of families
that change the counts is at most the number of families with both parents
genotyped and at least one heterozygous; a single family with father 0/0 and
mother 1/1 gives t1 = 0, t2 = 0 and chi-square -1. -/
theorem tdt_test_family_skipped (get_alleles : String → Option (Int × Int))
    (sample_ids : String → Option Nat) (permute : Int) :
    (∀ (sample_data : Nat → String) (t : Int × Int) (fam : family),
      (fam.father = none ∨ fam.mother = none) →
      tdt_family get_alleles sample_ids sample_data permute t fam = t) ∧
    (∀ (sample_data : Nat → String) (t : Int × Int) (fam : family) (father mother : individual),
      fam.father = some father → fam.mother = some mother →
      (sample_ids father.id = none ∨ sample_ids mother.id = none) →
      tdt_family get_alleles sample_ids sample_data permute t fam = t) ∧
    (∀ (sample_data : Nat → String) (t : Int × Int) (fam : family) (father mother : individual)
      (father_pos mother_pos : Nat),
      fam.father = some father → fam.mother = some mother →
      sample_ids father.id = some father_pos → sample_ids mother.id = some mother_pos →
      (get_alleles (sample_data father_pos) = none ∨
        get_alleles (sample_data mother_pos) = none) →
      tdt_family get_alleles sample_ids sample_data permute t fam = t) ∧
    (∀ (sample_data : Nat → String) (t : Int × Int) (fam : family) (father mother : individual)
      (father_pos mother_pos : Nat) (f1 f2 m1 m2 : Int),
      fam.father = some father → fam.mother = some mother →
      sample_ids father.id = some father_pos → sample_ids mother.id = some mother_pos →
      get_alleles (sample_data father_pos) = some (f1, f2) →
      get_alleles (sample_data mother_pos) = some (m1, m2) →
      f1 = f2 → m1 = m2 →
      tdt_family get_alleles sample_ids sample_data permute t fam = t) ∧
    (∀ (sample_data : Nat → String) (families : List family),
      0 ≤ (tdt_counts get_alleles sample_ids sample_data permute families).1 ∧
      0 ≤ (tdt_counts get_alleles sample_ids sample_data permute families).2 ∧
      tdt_changes get_alleles sample_ids sample_data permute (0, 0) families ≤
        (families.filter (parents_genotyped_het get_alleles sample_ids sample_data)).length) ∧
    (∀ (record : vcf_record) (fam : family) (father mother : individual)
      (father_pos mother_pos : Nat),
      fam.father = some father → fam.mother = some mother →
      sample_ids father.id = some father_pos → sample_ids mother.id = some mother_pos →
      get_alleles (list_to_array record.samples father_pos) = some (0, 0) →
      get_alleles (list_to_array record.samples mother_pos) = some (1, 1) →
      (tdt_variant get_alleles sample_ids permute [fam] record).t1 = 0 ∧
      (tdt_variant get_alleles sample_ids permute [fam] record).t2 = 0 ∧
      (tdt_variant get_alleles sample_ids permute [fam] record).chi_square = some (-1)) := by
  have hhom : ∀ (sample_data : Nat → String) (t : Int × Int) (fam : family)
      (father mother : individual) (father_pos mother_pos : Nat) (f1 f2 m1 m2 : Int),
      fam.father = some father → fam.mother = some mother →
      sample_ids father.id = some father_pos → sample_ids mother.id = some mother_pos →
      get_alleles (sample_data father_pos) = some (f1, f2) →
      get_alleles (sample_data mother_pos) = some (m1, m2) →
      f1 = f2 → m1 = m2 →
      tdt_family get_alleles sample_ids sample_data permute t fam = t := by
    intro sample_data t fam father mother father_pos mother_pos f1 f2 m1 m2
      hf hm hfp hmp hfa hma h1 h2
    simp only [tdt_family, hf, hm, hfp, hmp, hfa, hma]
    rw [if_pos ⟨h1, h2⟩]
  refine ⟨?_, ?_, ?_, hhom, ?_, ?_⟩
  · intro sample_data t fam h
    unfold tdt_family
    rcases h with h | h
    · rw [h]
    · rw [h]
      cases fam.father <;> rfl
  · intro sample_data t fam father mother hf hm h
    unfold tdt_family
    rcases h with h | h
    · simp only [hf, hm, h]
    · simp only [hf, hm, h]
      cases sample_ids father.id <;> rfl
  · intro sample_data t fam father mother father_pos mother_pos hf hm hfp hmp h
    unfold tdt_family
    rcases h with h | h
    · simp only [hf, hm, hfp, hmp, h]
    · simp only [hf, hm, hfp, hmp, h]
      cases get_alleles (sample_data father_pos) <;> rfl
  · intro sample_data families
    exact ⟨(tdt_counts_nonneg get_alleles sample_ids sample_data permute families).1,
      (tdt_counts_nonneg get_alleles sample_ids sample_data permute families).2,
      tdt_changes_le get_alleles sample_ids sample_data permute families (0, 0)⟩
  · intro record fam father mother father_pos mother_pos hf hm hfp hmp hfa hma
    have hc : tdt_counts get_alleles sample_ids (list_to_array record.samples) permute [fam]
        = (0, 0) := by
      simp only [tdt_counts, List.foldl_cons, List.foldl_nil]
      exact hhom _ (0, 0) fam father mother father_pos mother_pos 0 0 1 1 hf hm hfp hmp
        hfa hma rfl rfl
    unfold tdt_variant
    rw [hc]
    refine ⟨double_to_int_intCast 0, double_to_int_intCast 0, ?_⟩
    show some (tdt_chisq 0 0) = some (-1)
    rw [tdt_chisq_zero]

/-- C2 witness: father 0/0, mother 1/1, affected child 0/1. -/
theorem tdt_test_family_skipped_witness :
    (tdt_variant get_alleles_spec
      (fun name => if name = "F" then some 0 else if name = "M" then some 1
        else if name = "C" then some 2 else none) 0
      [⟨"fam", some ⟨"F", 1⟩, some ⟨"M", 1⟩, [⟨"C", 2⟩]⟩]
      ⟨"1", 1000, "A", "C", ["0/0", "1/1", "0/1"]⟩).t1 = 0 ∧
    (tdt_variant get_alleles_spec
      (fun name => if name = "F" then some 0 else if name = "M" then some 1
        else if name = "C" then some 2 else none) 0
      [⟨"fam", some ⟨"F", 1⟩, some ⟨"M", 1⟩, [⟨"C", 2⟩]⟩]
      ⟨"1", 1000, "A", "C", ["0/0", "1/1", "0/1"]⟩).t2 = 0 ∧
    (tdt_variant get_alleles_spec
      (fun name => if name = "F" then some 0 else if name = "M" then some 1
        else if name = "C" then some 2 else none) 0
      [⟨"fam", some ⟨"F", 1⟩, some ⟨"M", 1⟩, [⟨"C", 2⟩]⟩]
      ⟨"1", 1000, "A", "C", ["0/0", "1/1", "0/1"]⟩).chi_square = some (-1) :=
  (tdt_test_family_skipped get_alleles_spec _ 0).2.2.2.2.2
    ⟨"1", 1000, "A", "C", ["0/0", "1/1", "0/1"]⟩
    ⟨"fam", some ⟨"F", 1⟩, some ⟨"M", 1⟩, [⟨"C", 2⟩]⟩ ⟨"F", 1⟩ ⟨"M", 1⟩ 0 1
    rfl rfl (by decide) (by decide) (by decide) (by decide)

/-! ## Children that are not counted -/

theorem tdt_children_unaffected (get_alleles : String → Option (Int × Int))
    (sample_ids : String → Option Nat) (sample_data : Nat → String) (permute : Int)
    (f1 f2 m1 m2 : Int) (children : List individual)
    (h : ∀ c ∈ children, c.phenotype ≠ 2) (s : tdt_state) :
    tdt_children get_alleles sample_ids sample_data permute f1 f2 m1 m2 s children = s := by
  induction children generalizing s with
  | nil => rfl
  | cons c cs ih =>
    simp only [tdt_children, List.foldl_cons] at ih ⊢
    have hc : tdt_child get_alleles sample_ids sample_data permute f1 f2 m1 m2 s c = s := by
      unfold tdt_child
      rw [if_pos (h c (List.mem_cons_self c cs))]
    rw [hc]
    exact ih (fun c' hc' => h c' (List.mem_cons_of_mem c hc')) s

theorem tdt_family_unaffected (get_alleles : String → Option (Int × Int))
    (sample_ids : String → Option Nat) (sample_data : Nat → String) (permute : Int)
    (t : Int × Int) (fam : family) (h : ∀ c ∈ fam.children, c.phenotype ≠ 2) :
    tdt_family get_alleles sample_ids sample_data permute t fam = t := by
  unfold tdt_family
  split
  · split
    · rfl
    · split
      · rfl
      · split
        · rfl
        · split
          · rfl
          · split_ifs
            · rfl
            · rfl
            · rw [tdt_children_unaffected get_alleles sample_ids sample_data permute _ _ _ _
                fam.children h]
  · rfl

/-- C3. In `tdt_test` a child changes `t1` or `t2` only if its phenotype is
exactly 2.0, its identifier is in the sample index and its genotype decodes;
a family with no affected child leaves both counts unchanged whatever its
parents' genotypes; a single family whose only child is unaffected gives
t1 = 0, t2 = 0 and chi-square -1. -/
theorem tdt_test_child_counted_only_if (get_alleles : String → Option (Int × Int))
    (sample_ids : String → Option Nat) (permute : Int) :
    (∀ (sample_data : Nat → String) (f1 f2 m1 m2 : Int) (s : tdt_state) (child : individual),
      ((tdt_child get_alleles sample_ids sample_data permute f1 f2 m1 m2 s child).t1 ≠ s.t1 ∨
       (tdt_child get_alleles sample_ids sample_data permute f1 f2 m1 m2 s child).t2 ≠ s.t2) →
      child.phenotype = 2 ∧
      ∃ child_pos, sample_ids child.id = some child_pos ∧
        ∃ c1 c2, get_alleles (sample_data child_pos) = some (c1, c2) ∧ ¬ (c1 ≠ 0 ∧ c2 = 0)) ∧
    (∀ (sample_data : Nat → String) (t : Int × Int) (fam : family),
      (∀ c ∈ fam.children, c.phenotype ≠ 2) →
      tdt_family get_alleles sample_ids sample_data permute t fam = t) ∧
    (∀ (record : vcf_record) (fam : family),
      (∀ c ∈ fam.children, c.phenotype ≠ 2) →
      (tdt_variant get_alleles sample_ids permute [fam] record).t1 = 0 ∧
      (tdt_variant get_alleles sample_ids permute [fam] record).t2 = 0 ∧
      (tdt_variant get_alleles sample_ids permute [fam] record).chi_square = some (-1)) := by
  refine ⟨?_, ?_, ?_⟩
  · intro sample_data f1 f2 m1 m2 s child hne
    unfold tdt_child at hne
    by_cases hph : child.phenotype = 2
    · refine ⟨hph, ?_⟩
      cases hpos : sample_ids child.id with
      | none => simp [hph, hpos] at hne
      | some child_pos =>
        refine ⟨child_pos, rfl, ?_⟩
        cases hgc : get_alleles (sample_data child_pos) with
        | none => simp [hph, hpos, hgc] at hne
        | some gc =>
          obtain ⟨c1, c2⟩ := gc
          refine ⟨c1, c2, rfl, ?_⟩
          intro hmiss
          simp only [hph, hpos, hgc, ne_eq, not_true_eq_false, if_false] at hne
          rw [if_pos hmiss] at hne
          simp at hne
    · rw [if_pos hph] at hne
      simp at hne
  · intro sample_data t fam h
    exact tdt_family_unaffected get_alleles sample_ids sample_data permute t fam h
  · intro record fam h
    have hc : tdt_counts get_alleles sample_ids (list_to_array record.samples) permute [fam]
        = (0, 0) := by
      simp only [tdt_counts, List.foldl_cons, List.foldl_nil]
      exact tdt_family_unaffected get_alleles sample_ids _ permute (0, 0) fam h
    unfold tdt_variant
    rw [hc]
    refine ⟨double_to_int_intCast 0, double_to_int_intCast 0, ?_⟩
    show some (tdt_chisq 0 0) = some (-1)
    rw [tdt_chisq_zero]

/-- C3 witness: father 0/1, mother 0/0, unaffected child 0/1. -/
theorem tdt_test_child_counted_only_if_witness :
    (tdt_variant get_alleles_spec
      (fun name => if name = "F" then some 0 else if name = "M" then some 1
        else if name = "C" then some 2 else none) 0
      [⟨"fam", some ⟨"F", 1⟩, some ⟨"M", 1⟩, [⟨"C", 1⟩]⟩]
      ⟨"1", 1000, "A", "C", ["0/1", "0/0", "0/1"]⟩).t1 = 0 ∧
    (tdt_variant get_alleles_spec
      (fun name => if name = "F" then some 0 else if name = "M" then some 1
        else if name = "C" then some 2 else none) 0
      [⟨"fam", some ⟨"F", 1⟩, some ⟨"M", 1⟩, [⟨"C", 1⟩]⟩]
      ⟨"1", 1000, "A", "C", ["0/1", "0/0", "0/1"]⟩).t2 = 0 ∧
    (tdt_variant get_alleles_spec
      (fun name => if name = "F" then some 0 else if name = "M" then some 1
        else if name = "C" then some 2 else none) 0
      [⟨"fam", some ⟨"F", 1⟩, some ⟨"M", 1⟩, [⟨"C", 1⟩]⟩]
      ⟨"1", 1000, "A", "C", ["0/1", "0/0", "0/1"]⟩).chi_square = some (-1) :=
  (tdt_test_child_counted_only_if get_alleles_spec _ 0).2.2
    ⟨"1", 1000, "A", "C", ["0/1", "0/0", "0/1"]⟩
    ⟨"fam", some ⟨"F", 1⟩, some ⟨"M", 1⟩, [⟨"C", 1⟩]⟩
    (by intro c hc; simp only [List.mem_singleton] at hc; subst hc; norm_num)

/-! ## The statistic and the result record -/

theorem int32_of_range (x : Int) (hlo : -2147483648 ≤ x) (hhi : x ≤ 2147483647) :
    int32 x = x := by
  unfold int32
  omega

theorem tdt_variant_t1 (get_alleles : String → Option (Int × Int))
    (sample_ids : String → Option Nat) (permute : Int) (families : List family)
    (record : vcf_record) :
    (tdt_variant get_alleles sample_ids permute families record).t1 =
      (tdt_counts get_alleles sample_ids (list_to_array record.samples) permute families).1 :=
  double_to_int_intCast _

theorem tdt_variant_t2 (get_alleles : String → Option (Int × Int))
    (sample_ids : String → Option Nat) (permute : Int) (families : List family)
    (record : vcf_record) :
    (tdt_variant get_alleles sample_ids permute families record).t2 =
      (tdt_counts get_alleles sample_ids (list_to_array record.samples) permute families).2 :=
  double_to_int_intCast _

theorem tdt_variant_chi_square (get_alleles : String → Option (Int × Int))
    (sample_ids : String → Option Nat) (permute : Int) (families : List family)
    (record : vcf_record) :
    (tdt_variant get_alleles sample_ids permute families record).chi_square =
      some (tdt_chisq
        (tdt_counts get_alleles sample_ids (list_to_array record.samples) permute families).1
        (tdt_counts get_alleles sample_ids (list_to_array record.samples) permute families).2) :=
  rfl

theorem tdt_variant_o_range (get_alleles : String → Option (Int × Int))
    (sample_ids : String → Option Nat) (permute : Int) (families : List family)
    (record : vcf_record) :
    (tdt_variant get_alleles sample_ids permute families record).o_range =
      if (((tdt_counts get_alleles sample_ids (list_to_array record.samples) permute
          families).2 : Int) : ℚ) = 0 then NAN
      else some ((((tdt_counts get_alleles sample_ids (list_to_array record.samples) permute
          families).1 : Int) : ℚ) / (((tdt_counts get_alleles sample_ids
            (list_to_array record.samples) permute families).2 : Int) : ℚ)) :=
  rfl

/-- The statistic on counts for which the `int` arithmetic stays in range. -/
theorem tdt_chisq_of_range (t1 t2 : Int) (h1 : 0 ≤ t1) (h2 : 0 ≤ t2)
    (hsq : (t1 - t2) * (t1 - t2) ≤ 2147483647) (hsum : t1 + t2 ≤ 2147483647) :
    tdt_chisq t1 t2 =
      if t1 + t2 > 0 then (((t1 - t2) ^ 2 : Int) : ℚ) / ((t1 + t2 : Int) : ℚ) else -1 := by
  have hsq0 : 0 ≤ (t1 - t2) * (t1 - t2) := mul_self_nonneg _
  have hd : int32 (t1 - t2) = t1 - t2 := int32_of_range _ (by omega) (by omega)
  have hs : int32 (t1 + t2) = t1 + t2 := int32_of_range _ (by omega) (by omega)
  have hp : int32 ((t1 - t2) * (t1 - t2)) = (t1 - t2) * (t1 - t2) :=
    int32_of_range _ (by omega) hsq
  unfold tdt_chisq
  rw [hd, hp, hs, pow_two]

/-- C5. `tdt_result_new` stores as odds ratio the quotient `t1/t2` whenever
`t2` is non-zero and NaN exactly when `t2 = 0`; chromosome, position,
reference, alternate and chi-square are copies of the arguments, and so are
the `int` fields `t1`, `t2` for the integer counts `tdt_test` passes. -/
theorem tdt_result_new_fields (chromosome : String) (position : Nat)
    (reference alternate : String) (t1 t2 chi_square : ℚ) :
    (t2 ≠ 0 → (tdt_result_new chromosome position reference alternate t1 t2 chi_square).o_range
      = some (t1 / t2)) ∧
    ((tdt_result_new chromosome position reference alternate t1 t2 chi_square).o_range = NAN
      ↔ t2 = 0) ∧
    (tdt_result_new chromosome position reference alternate t1 t2 chi_square).chromosome
      = chromosome ∧
    (tdt_result_new chromosome position reference alternate t1 t2 chi_square).position
      = position ∧
    (tdt_result_new chromosome position reference alternate t1 t2 chi_square).reference
      = reference ∧
    (tdt_result_new chromosome position reference alternate t1 t2 chi_square).alternate
      = alternate ∧
    (tdt_result_new chromosome position reference alternate t1 t2 chi_square).chi_square
      = some chi_square ∧
    (∀ n1 n2 : Int,
      (tdt_result_new chromosome position reference alternate n1 n2 chi_square).t1 = n1 ∧
      (tdt_result_new chromosome position reference alternate n1 n2 chi_square).t2 = n2) := by
  refine ⟨?_, ?_, rfl, rfl, rfl, rfl, rfl, ?_⟩
  · intro h
    show (if t2 = 0 then NAN else some (t1 / t2)) = some (t1 / t2)
    rw [if_neg h]
  · show (if t2 = 0 then NAN else some (t1 / t2)) = NAN ↔ t2 = 0
    by_cases h : t2 = 0
    · rw [if_pos h]
      exact ⟨fun _ => h, fun _ => rfl⟩
    · rw [if_neg h]
      constructor
      · intro hc
        exact absurd hc (by simp [NAN])
      · intro hc
        exact absurd hc h
  · intro n1 n2
    exact ⟨double_to_int_intCast n1, double_to_int_intCast n2⟩

/-- C5 witness: counts t1 = 0, t2 = 1 give the odds ratio 0/1. -/
theorem tdt_result_new_fields_witness :
    (tdt_result_new "1" 1000 "A" "C" 0 1 1).o_range = some (0 / 1) :=
  (tdt_result_new_fields "1" 1000 "A" "C" 0 1 1).1 (by norm_num)

/-! ## Scenario: father 1/1, mother 0/1, affected child 1/1 -/

/-- C6 (as amended). For a variant with a single family, father 1/1, mother
0/1 and one affected child 1/1, permutation off, the result has t1 = 0,
t2 = 1, chi-square = 1 and odds ratio 0/1 = 0 (not NaN, since t2 is not 0). -/
theorem tdt_test_alt_transmission (get_alleles : String → Option (Int × Int))
    (sample_ids : String → Option Nat) (record : vcf_record) (fam : family)
    (father mother child : individual) (father_pos mother_pos child_pos : Nat)
    (hf : fam.father = some father) (hm : fam.mother = some mother)
    (hch : fam.children = [child]) (hph : child.phenotype = 2)
    (hfp : sample_ids father.id = some father_pos)
    (hmp : sample_ids mother.id = some mother_pos)
    (hcp : sample_ids child.id = some child_pos)
    (hfa : get_alleles (list_to_array record.samples father_pos) = some (1, 1))
    (hma : get_alleles (list_to_array record.samples mother_pos) = some (0, 1))
    (hca : get_alleles (list_to_array record.samples child_pos) = some (1, 1)) :
    (tdt_variant get_alleles sample_ids 0 [fam] record).t1 = 0 ∧
    (tdt_variant get_alleles sample_ids 0 [fam] record).t2 = 1 ∧
    (tdt_variant get_alleles sample_ids 0 [fam] record).chi_square = some 1 ∧
    (tdt_variant get_alleles sample_ids 0 [fam] record).o_range = some 0 := by
  have hc : tdt_counts get_alleles sample_ids (list_to_array record.samples) 0 [fam]
      = (0, 1) := by
    simp only [tdt_counts, List.foldl_cons, List.foldl_nil]
    rw [tdt_family_eligible get_alleles sample_ids _ 0 (0, 0) fam father mother
      father_pos mother_pos 1 1 0 1 hf hm hfp hmp hfa hma (by decide) (by decide), hch]
    simp only [tdt_children, List.foldl_cons, List.foldl_nil]
    rw [tdt_child_counted get_alleles sample_ids _ 0 1 1 0 1 _ child child_pos (1, 1)
      hph hcp hca (by decide), tdt_permute_zero]
    decide
  rw [tdt_variant_t1, tdt_variant_t2, tdt_variant_chi_square, tdt_variant_o_range, hc]
  refine ⟨rfl, rfl, ?_, ?_⟩
  · rw [tdt_chisq_of_range 0 1 (by decide) (by decide) (by decide) (by decide)]
    norm_num
  · norm_num [NAN]

/-- C6 witness: the scenario with concrete cells and the modelled decoder. -/
theorem tdt_test_alt_transmission_witness :
    (tdt_variant get_alleles_spec
      (fun name => if name = "F" then some 0 else if name = "M" then some 1
        else if name = "C" then some 2 else none) 0
      [⟨"fam", some ⟨"F", 1⟩, some ⟨"M", 1⟩, [⟨"C", 2⟩]⟩]
      ⟨"1", 1000, "A", "C", ["1/1", "0/1", "1/1"]⟩).t2 = 1 ∧
    (tdt_variant get_alleles_spec
      (fun name => if name = "F" then some 0 else if name = "M" then some 1
        else if name = "C" then some 2 else none) 0
      [⟨"fam", some ⟨"F", 1⟩, some ⟨"M", 1⟩, [⟨"C", 2⟩]⟩]
      ⟨"1", 1000, "A", "C", ["1/1", "0/1", "1/1"]⟩).o_range = some 0 :=
  ⟨(tdt_test_alt_transmission get_alleles_spec _ ⟨"1", 1000, "A", "C", ["1/1", "0/1", "1/1"]⟩
      ⟨"fam", some ⟨"F", 1⟩, some ⟨"M", 1⟩, [⟨"C", 2⟩]⟩ ⟨"F", 1⟩ ⟨"M", 1⟩ ⟨"C", 2⟩ 0 1 2
      rfl rfl rfl rfl (by decide) (by decide) (by decide) (by decide) (by decide)
      (by decide)).2.1,
   (tdt_test_alt_transmission get_alleles_spec _ ⟨"1", 1000, "A", "C", ["1/1", "0/1", "1/1"]⟩
      ⟨"fam", some ⟨"F", 1⟩, some ⟨"M", 1⟩, [⟨"C", 2⟩]⟩ ⟨"F", 1⟩ ⟨"M", 1⟩ ⟨"C", 2⟩ 0 1 2
      rfl rfl rfl rfl (by decide) (by decide) (by decide) (by decide) (by decide)
      (by decide)).2.2.2⟩

/-- C6 counterexample: on the scenario of the claim the stored odds ratio is
not NaN, so the result is not (t1 = 0, t2 = 1, chi-square = 1, OR = NaN). -/
theorem tdt_test_alt_transmission_not_nan :
    ¬ ((tdt_variant get_alleles_spec
        (fun name => if name = "F" then some 0 else if name = "M" then some 1
          else if name = "C" then some 2 else none) 0
        [⟨"fam", some ⟨"F", 1⟩, some ⟨"M", 1⟩, [⟨"C", 2⟩]⟩]
        ⟨"1", 1000, "A", "C", ["1/1", "0/1", "1/1"]⟩).t1 = 0 ∧
      (tdt_variant get_alleles_spec
        (fun name => if name = "F" then some 0 else if name = "M" then some 1
          else if name = "C" then some 2 else none) 0
        [⟨"fam", some ⟨"F", 1⟩, some ⟨"M", 1⟩, [⟨"C", 2⟩]⟩]
        ⟨"1", 1000, "A", "C", ["1/1", "0/1", "1/1"]⟩).t2 = 1 ∧
      (tdt_variant get_alleles_spec
        (fun name => if name = "F" then some 0 else if name = "M" then some 1
          else if name = "C" then some 2 else none) 0
        [⟨"fam", some ⟨"F", 1⟩, some ⟨"M", 1⟩, [⟨"C", 2⟩]⟩]
        ⟨"1", 1000, "A", "C", ["1/1", "0/1", "1/1"]⟩).chi_square = some 1 ∧
      (tdt_variant get_alleles_spec
        (fun name => if name = "F" then some 0 else if name = "M" then some 1
          else if name = "C" then some 2 else none) 0
        [⟨"fam", some ⟨"F", 1⟩, some ⟨"M", 1⟩, [⟨"C", 2⟩]⟩]
        ⟨"1", 1000, "A", "C", ["1/1", "0/1", "1/1"]⟩).o_range = NAN) := by
  intro h
  have hnan := h.2.2.2
  have hc : tdt_counts get_alleles_spec
      (fun name => if name = "F" then some 0 else if name = "M" then some 1
        else if name = "C" then some 2 else none)
      (list_to_array ["1/1", "0/1", "1/1"]) 0
      [⟨"fam", some ⟨"F", 1⟩, some ⟨"M", 1⟩, [⟨"C", 2⟩]⟩] = (0, 1) := by decide
  rw [tdt_variant_o_range, hc, if_neg (by norm_num)] at hnan
  exact Option.some_ne_none _ hnan

/-! ## Loops that write consecutive blocks -/

/-- A loop whose iteration `i` only writes the block `[base + i*B, base + (i+1)*B)`
of a memory read through `rd`: after `n` iterations every block holds what its
own iteration wrote there, and everything outside the `n` blocks is untouched. -/
theorem foldl_range_blocks {σ α : Type} (rd : σ → Nat → α) (body : σ → Nat → σ)
    (B base n : Nat) (G : Nat → Nat → α → α)
    (hout : ∀ i s a, i < n → (a < base + i * B ∨ base + (i + 1) * B ≤ a) →
      rd (body s i) a = rd s a)
    (hin : ∀ i s p, i < n → p < B →
      rd (body s i) (base + i * B + p) = G i p (rd s (base + i * B + p))) :
    (∀ s i p, i < n → p < B →
      rd ((List.range n).foldl body s) (base + i * B + p) = G i p (rd s (base + i * B + p))) ∧
    (∀ s a, (a < base ∨ base + n * B ≤ a) → rd ((List.range n).foldl body s) a = rd s a) := by
  induction n with
  | zero =>
    refine ⟨fun s i p hi _ => absurd hi (Nat.not_lt_zero i), fun s a _ => rfl⟩
  | succ n ih =>
    have ih' := ih (fun i s a hi h => hout i s a (Nat.lt_succ_of_lt hi) h)
      (fun i s p hi hp => hin i s p (Nat.lt_succ_of_lt hi) hp)
    constructor
    · intro s i p hi hp
      rw [List.range_succ, List.foldl_append, List.foldl_cons, List.foldl_nil]
      rcases Nat.lt_succ_iff_lt_or_eq.mp hi with hlt | heq
      · have hle : (i + 1) * B ≤ n * B := Nat.mul_le_mul_right B hlt
        have hexp : (i + 1) * B = i * B + B := Nat.succ_mul i B
        rw [hout n _ _ (Nat.lt_succ_self n) (Or.inl (by omega))]
        exact ih'.1 s i p hlt hp
      · subst heq
        rw [hin i _ p (Nat.lt_succ_self i) hp]
        rw [ih'.2 s _ (Or.inr (by omega))]
    · intro s a ha
      rw [List.range_succ, List.foldl_append, List.foldl_cons, List.foldl_nil]
      have hexp : (n + 1) * B = n * B + B := Nat.succ_mul n B
      rw [hout n _ _ (Nat.lt_succ_self n) (by omega)]
      exact ih'.2 s a (by omega)

/-- A loop whose iteration `i` only writes the addresses of its own block
`blk i`, blocks being pairwise disjoint: after the loop every address of a
block satisfies what its iteration established, the rest is untouched. -/
theorem foldl_range_frame {σ α : Type} (rd : σ → Nat → α) (body : σ → Nat → σ) (n : Nat)
    (blk : Nat → Nat → Prop) (Q : Nat → α → Prop)
    (hdisj : ∀ i i' a, i < n → i' < n → blk i a → blk i' a → i = i')
    (hout : ∀ i s a, i < n → ¬ blk i a → rd (body s i) a = rd s a)
    (hin : ∀ i s a, i < n → blk i a → Q a (rd (body s i) a)) :
    (∀ s i a, i < n → blk i a → Q a (rd ((List.range n).foldl body s) a)) ∧
    (∀ s a, (∀ i, i < n → ¬ blk i a) → rd ((List.range n).foldl body s) a = rd s a) := by
  induction n with
  | zero =>
    exact ⟨fun s i a hi _ => absurd hi (Nat.not_lt_zero i), fun s a _ => rfl⟩
  | succ n ih =>
    have ih' := ih
      (fun i i' a hi hi' => hdisj i i' a (Nat.lt_succ_of_lt hi) (Nat.lt_succ_of_lt hi'))
      (fun i s a hi => hout i s a (Nat.lt_succ_of_lt hi))
      (fun i s a hi => hin i s a (Nat.lt_succ_of_lt hi))
    constructor
    · intro s i a hi hb
      rw [List.range_succ, List.foldl_append, List.foldl_cons, List.foldl_nil]
      rcases Nat.lt_succ_iff_lt_or_eq.mp hi with hlt | heq
      · have hnb : ¬ blk n a := fun hbn =>
          absurd (hdisj i n a hi (Nat.lt_succ_self n) hb hbn) (Nat.ne_of_lt hlt)
        rw [hout n _ a (Nat.lt_succ_self n) hnb]
        exact ih'.1 s i a hlt hb
      · subst heq
        exact hin i _ a (Nat.lt_succ_self i) hb
    · intro s a ha
      rw [List.range_succ, List.foldl_append, List.foldl_cons, List.foldl_nil]
      rw [hout n _ a (Nat.lt_succ_self n) (ha n (Nat.lt_succ_self n))]
      exact ih'.2 s a (fun i hi => ha i (Nat.lt_succ_of_lt hi))

/-- Uniqueness of quotient and remainder. -/
theorem radix_unique (B a r a' r' : Nat) (hr : r < B) (hr' : r' < B)
    (h : a * B + r = a' * B + r') : a = a' ∧ r = r' := by
  have key : a = a' := by
    rcases Nat.lt_trichotomy a a' with hlt | heq | hgt
    · have hle : (a + 1) * B ≤ a' * B := Nat.mul_le_mul_right B hlt
      have hexp : (a + 1) * B = a * B + B := Nat.succ_mul a B
      omega
    · exact heq
    · have hle : (a' + 1) * B ≤ a * B := Nat.mul_le_mul_right B hgt
      have hexp : (a' + 1) * B = a' * B + B := Nat.succ_mul a' B
      omega
  subst key
  exact ⟨rfl, by omega⟩

/-- A sweep in 16-byte lanes: `n` aligned stores starting at `base`, the lane
written at offset `q` being a function of `q` and of the byte it replaces. -/
theorem sweep_spec (base n : Nat) (f : Nat → Nat → Nat)
    (body : (Nat → Nat) → Nat → (Nat → Nat))
    (hbody : ∀ mem t, body mem t = store_si128 mem (base + 16 * t)
      (fun lane => f (16 * t + lane) (mem (base + 16 * t + lane)))) :
    (∀ mem q, q < 16 * n →
      ((List.range n).foldl body mem) (base + q) = f q (mem (base + q))) ∧
    (∀ mem a, (a < base ∨ base + 16 * n ≤ a) → ((List.range n).foldl body mem) a = mem a) := by
  have h := foldl_range_blocks (fun (s : Nat → Nat) => s) body 16 base n
    (fun t p old => f (16 * t + p) old)
    (by
      intro t mem a _ ha
      show body mem t a = mem a
      rw [hbody]
      unfold store_si128
      rw [if_neg (by omega)])
    (by
      intro t mem p _ hp
      show body mem t (base + t * 16 + p) = f (16 * t + p) (mem (base + t * 16 + p))
      rw [hbody]
      unfold store_si128
      rw [if_pos (by omega)]
      have e1 : base + t * 16 + p - (base + 16 * t) = p := by omega
      have e2 : base + 16 * t + p = base + t * 16 + p := by omega
      rw [e1]
      show f (16 * t + p) (mem (base + 16 * t + p)) = f (16 * t + p) (mem (base + t * 16 + p))
      rw [e2])
  constructor
  · intro mem q hq
    have h1 := h.1 mem (q / 16) (q % 16) (by omega) (by omega)
    have e1 : base + q / 16 * 16 + q % 16 = base + q := by omega
    have e2 : 16 * (q / 16) + q % 16 = q := by omega
    rw [e1] at h1
    have h2 : (List.range n).foldl body mem (base + q)
        = f (16 * (q / 16) + q % 16) (mem (base + q)) := h1
    rw [e2] at h2
    exact h2
  · intro mem a ha
    exact h.2 mem a (by omega)

/-- The fields computed by `masks_info_init`. -/
theorem masks_info_init_fields (order R A U : Nat) (info : masks_info)
    (h : masks_info_init order R A U = some info) :
    info.num_affected = A ∧ info.num_unaffected = U ∧
    info.num_affected_with_padding = 16 * ((A + 15) / 16) ∧
    info.num_unaffected_with_padding = 16 * ((U + 15) / 16) ∧
    info.num_combinations_in_a_row = R ∧
    info.num_counts_per_combination = 3 ^ order ∧
    info.num_samples_per_mask = 16 * ((A + 15) / 16) + 16 * ((U + 15) / 16) ∧
    info.num_masks = 3 * order * (16 * ((A + 15) / 16) + 16 * ((U + 15) / 16)) := by
  unfold masks_info_init at h
  simp only [NUM_GENOTYPES] at h
  split_ifs at h
  cases h
  exact ⟨rfl, rfl, rfl, rfl, rfl, rfl, rfl, rfl⟩

/-- Conversion to `unsigned int` of a value already in range. -/
theorem uint32_of_range (x : Int) (h0 : 0 ≤ x) (h1 : x ≤ 4294967295) :
    ((uint32 x : Nat) : Int) = x := by
  unfold uint32
  rw [Int.toNat_of_nonneg (by omega)]
  omega

/-! ## Mask builder -/

theorem masks_info_init_layout (order R A U : Nat) (info : masks_info)
    (h : masks_info_init order R A U = some info) : masks_layout order info := by
  obtain ⟨h1, h2, h3, h4, -, h6, h7, h8⟩ := masks_info_init_fields order R A U info h
  unfold masks_layout
  rw [h1, h2, h3, h4, h6, h7, h8]
  refine ⟨by omega, by omega, by omega, by omega, by omega, by omega, rfl, ?_, rfl⟩
  ring

/-- The block written by one iteration of the loop over the genotype codes. -/
theorem set_genotypes_masks_block_spec (order : Nat) (info : masks_info)
    (hl : masks_layout order info) (genotypes : Nat → Nat → uint8_t) (c j i : Nat) :
    (∀ mem p, p < info.num_samples_per_mask →
      set_genotypes_masks_block order genotypes info c j mem i
        (c * info.num_masks + j * (3 * info.num_samples_per_mask)
          + i * info.num_samples_per_mask + p) =
      if (p < info.num_affected ∨ (info.num_affected_with_padding ≤ p ∧
            p < info.num_affected_with_padding + info.num_unaffected)) ∧
          genotypes (c * order + j) p = set1_epi8 i then 255 else 0) ∧
    (∀ mem a,
      (a < c * info.num_masks + j * (3 * info.num_samples_per_mask)
            + i * info.num_samples_per_mask ∨
        c * info.num_masks + j * (3 * info.num_samples_per_mask)
            + i * info.num_samples_per_mask + info.num_samples_per_mask ≤ a) →
      set_genotypes_masks_block order genotypes info c j mem i a = mem a) := by
  obtain ⟨ha1, ha2, ha3, hu1, hu2, hu3, hs, -, -⟩ := hl
  have hbase : c * info.num_masks + j * NUM_GENOTYPES * info.num_samples_per_mask
      + i * info.num_samples_per_mask =
      c * info.num_masks + j * (3 * info.num_samples_per_mask)
        + i * info.num_samples_per_mask := by
    simp only [NUM_GENOTYPES]; ring
  have hn : 16 * ((info.num_samples_per_mask + 15) / 16) = info.num_samples_per_mask := by
    omega
  have hsw := sweep_spec
    (c * info.num_masks + j * (3 * info.num_samples_per_mask) + i * info.num_samples_per_mask)
    ((info.num_samples_per_mask + 15) / 16)
    (fun q _ => cmpeq_epi8 (genotypes (c * order + j) q) (set1_epi8 i))
    (fun mem t => store_si128 mem
      (c * info.num_masks + j * (3 * info.num_samples_per_mask)
        + i * info.num_samples_per_mask + 16 * t)
      (fun lane => cmpeq_epi8 (genotypes (c * order + j) (16 * t + lane)) (set1_epi8 i)))
    (fun _ _ => rfl)
  rw [hn] at hsw
  beta_reduce at hsw
  unfold set_genotypes_masks_block
  simp only [hbase]
  constructor
  · intro mem p hp
    unfold memset
    by_cases hpu : info.num_affected_with_padding + info.num_unaffected ≤ p
    · rw [if_pos (by omega), if_neg (by omega)]
    · rw [if_neg (by omega)]
      by_cases hpa : info.num_affected ≤ p ∧ p < info.num_affected_with_padding
      · rw [if_pos (by omega), if_neg (by omega)]
      · rw [if_neg (by omega), hsw.1 mem p hp]
        unfold cmpeq_epi8
        have hreal : p < info.num_affected ∨ (info.num_affected_with_padding ≤ p ∧
            p < info.num_affected_with_padding + info.num_unaffected) := by omega
        by_cases hg : genotypes (c * order + j) p = set1_epi8 i
        · rw [if_pos hg, if_pos ⟨hreal, hg⟩]
        · rw [if_neg hg, if_neg (fun h => hg h.2)]
  · intro mem a ha
    unfold memset
    rw [if_neg (by omega), if_neg (by omega)]
    exact hsw.2 mem a ha

/-- Offsets `c*(k*3S) + j*3S + g*S + p` name each byte of the region once. -/
theorem mask_offset_unique (order S c j g p c' j' g' p' : Nat)
    (hj : j < order) (hg : g < 3) (hp : p < S) (hj' : j' < order) (hg' : g' < 3) (hp' : p' < S)
    (h : c * (order * (3 * S)) + j * (3 * S) + g * S + p =
      c' * (order * (3 * S)) + j' * (3 * S) + g' * S + p') :
    c = c' ∧ j = j' ∧ g = g' ∧ p = p' := by
  have b1 : g * S + p < 3 * S := by
    have : (g + 1) * S ≤ 3 * S := Nat.mul_le_mul_right S hg
    have e : (g + 1) * S = g * S + S := Nat.succ_mul g S
    omega
  have b1' : g' * S + p' < 3 * S := by
    have : (g' + 1) * S ≤ 3 * S := Nat.mul_le_mul_right S hg'
    have e : (g' + 1) * S = g' * S + S := Nat.succ_mul g' S
    omega
  have b2 : j * (3 * S) + (g * S + p) < order * (3 * S) := by
    have : (j + 1) * (3 * S) ≤ order * (3 * S) := Nat.mul_le_mul_right (3 * S) hj
    have e : (j + 1) * (3 * S) = j * (3 * S) + 3 * S := Nat.succ_mul j (3 * S)
    omega
  have b2' : j' * (3 * S) + (g' * S + p') < order * (3 * S) := by
    have : (j' + 1) * (3 * S) ≤ order * (3 * S) := Nat.mul_le_mul_right (3 * S) hj'
    have e : (j' + 1) * (3 * S) = j' * (3 * S) + 3 * S := Nat.succ_mul j' (3 * S)
    omega
  obtain ⟨hc, h2⟩ := radix_unique (order * (3 * S)) c (j * (3 * S) + (g * S + p))
    c' (j' * (3 * S) + (g' * S + p')) b2 b2' (by omega)
  obtain ⟨hjj, h1⟩ := radix_unique (3 * S) j (g * S + p) j' (g' * S + p') b1 b1' h2
  obtain ⟨hgg, hpp⟩ := radix_unique S g p g' p' hp hp' h1
  exact ⟨hc, hjj, hgg, hpp⟩

/-- The three blocks written by one iteration of the loop over the SNPs. -/
theorem set_genotypes_masks_snp_spec (order : Nat) (info : masks_info)
    (hl : masks_layout order info) (genotypes : Nat → Nat → uint8_t) (c j : Nat)
    (hj : j < order) :
    (∀ mem g p, g < 3 → p < info.num_samples_per_mask →
      set_genotypes_masks_snp order genotypes info c mem j
        (c * info.num_masks + j * (3 * info.num_samples_per_mask)
          + g * info.num_samples_per_mask + p) =
      if (p < info.num_affected ∨ (info.num_affected_with_padding ≤ p ∧
            p < info.num_affected_with_padding + info.num_unaffected)) ∧
          genotypes (c * order + j) p = set1_epi8 g then 255 else 0) ∧
    (∀ mem a,
      (∀ g p, g < 3 → p < info.num_samples_per_mask →
        a ≠ c * info.num_masks + j * (3 * info.num_samples_per_mask)
          + g * info.num_samples_per_mask + p) →
      set_genotypes_masks_snp order genotypes info c mem j a = mem a) := by
  have hnm : info.num_masks = order * (3 * info.num_samples_per_mask) := hl.2.2.2.2.2.2.2.1
  have hfr := foldl_range_frame (fun (s : Nat → Nat) => s)
    (set_genotypes_masks_block order genotypes info c j) 3
    (fun g a => ∃ p, p < info.num_samples_per_mask ∧
      a = c * info.num_masks + j * (3 * info.num_samples_per_mask)
        + g * info.num_samples_per_mask + p)
    (fun a v => ∀ g p, g < 3 → p < info.num_samples_per_mask →
      a = c * info.num_masks + j * (3 * info.num_samples_per_mask)
        + g * info.num_samples_per_mask + p →
      v = if (p < info.num_affected ∨ (info.num_affected_with_padding ≤ p ∧
            p < info.num_affected_with_padding + info.num_unaffected)) ∧
          genotypes (c * order + j) p = set1_epi8 g then 255 else 0)
    (by
      rintro g g' a hg hg' ⟨p, hp, rfl⟩ ⟨p', hp', heq⟩
      rw [hnm] at heq
      exact (mask_offset_unique order _ c j g p c j g' p' hj hg hp hj hg' hp' heq).2.2.1)
    (by
      intro g mem a _ hnb
      apply (set_genotypes_masks_block_spec order info hl genotypes c j g).2 mem a
      by_contra hcon
      apply hnb
      refine ⟨a - (c * info.num_masks + j * (3 * info.num_samples_per_mask)
        + g * info.num_samples_per_mask), by omega, by omega⟩)
    (by
      rintro g mem a hg ⟨p, hp, rfl⟩ g' p' hg' hp' heq
      have heq' := heq
      rw [hnm] at heq'
      obtain ⟨-, -, hgg, hpp⟩ :=
        mask_offset_unique order _ c j g p c j g' p' hj hg hp hj hg' hp' heq'
      subst hgg
      subst hpp
      exact (set_genotypes_masks_block_spec order info hl genotypes c j g).1 mem p hp)
  unfold set_genotypes_masks_snp
  simp only [NUM_GENOTYPES]
  constructor
  · intro mem g p hg hp
    exact hfr.1 mem g _ hg ⟨p, hp, rfl⟩ g p hg hp rfl
  · intro mem a ha
    apply hfr.2 mem a
    rintro g hg ⟨p, hp, rfl⟩
    exact ha g p hg hp rfl

/-- The masks written by one iteration of the loop over the rows. -/
theorem set_genotypes_masks_row_spec (order : Nat) (info : masks_info)
    (hl : masks_layout order info) (genotypes : Nat → Nat → uint8_t) (c : Nat) :
    (∀ mem j g p, j < order → g < 3 → p < info.num_samples_per_mask →
      set_genotypes_masks_row order genotypes info mem c
        (c * info.num_masks + j * (3 * info.num_samples_per_mask)
          + g * info.num_samples_per_mask + p) =
      if (p < info.num_affected ∨ (info.num_affected_with_padding ≤ p ∧
            p < info.num_affected_with_padding + info.num_unaffected)) ∧
          genotypes (c * order + j) p = set1_epi8 g then 255 else 0) ∧
    (∀ mem a,
      (∀ j g p, j < order → g < 3 → p < info.num_samples_per_mask →
        a ≠ c * info.num_masks + j * (3 * info.num_samples_per_mask)
          + g * info.num_samples_per_mask + p) →
      set_genotypes_masks_row order genotypes info mem c a = mem a) := by
  have hnm : info.num_masks = order * (3 * info.num_samples_per_mask) := hl.2.2.2.2.2.2.2.1
  have hfr := foldl_range_frame (fun (s : Nat → Nat) => s)
    (set_genotypes_masks_snp order genotypes info c) order
    (fun j a => ∃ g p, g < 3 ∧ p < info.num_samples_per_mask ∧
      a = c * info.num_masks + j * (3 * info.num_samples_per_mask)
        + g * info.num_samples_per_mask + p)
    (fun a v => ∀ j g p, j < order → g < 3 → p < info.num_samples_per_mask →
      a = c * info.num_masks + j * (3 * info.num_samples_per_mask)
        + g * info.num_samples_per_mask + p →
      v = if (p < info.num_affected ∨ (info.num_affected_with_padding ≤ p ∧
            p < info.num_affected_with_padding + info.num_unaffected)) ∧
          genotypes (c * order + j) p = set1_epi8 g then 255 else 0)
    (by
      rintro j j' a hj hj' ⟨g, p, hg, hp, rfl⟩ ⟨g', p', hg', hp', heq⟩
      rw [hnm] at heq
      exact (mask_offset_unique order _ c j g p c j' g' p' hj hg hp hj' hg' hp' heq).2.1)
    (by
      intro j mem a hj hnb
      apply (set_genotypes_masks_snp_spec order info hl genotypes c j hj).2 mem a
      intro g p hg hp heq
      exact hnb ⟨g, p, hg, hp, heq⟩)
    (by
      rintro j mem a hj ⟨g, p, hg, hp, rfl⟩ j' g' p' hj' hg' hp' heq
      have heq' := heq
      rw [hnm] at heq'
      obtain ⟨-, hjj, hgg, hpp⟩ :=
        mask_offset_unique order _ c j g p c j' g' p' hj hg hp hj' hg' hp' heq'
      subst hjj
      subst hgg
      subst hpp
      exact (set_genotypes_masks_snp_spec order info hl genotypes c j hj).1 mem g p hg hp)
  unfold set_genotypes_masks_row
  constructor
  · intro mem j g p hj hg hp
    exact hfr.1 mem j _ hj ⟨g, p, hg, hp, rfl⟩ j g p hj hg hp rfl
  · intro mem a ha
    apply hfr.2 mem a
    rintro j hj ⟨g, p, hg, hp, rfl⟩
    exact ha j g p hj hg hp rfl

/-- Every byte of the region after `set_genotypes_masks`, for a layout that
satisfies the invariant. -/
theorem set_genotypes_masks_spec (order : Nat) (info : masks_info)
    (hl : masks_layout order info) (genotypes : Nat → Nat → uint8_t) (R : Nat) :
    (∀ masks c j g p, c < R → j < order → g < 3 → p < info.num_samples_per_mask →
      set_genotypes_masks order genotypes R info masks
        (c * info.num_masks + j * (3 * info.num_samples_per_mask)
          + g * info.num_samples_per_mask + p) =
      if (p < info.num_affected ∨ (info.num_affected_with_padding ≤ p ∧
            p < info.num_affected_with_padding + info.num_unaffected)) ∧
          genotypes (c * order + j) p = set1_epi8 g then 255 else 0) ∧
    (∀ masks a,
      (∀ c j g p, c < R → j < order → g < 3 → p < info.num_samples_per_mask →
        a ≠ c * info.num_masks + j * (3 * info.num_samples_per_mask)
          + g * info.num_samples_per_mask + p) →
      set_genotypes_masks order genotypes R info masks a = masks a) := by
  have hnm : info.num_masks = order * (3 * info.num_samples_per_mask) := hl.2.2.2.2.2.2.2.1
  have hfr := foldl_range_frame (fun (s : Nat → Nat) => s)
    (set_genotypes_masks_row order genotypes info) R
    (fun c a => ∃ j g p, j < order ∧ g < 3 ∧ p < info.num_samples_per_mask ∧
      a = c * info.num_masks + j * (3 * info.num_samples_per_mask)
        + g * info.num_samples_per_mask + p)
    (fun a v => ∀ c j g p, c < R → j < order → g < 3 → p < info.num_samples_per_mask →
      a = c * info.num_masks + j * (3 * info.num_samples_per_mask)
        + g * info.num_samples_per_mask + p →
      v = if (p < info.num_affected ∨ (info.num_affected_with_padding ≤ p ∧
            p < info.num_affected_with_padding + info.num_unaffected)) ∧
          genotypes (c * order + j) p = set1_epi8 g then 255 else 0)
    (by
      rintro c c' a _ _ ⟨j, g, p, hj, hg, hp, rfl⟩ ⟨j', g', p', hj', hg', hp', heq⟩
      rw [hnm] at heq
      exact (mask_offset_unique order _ c j g p c' j' g' p' hj hg hp hj' hg' hp' heq).1)
    (by
      intro c mem a _ hnb
      apply (set_genotypes_masks_row_spec order info hl genotypes c).2 mem a
      intro j g p hj hg hp heq
      exact hnb ⟨j, g, p, hj, hg, hp, heq⟩)
    (by
      rintro c mem a _ ⟨j, g, p, hj, hg, hp, rfl⟩ c' j' g' p' _ hj' hg' hp' heq
      have heq' := heq
      rw [hnm] at heq'
      obtain ⟨hcc, hjj, hgg, hpp⟩ :=
        mask_offset_unique order _ c j g p c' j' g' p' hj hg hp hj' hg' hp' heq'
      subst hcc
      subst hjj
      subst hgg
      subst hpp
      exact (set_genotypes_masks_row_spec order info hl genotypes c).1 mem j g p hj hg hp)
  unfold set_genotypes_masks
  constructor
  · intro masks c j g p hc hj hg hp
    exact hfr.1 masks c _ hc ⟨j, g, p, hj, hg, hp, rfl⟩ c j g p hc hj hg hp rfl
  · intro masks a ha
    apply hfr.2 masks a
    rintro c hc ⟨j, g, p, hj, hg, hp, rfl⟩
    exact ha c j g p hc hj hg hp rfl

theorem set1_epi8_eq_iff (x : uint8_t) (g : Nat) (hg : g < 3) :
    x = set1_epi8 g ↔ x.val = g := by
  unfold set1_epi8
  constructor
  · intro h
    rw [h]
    show g % 256 = g
    omega
  · intro h
    apply Fin.ext
    show x.val = g % 256
    omega

/-- C7. For a layout built by `masks_info_init`, `set_genotypes_masks` leaves
at offset `c*(3*k*S) + j*3*S + g*S + p` of the mask region (row `c < R`, SNP
`j < k`, genotype code `g < 3`, byte `p < S`) the byte 0xFF if `p` is a real
sample position (`p < A`, or `A' ≤ p < A'+U`) and the genotype byte of SNP `j`
of row `c` at `p` equals `g`, and 0x00 otherwise; in particular the padding
bytes in `[A, A')` and `[A'+U, A'+U')` of every block are 0x00. -/
theorem set_genotypes_masks_bytes (order R A U : Nat) (info : masks_info)
    (hinit : masks_info_init order R A U = some info)
    (genotypes : Nat → Nat → uint8_t) (masks : Nat → Nat) (c j g p : Nat)
    (hc : c < R) (hj : j < order) (hg : g < 3) (hp : p < info.num_samples_per_mask) :
    set_genotypes_masks order genotypes R info masks
        (c * (3 * order * info.num_samples_per_mask) + j * 3 * info.num_samples_per_mask
          + g * info.num_samples_per_mask + p) =
      (if (p < info.num_affected ∨ (info.num_affected_with_padding ≤ p ∧
            p < info.num_affected_with_padding + info.num_unaffected)) ∧
          (genotypes (c * order + j) p).val = g then 255 else 0) ∧
    (((info.num_affected ≤ p ∧ p < info.num_affected_with_padding) ∨
        info.num_affected_with_padding + info.num_unaffected ≤ p) →
      set_genotypes_masks order genotypes R info masks
        (c * (3 * order * info.num_samples_per_mask) + j * 3 * info.num_samples_per_mask
          + g * info.num_samples_per_mask + p) = 0) := by
  have hl := masks_info_init_layout order R A U info hinit
  have hnm : info.num_masks = order * (3 * info.num_samples_per_mask) := hl.2.2.2.2.2.2.2.1
  have haddr : c * (3 * order * info.num_samples_per_mask) + j * 3 * info.num_samples_per_mask
      + g * info.num_samples_per_mask + p =
      c * info.num_masks + j * (3 * info.num_samples_per_mask)
        + g * info.num_samples_per_mask + p := by
    rw [hnm]; ring
  have hval := (set_genotypes_masks_spec order info hl genotypes R).1 masks c j g p hc hj hg hp
  rw [haddr, hval]
  have hiff := set1_epi8_eq_iff (genotypes (c * order + j) p) g hg
  constructor
  · by_cases hcond : (p < info.num_affected ∨ (info.num_affected_with_padding ≤ p ∧
        p < info.num_affected_with_padding + info.num_unaffected)) ∧
        genotypes (c * order + j) p = set1_epi8 g
    · rw [if_pos hcond, if_pos ⟨hcond.1, hiff.mp hcond.2⟩]
    · rw [if_neg hcond, if_neg (fun h => hcond ⟨h.1, hiff.mpr h.2⟩)]
  · intro hpad
    rw [if_neg]
    intro hcond
    obtain ⟨ha1, -, -, -, -, -, -, -, -⟩ := hl
    omega

/-- C7 witness: 10 affected samples with genotype 0, 10 unaffected with
genotype 2, one SNP, one row (A' = U' = 16): the gt0 block is 10 x 0xFF,
6 x 0x00, then 16 x 0x00 and the gt2 block is 16 x 0x00, 10 x 0xFF, 6 x 0x00,
whatever the region held before. -/
theorem set_genotypes_masks_bytes_witness :
    masks_info_init 1 1 10 10 = some ⟨10, 10, 16, 16, 1, 3, 32, 96⟩ ∧
    (List.range 32).map (fun p =>
      set_genotypes_masks 1 (fun _ p => if p < 16 then 0 else 2) 1
        ⟨10, 10, 16, 16, 1, 3, 32, 96⟩ (fun _ => 170)
        (0 * (3 * 1 * 32) + 0 * 3 * 32 + 0 * 32 + p)) =
      List.replicate 10 255 ++ List.replicate 6 0 ++ List.replicate 16 0 ∧
    (List.range 32).map (fun p =>
      set_genotypes_masks 1 (fun _ p => if p < 16 then 0 else 2) 1
        ⟨10, 10, 16, 16, 1, 3, 32, 96⟩ (fun _ => 170)
        (0 * (3 * 1 * 32) + 0 * 3 * 32 + 2 * 32 + p)) =
      List.replicate 16 0 ++ List.replicate 10 255 ++ List.replicate 6 0 := by
  refine ⟨by decide, ?_, ?_⟩
  · rw [List.map_congr_left (fun p hp =>
      (set_genotypes_masks_bytes 1 1 10 10 ⟨10, 10, 16, 16, 1, 3, 32, 96⟩ (by decide)
        (fun _ p => if p < 16 then 0 else 2) (fun _ => 170) 0 0 0 p
        (by decide) (by decide) (by decide) (List.mem_range.mp hp)).1)]
    decide
  · rw [List.map_congr_left (fun p hp =>
      (set_genotypes_masks_bytes 1 1 10 10 ⟨10, 10, 16, 16, 1, 3, 32, 96⟩ (by decide)
        (fun _ p => if p < 16 then 0 else 2) (fun _ => 170) 0 0 2 p
        (by decide) (by decide) (by decide) (List.mem_range.mp hp)).1)]
    decide

/-! ## Combination counter -/

theorem popcnt8_ones : popcnt8 255 = 8 := by decide

theorem popcnt8_zero : popcnt8 0 = 0 := by decide

/-- The two 64-bit population counts of a register add up the sixteen lanes. -/
theorem popcnt_si128 (x : Nat → Nat) :
    popcnt_u64 (extract_epi64 x 0) + popcnt_u64 (extract_epi64 x 1) =
      ((List.range 16).map (fun lane => popcnt8 (x lane))).sum := by
  simp only [popcnt_u64, extract_epi64, List.range_succ, List.range_zero, List.nil_append,
    List.map_append, List.map_cons, List.map_nil, List.sum_append, List.sum_cons, List.sum_nil,
    List.cons_append]
  simp only [Nat.mul_zero, Nat.mul_one, Nat.zero_add, Nat.add_zero, Nat.reduceAdd]
  omega

theorem sum_map_ite_filter (c : Nat → Bool) (k : Nat) :
    ((List.range k).map (fun l => if c l = true then 8 else 0)).sum =
      8 * ((List.range k).filter c).length := by
  induction k with
  | zero => rfl
  | succ k ih =>
    rw [List.range_succ, List.map_append, List.sum_append, List.filter_append,
      List.length_append, ih]
    cases hc : c k <;> simp [hc, Nat.mul_add]

/-- Population count of a register whose lanes are 0xFF / 0x00 flags. -/
theorem popcnt_si128_flags (x : Nat → Nat) (c : Nat → Bool)
    (h : ∀ lane, lane < 16 → x lane = if c lane = true then 255 else 0) :
    popcnt_u64 (extract_epi64 x 0) + popcnt_u64 (extract_epi64 x 1) =
      8 * ((List.range 16).filter c).length := by
  rw [popcnt_si128, ← sum_map_ite_filter]
  congr 1
  apply List.map_congr_left
  intro lane hlane
  rw [h lane (List.mem_range.mp hlane)]
  cases c lane
  · exact popcnt8_zero
  · exact popcnt8_ones

/-- A counting sweep in 16-byte lanes over flag registers counts, eight bits
at a time, the flagged positions below `16 * n`. -/
theorem popcount_sweep_flags (n : Nat) (x : Nat → Nat → Nat) (c : Nat → Bool)
    (h : ∀ t lane, t < n → lane < 16 → x t lane = if c (16 * t + lane) = true then 255 else 0) :
    (List.range n).foldl
      (fun count t => count +
        (popcnt_u64 (extract_epi64 (x t) 0) + popcnt_u64 (extract_epi64 (x t) 1))) 0 =
      8 * ((List.range (16 * n)).filter c).length := by
  induction n with
  | zero => rfl
  | succ n ih =>
    rw [List.range_succ, List.foldl_append, List.foldl_cons, List.foldl_nil,
      ih (fun t lane ht hl => h t lane (Nat.lt_succ_of_lt ht) hl),
      popcnt_si128_flags (x n) (fun lane => c (16 * n + lane))
        (fun lane hl => h n lane (Nat.lt_succ_self n) hl)]
    have e : 16 * (n + 1) = 16 * n + 16 := by ring
    rw [e, List.range_add, List.filter_append, List.length_append, List.filter_map,
      List.length_map, Nat.mul_add]
    rfl

/-- Positions at or above `n` that are never flagged do not count. -/
theorem filter_range_trim (c : Nat → Bool) (n m : Nat) (hnm : n ≤ m)
    (h : ∀ p, n ≤ p → p < m → c p = false) :
    ((List.range m).filter c).length = ((List.range n).filter c).length := by
  obtain ⟨d, rfl⟩ := Nat.exists_eq_add_of_le hnm
  rw [List.range_add, List.filter_append, List.length_append]
  have hnil : ((List.range d).map (fun x => n + x)).filter c = [] := by
    rw [List.filter_eq_nil_iff]
    intro a ha
    obtain ⟨x, hx, rfl⟩ := List.mem_map.mp ha
    rw [h (n + x) (Nat.le_add_right n x) (by have := List.mem_range.mp hx; omega)]
    simp
  rw [hnil]
  rfl

/-- Lane of an AND chain over registers. -/
theorem and_fold_lane (m : Nat) (x0 : Nat → Nat) (y : Nat → Nat → Nat) (lane : Nat) :
    ((List.range m).foldl (fun x j => and_si128 x (y j)) x0) lane =
      (List.range m).foldl (fun v j => v &&& y j lane) (x0 lane) := by
  induction m with
  | zero => rfl
  | succ m ih =>
    rw [List.range_succ, List.foldl_append, List.foldl_append, List.foldl_cons, List.foldl_nil,
      List.foldl_cons, List.foldl_nil]
    show ((List.range m).foldl (fun x j => and_si128 x (y j)) x0) lane &&& y m lane = _
    rw [ih]

/-- AND chain over 0xFF / 0x00 flags: the conjunction of the flags. -/
theorem and_fold_flags (m : Nat) (v0 : Nat) (w : Nat → Nat) (b0 : Bool) (b : Nat → Bool)
    (h0 : v0 = if b0 = true then 255 else 0)
    (hw : ∀ j, j < m → w j = if b j = true then 255 else 0) :
    (List.range m).foldl (fun v j => v &&& w j) v0 =
      if (b0 = true ∧ ∀ j, j < m → b j = true) then 255 else 0 := by
  induction m with
  | zero =>
    rw [List.range_zero, List.foldl_nil, h0]
    cases b0 <;> simp
  | succ m ih =>
    rw [List.range_succ, List.foldl_append, List.foldl_cons, List.foldl_nil,
      ih (fun j hj => hw j (Nat.lt_succ_of_lt hj)), hw m (Nat.lt_succ_self m)]
    have hiff : (b0 = true ∧ ∀ j, j < m + 1 → b j = true) ↔
        ((b0 = true ∧ ∀ j, j < m → b j = true) ∧ b m = true) := by
      constructor
      · intro h
        exact ⟨⟨h.1, fun j hj => h.2 j (Nat.lt_succ_of_lt hj)⟩, h.2 m (Nat.lt_succ_self m)⟩
      · intro h
        refine ⟨h.1.1, fun j hj => ?_⟩
        rcases Nat.lt_succ_iff_lt_or_eq.mp hj with hlt | heq
        · exact h.1.2 j hlt
        · rw [heq]; exact h.2
    by_cases hall : b0 = true ∧ ∀ j, j < m → b j = true
    · by_cases hb : b m = true
      · rw [if_pos hall, if_pos hb, if_pos (hiff.mpr ⟨hall, hb⟩)]
        rfl
      · rw [if_pos hall, if_neg hb, if_neg (fun h => hb (hiff.mp h).2)]
        rfl
    · rw [if_neg hall, if_neg (fun h => hall (hiff.mp h).1)]
      exact Nat.zero_and _

theorem set1_epi8_val (x : uint8_t) : set1_epi8 x.val = x := by
  unfold set1_epi8
  apply Fin.ext
  show x.val % 256 = x.val
  have := x.isLt
  omega

/-- A lane loaded from the block of SNP `j`, genotype code `g`, row `rc`. -/
theorem mask_load (order R : Nat) (info : masks_info) (hl : masks_layout order info)
    (genotypes : Nat → Nat → uint8_t) (masks : Nat → Nat) (rc j : Nat) (g : uint8_t)
    (hrc : rc < R) (hj : j < order) (hg : g.val < 3) (q lane : Nat)
    (hq : q + lane < info.num_samples_per_mask) :
    load_si128 (set_genotypes_masks order genotypes R info masks)
        (rc * order * NUM_GENOTYPES * info.num_samples_per_mask
          + j * NUM_GENOTYPES * info.num_samples_per_mask
          + g.val * info.num_samples_per_mask + q) lane =
      if ((q + lane < info.num_affected ∨ (info.num_affected_with_padding ≤ q + lane ∧
            q + lane < info.num_affected_with_padding + info.num_unaffected)) ∧
          genotypes (rc * order + j) (q + lane) = g) then 255 else 0 := by
  have hnm : info.num_masks = order * (3 * info.num_samples_per_mask) := hl.2.2.2.2.2.2.2.1
  have haddr : rc * order * NUM_GENOTYPES * info.num_samples_per_mask
      + j * NUM_GENOTYPES * info.num_samples_per_mask
      + g.val * info.num_samples_per_mask + q + lane =
      rc * info.num_masks + j * (3 * info.num_samples_per_mask)
        + g.val * info.num_samples_per_mask + (q + lane) := by
    rw [hnm]; simp only [NUM_GENOTYPES]; ring
  unfold load_si128
  rw [haddr, (set_genotypes_masks_spec order info hl genotypes R).1 masks rc j g.val (q + lane)
    hrc hj hg hq, set1_epi8_val]

/-- One counting sweep of `combination_counts` on masks built by
`set_genotypes_masks`: eight bits per position where every SNP matches. -/
theorem combination_count_spec (order R : Nat) (info : masks_info)
    (hl : masks_layout order info) (horder : 1 ≤ order)
    (genotypes : Nat → Nat → uint8_t) (masks : Nat → Nat) (rc : Nat) (hrc : rc < R)
    (permutation : Nat → uint8_t) (hperm : ∀ j, j < order → (permutation j).val < 3)
    (offset n : Nat) (hfit : offset + 16 * ((n + 15) / 16) ≤ info.num_samples_per_mask) :
    combination_count order (set_genotypes_masks order genotypes R info masks)
        (rc * order * NUM_GENOTYPES * info.num_samples_per_mask) permutation info offset n =
      8 * ((List.range (16 * ((n + 15) / 16))).filter (fun q =>
        decide ((offset + q < info.num_affected ∨ (info.num_affected_with_padding ≤ offset + q ∧
            offset + q < info.num_affected_with_padding + info.num_unaffected)) ∧
          ∀ j, j < order → genotypes (rc * order + j) (offset + q) = permutation j))).length := by
  have hsw := popcount_sweep_flags ((n + 15) / 16)
    (fun t => (List.range order).foldl
      (fun snp_and j =>
        and_si128 snp_and (load_si128 (set_genotypes_masks order genotypes R info masks)
          (rc * order * NUM_GENOTYPES * info.num_samples_per_mask
            + j * NUM_GENOTYPES * info.num_samples_per_mask
            + (permutation j).val * info.num_samples_per_mask + offset + 16 * t)))
      (load_si128 (set_genotypes_masks order genotypes R info masks)
        (rc * order * NUM_GENOTYPES * info.num_samples_per_mask
          + (permutation 0).val * info.num_samples_per_mask + offset + 16 * t)))
    (fun q =>
        decide ((offset + q < info.num_affected ∨ (info.num_affected_with_padding ≤ offset + q ∧
            offset + q < info.num_affected_with_padding + info.num_unaffected)) ∧
          ∀ j, j < order → genotypes (rc * order + j) (offset + q) = permutation j))
    (by
      intro t lane ht hlane
      have hq : offset + 16 * t + lane < info.num_samples_per_mask := by omega
      beta_reduce
      rw [and_fold_lane order _
        (fun j => load_si128 (set_genotypes_masks order genotypes R info masks)
          (rc * order * NUM_GENOTYPES * info.num_samples_per_mask
            + j * NUM_GENOTYPES * info.num_samples_per_mask
            + (permutation j).val * info.num_samples_per_mask + offset + 16 * t)) lane]
      have h0 : load_si128 (set_genotypes_masks order genotypes R info masks)
          (rc * order * NUM_GENOTYPES * info.num_samples_per_mask
            + (permutation 0).val * info.num_samples_per_mask + offset + 16 * t) lane =
          if decide ((offset + (16 * t + lane) < info.num_affected ∨
              (info.num_affected_with_padding ≤ offset + (16 * t + lane) ∧
                offset + (16 * t + lane) <
                  info.num_affected_with_padding + info.num_unaffected)) ∧
              genotypes (rc * order + 0) (offset + (16 * t + lane)) = permutation 0) = true
          then 255 else 0 := by
        have h := mask_load order R info hl genotypes masks rc 0 (permutation 0) hrc
          (by omega) (hperm 0 (by omega)) (offset + 16 * t) lane hq
        have e1 : rc * order * NUM_GENOTYPES * info.num_samples_per_mask
            + 0 * NUM_GENOTYPES * info.num_samples_per_mask
            + (permutation 0).val * info.num_samples_per_mask + (offset + 16 * t) =
            rc * order * NUM_GENOTYPES * info.num_samples_per_mask
            + (permutation 0).val * info.num_samples_per_mask + offset + 16 * t := by
          simp only [Nat.zero_mul, Nat.add_zero]; omega
        have e2 : offset + 16 * t + lane = offset + (16 * t + lane) := by omega
        rw [e1, e2] at h
        rw [h]
        simp only [decide_eq_true_eq]
      have hw : ∀ j, j < order →
          load_si128 (set_genotypes_masks order genotypes R info masks)
            (rc * order * NUM_GENOTYPES * info.num_samples_per_mask
              + j * NUM_GENOTYPES * info.num_samples_per_mask
              + (permutation j).val * info.num_samples_per_mask + offset + 16 * t) lane =
          if decide ((offset + (16 * t + lane) < info.num_affected ∨
              (info.num_affected_with_padding ≤ offset + (16 * t + lane) ∧
                offset + (16 * t + lane) <
                  info.num_affected_with_padding + info.num_unaffected)) ∧
              genotypes (rc * order + j) (offset + (16 * t + lane)) = permutation j) = true
          then 255 else 0 := by
        intro j hj
        have h := mask_load order R info hl genotypes masks rc j (permutation j) hrc
          hj (hperm j hj) (offset + 16 * t) lane hq
        have e1 : rc * order * NUM_GENOTYPES * info.num_samples_per_mask
            + j * NUM_GENOTYPES * info.num_samples_per_mask
            + (permutation j).val * info.num_samples_per_mask + (offset + 16 * t) =
            rc * order * NUM_GENOTYPES * info.num_samples_per_mask
            + j * NUM_GENOTYPES * info.num_samples_per_mask
            + (permutation j).val * info.num_samples_per_mask + offset + 16 * t := by
          omega
        have e2 : offset + 16 * t + lane = offset + (16 * t + lane) := by omega
        rw [e1, e2] at h
        rw [h]
        simp only [decide_eq_true_eq]
      rw [and_fold_flags order _ _ _ _ h0 hw]
      apply if_congr _ rfl rfl
      simp only [decide_eq_true_eq]
      constructor
      · intro h
        exact ⟨h.1.1, fun j hj => (h.2 j hj).2⟩
      · intro h
        exact ⟨⟨h.1, h.2 0 (by omega)⟩, fun j hj => ⟨h.1, h.2 j hj⟩⟩)
  exact hsw

/-- Two nested loops that store one value per (row, cell) at index
`rc * N + c` of an array read through `rd`. -/
theorem counts_fold_spec {σ : Type} (rd : σ → Nat → Nat) (body : σ → Nat → Nat → σ)
    (R N nperm : Nat) (hN : nperm ≤ N) (F : Nat → Nat → Nat)
    (hbody : ∀ s rc c a, rd (body s rc c) a = if a = rc * N + c then F rc c else rd s a)
    (s : σ) (rc c : Nat) (hrc : rc < R) (hc : c < nperm) :
    rd ((List.range R).foldl
      (fun s rc => (List.range nperm).foldl (fun s c => body s rc c) s) s) (rc * N + c)
      = F rc c := by
  have hinner : ∀ rc,
      (∀ s c a, c < nperm → a = rc * N + c →
        ∀ c', c' < nperm → a = rc * N + c' →
        rd ((List.range nperm).foldl (fun s c => body s rc c) s) a = F rc c') ∧
      (∀ s a, (∀ c, c < nperm → ¬ a = rc * N + c) →
        rd ((List.range nperm).foldl (fun s c => body s rc c) s) a = rd s a) := by
    intro rc
    exact foldl_range_frame rd (fun s c => body s rc c) nperm
      (fun c a => a = rc * N + c)
      (fun a v => ∀ c', c' < nperm → a = rc * N + c' → v = F rc c')
      (by intro c c' a _ _ h h'; omega)
      (by
        intro c s a _ hnb
        show rd (body s rc c) a = rd s a
        rw [hbody, if_neg hnb])
      (by
        intro c s a _ hb c' _ hb'
        show rd (body s rc c) a = F rc c'
        have hcc : c = c' := by omega
        rw [hbody, if_pos hb, hcc])
  have houter := foldl_range_frame rd
    (fun s rc => (List.range nperm).foldl (fun s c => body s rc c) s) R
    (fun rc a => ∃ c, c < nperm ∧ a = rc * N + c)
    (fun a v => ∀ rc c, rc < R → c < nperm → a = rc * N + c → v = F rc c)
    (by
      rintro rc rc' a _ _ ⟨c, hc, rfl⟩ ⟨c', hc', heq⟩
      exact (radix_unique N rc c rc' c' (by omega) (by omega) heq).1)
    (by
      intro rc s a _ hnb
      apply (hinner rc).2 s a
      intro c hc heq
      exact hnb ⟨c, hc, heq⟩)
    (by
      rintro rc s a _ ⟨c, hc, rfl⟩ rc' c' _ hc' heq
      obtain ⟨hrr, hcc⟩ := radix_unique N rc c rc' c' (by omega) (by omega) heq
      subst hrr
      subst hcc
      exact (hinner rc).1 s c _ hc rfl c hc rfl)
  exact houter.1 s rc _ hrc ⟨c, hc, rfl⟩ rc c hrc hc rfl

/-- C8. On masks built by `set_genotypes_masks` from the genotype columns (layout
from `masks_info_init`, order at least 1, cells with codes in {0,1,2}),
`combination_counts` stores in `counts_aff[rc*3^k + c]` the number of affected
samples of row `rc` whose genotype at every SNP `j < k` equals the code of
cell `c` for SNP `j`, and in `counts_unaff[rc*3^k + c]` the same number over
the unaffected samples; the summed population count is eight times it. -/
theorem combination_counts_scalar (order R A U : Nat) (info : masks_info)
    (hinit : masks_info_init order R A U = some info) (horder : 1 ≤ order)
    (genotypes : Nat → Nat → uint8_t) (masks : Nat → Nat)
    (genotype_permutations : Nat → Nat → uint8_t)
    (hperm : ∀ c j, c < 3 ^ order → j < order → (genotype_permutations c j).val < 3)
    (counts_aff counts_unaff : Nat → Nat) (rc c : Nat) (hrc : rc < R) (hc : c < 3 ^ order) :
    (combination_counts order (set_genotypes_masks order genotypes R info masks)
        genotype_permutations (3 ^ order) counts_aff counts_unaff info).1 (rc * 3 ^ order + c) =
      ((List.range A).filter (fun p => decide (∀ j, j < order →
        genotypes (rc * order + j) p = genotype_permutations c j))).length ∧
    (combination_counts order (set_genotypes_masks order genotypes R info masks)
        genotype_permutations (3 ^ order) counts_aff counts_unaff info).2 (rc * 3 ^ order + c) =
      ((List.range U).filter (fun q => decide (∀ j, j < order →
        genotypes (rc * order + j) (info.num_affected_with_padding + q)
          = genotype_permutations c j))).length ∧
    combination_count order (set_genotypes_masks order genotypes R info masks)
        (rc * order * NUM_GENOTYPES * info.num_samples_per_mask) (genotype_permutations c)
        info 0 info.num_affected =
      8 * ((List.range A).filter (fun p => decide (∀ j, j < order →
        genotypes (rc * order + j) p = genotype_permutations c j))).length ∧
    combination_count order (set_genotypes_masks order genotypes R info masks)
        (rc * order * NUM_GENOTYPES * info.num_samples_per_mask) (genotype_permutations c)
        info info.num_affected_with_padding info.num_unaffected =
      8 * ((List.range U).filter (fun q => decide (∀ j, j < order →
        genotypes (rc * order + j) (info.num_affected_with_padding + q)
          = genotype_permutations c j))).length := by
  have hl := masks_info_init_layout order R A U info hinit
  obtain ⟨hA, hU, -, -, hR, hN, -, -⟩ := masks_info_init_fields order R A U info hinit
  obtain ⟨ha1, ha2, ha3, hu1, hu2, hu3, hs, -, -⟩ := hl
  have hl := masks_info_init_layout order R A U info hinit
  -- the affected sweep
  have haff : combination_count order (set_genotypes_masks order genotypes R info masks)
      (rc * order * NUM_GENOTYPES * info.num_samples_per_mask) (genotype_permutations c)
      info 0 info.num_affected =
      8 * ((List.range A).filter (fun p => decide (∀ j, j < order →
        genotypes (rc * order + j) p = genotype_permutations c j))).length := by
    rw [combination_count_spec order R info hl horder genotypes masks rc hrc
      (genotype_permutations c) (fun j hj => hperm c j hc hj) 0 info.num_affected (by omega)]
    congr 1
    rw [filter_range_trim _ info.num_affected (16 * ((info.num_affected + 15) / 16))
      (by omega) (by
        intro p hp1 hp2
        apply decide_eq_false
        intro h
        omega), hA]
    congr 1
    apply List.filter_congr
    intro p hp
    have hp' := List.mem_range.mp hp
    apply decide_eq_decide.mpr
    constructor
    · intro h j hj
      have := h.2 j hj
      rw [Nat.zero_add] at this
      exact this
    · intro h
      refine ⟨Or.inl (by omega), fun j hj => ?_⟩
      rw [Nat.zero_add]
      exact h j hj
  -- the unaffected sweep
  have hunaff : combination_count order (set_genotypes_masks order genotypes R info masks)
      (rc * order * NUM_GENOTYPES * info.num_samples_per_mask) (genotype_permutations c)
      info info.num_affected_with_padding info.num_unaffected =
      8 * ((List.range U).filter (fun q => decide (∀ j, j < order →
        genotypes (rc * order + j) (info.num_affected_with_padding + q)
          = genotype_permutations c j))).length := by
    rw [combination_count_spec order R info hl horder genotypes masks rc hrc
      (genotype_permutations c) (fun j hj => hperm c j hc hj)
      info.num_affected_with_padding info.num_unaffected (by omega)]
    congr 1
    rw [filter_range_trim _ info.num_unaffected (16 * ((info.num_unaffected + 15) / 16))
      (by omega) (by
        intro p hp1 hp2
        apply decide_eq_false
        intro h
        omega), hU]
    congr 1
    apply List.filter_congr
    intro p hp
    have hp' := List.mem_range.mp hp
    apply decide_eq_decide.mpr
    constructor
    · intro h
      exact h.2
    · intro h
      exact ⟨Or.inr ⟨by omega, by omega⟩, h⟩
  refine ⟨?_, ?_, haff, hunaff⟩
  · unfold combination_counts
    rw [hR, hN]
    have h := counts_fold_spec (fun (s : (Nat → Nat) × (Nat → Nat)) => s.1)
      (fun counts rc c =>
        (fun n => if n = rc * 3 ^ order + c then
            combination_count order (set_genotypes_masks order genotypes R info masks)
              (rc * order * NUM_GENOTYPES * info.num_samples_per_mask)
              (genotype_permutations c) info 0 info.num_affected / 8
          else counts.1 n,
         fun n => if n = rc * 3 ^ order + c then
            combination_count order (set_genotypes_masks order genotypes R info masks)
              (rc * order * NUM_GENOTYPES * info.num_samples_per_mask)
              (genotype_permutations c) info info.num_affected_with_padding
              info.num_unaffected / 8
          else counts.2 n))
      R (3 ^ order) (3 ^ order) (le_refl _)
      (fun rc c => combination_count order (set_genotypes_masks order genotypes R info masks)
        (rc * order * NUM_GENOTYPES * info.num_samples_per_mask)
        (genotype_permutations c) info 0 info.num_affected / 8)
      (fun _ _ _ _ => rfl) (counts_aff, counts_unaff) rc c hrc hc
    refine Eq.trans h ?_
    beta_reduce
    rw [haff]
    omega
  · unfold combination_counts
    rw [hR, hN]
    have h := counts_fold_spec (fun (s : (Nat → Nat) × (Nat → Nat)) => s.2)
      (fun counts rc c =>
        (fun n => if n = rc * 3 ^ order + c then
            combination_count order (set_genotypes_masks order genotypes R info masks)
              (rc * order * NUM_GENOTYPES * info.num_samples_per_mask)
              (genotype_permutations c) info 0 info.num_affected / 8
          else counts.1 n,
         fun n => if n = rc * 3 ^ order + c then
            combination_count order (set_genotypes_masks order genotypes R info masks)
              (rc * order * NUM_GENOTYPES * info.num_samples_per_mask)
              (genotype_permutations c) info info.num_affected_with_padding
              info.num_unaffected / 8
          else counts.2 n))
      R (3 ^ order) (3 ^ order) (le_refl _)
      (fun rc c => combination_count order (set_genotypes_masks order genotypes R info masks)
        (rc * order * NUM_GENOTYPES * info.num_samples_per_mask)
        (genotype_permutations c) info info.num_affected_with_padding
        info.num_unaffected / 8)
      (fun _ _ _ _ => rfl) (counts_aff, counts_unaff) rc c hrc hc
    refine Eq.trans h ?_
    beta_reduce
    rw [hunaff]
    omega

/-- C8 witness: one SNP, two affected samples with genotype 1 and two
unaffected samples with genotype 0; the cell with code 1 counts the two
affected samples. -/
theorem combination_counts_scalar_witness :
    masks_info_init 1 1 2 2 = some ⟨2, 2, 16, 16, 1, 3, 32, 96⟩ ∧
    (combination_counts 1
        (set_genotypes_masks 1 (fun _ p => if p < 16 then 1 else 0) 1
          ⟨2, 2, 16, 16, 1, 3, 32, 96⟩ (fun _ => 170))
        (fun c _ => set1_epi8 c) (3 ^ 1) (fun _ => 0) (fun _ => 0)
        ⟨2, 2, 16, 16, 1, 3, 32, 96⟩).1 (0 * 3 ^ 1 + 1) =
      ((List.range 2).filter (fun p => decide (∀ j, j < 1 →
        (if p < 16 then (1 : uint8_t) else 0) = set1_epi8 1))).length ∧
    ((List.range 2).filter (fun p => decide (∀ j, j < 1 →
        (if p < 16 then (1 : uint8_t) else 0) = set1_epi8 1))).length = 2 :=
  ⟨by decide,
   (combination_counts_scalar 1 1 2 2 ⟨2, 2, 16, 16, 1, 3, 32, 96⟩ (by decide) (by decide)
      (fun _ p => if p < 16 then 1 else 0) (fun _ => 170) (fun c _ => set1_epi8 c)
      (fun c j hc _ => by
        show c % 256 < 3
        have h3 : (3 : Nat) ^ 1 = 3 := by decide
        omega)
      (fun _ => 0) (fun _ => 0) 0 1 (by decide) (by decide)).1,
   by decide⟩

/-! ## Confusion matrix: the predicted-positive mask -/

theorem and_flags (P Q : Prop) [Decidable P] [Decidable Q] :
    (if P then 255 else 0) &&& (if Q then 255 else 0) = if P ∧ Q then 255 else 0 := by
  by_cases hP : P <;> by_cases hQ : Q <;> simp [hP, hQ]

theorem or_flags (P Q : Prop) [Decidable P] [Decidable Q] :
    (if P then 255 else 0) ||| (if Q then 255 else 0) = if P ∨ Q then 255 else 0 := by
  by_cases hP : P <;> by_cases hQ : Q <;> simp [hP, hQ]

/-- The block of one high-risk cell after the first sweep and `m` AND
sweeps of `confusion_matrix`. -/
theorem confusion_cell_passes (order : Nat) (combination : risky_combination)
    (info : masks_info) (hl : masks_layout order info)
    (genotypes : Nat → Nat → uint8_t) (i m : Nat) (mem : Nat → Nat) :
    (∀ p, p < info.num_samples_per_mask →
      ((List.range m).foldl
        (fun mem j' =>
          (List.range ((info.num_samples_per_mask + 15) / 16)).foldl
            (fun mem t =>
              store_si128 mem (i * info.num_samples_per_mask + 16 * t)
                (and_si128 (load_si128 mem (i * info.num_samples_per_mask + 16 * t))
                  (fun lane => cmpeq_epi8 (genotypes (j' + 1) (16 * t + lane))
                    (combination.genotypes (i * order + (j' + 1))))))
            mem)
        ((List.range ((info.num_samples_per_mask + 15) / 16)).foldl
          (fun mem t =>
            store_si128 mem (i * info.num_samples_per_mask + 16 * t)
              (fun lane => cmpeq_epi8 (genotypes 0 (16 * t + lane))
                (combination.genotypes (i * order))))
          mem)) (i * info.num_samples_per_mask + p) =
      if ∀ j, j < m + 1 → genotypes j p = combination.genotypes (i * order + j)
      then 255 else 0) ∧
    (∀ a, (a < i * info.num_samples_per_mask ∨
        i * info.num_samples_per_mask + info.num_samples_per_mask ≤ a) →
      ((List.range m).foldl
        (fun mem j' =>
          (List.range ((info.num_samples_per_mask + 15) / 16)).foldl
            (fun mem t =>
              store_si128 mem (i * info.num_samples_per_mask + 16 * t)
                (and_si128 (load_si128 mem (i * info.num_samples_per_mask + 16 * t))
                  (fun lane => cmpeq_epi8 (genotypes (j' + 1) (16 * t + lane))
                    (combination.genotypes (i * order + (j' + 1))))))
            mem)
        ((List.range ((info.num_samples_per_mask + 15) / 16)).foldl
          (fun mem t =>
            store_si128 mem (i * info.num_samples_per_mask + 16 * t)
              (fun lane => cmpeq_epi8 (genotypes 0 (16 * t + lane))
                (combination.genotypes (i * order))))
          mem)) a = mem a) := by
  obtain ⟨ha1, ha2, ha3, hu1, hu2, hu3, hs, -, -⟩ := hl
  have hn : 16 * ((info.num_samples_per_mask + 15) / 16) = info.num_samples_per_mask := by
    omega
  induction m with
  | zero =>
    have hsw := sweep_spec (i * info.num_samples_per_mask)
      ((info.num_samples_per_mask + 15) / 16)
      (fun q _ => cmpeq_epi8 (genotypes 0 q) (combination.genotypes (i * order)))
      (fun mem t => store_si128 mem (i * info.num_samples_per_mask + 16 * t)
        (fun lane => cmpeq_epi8 (genotypes 0 (16 * t + lane))
          (combination.genotypes (i * order))))
      (fun _ _ => rfl)
    rw [hn] at hsw
    beta_reduce at hsw
    simp only [List.range_zero, List.foldl_nil]
    constructor
    · intro p hp
      rw [hsw.1 mem p hp]
      unfold cmpeq_epi8
      apply if_congr _ rfl rfl
      constructor
      · intro h j hj
        have hj0 : j = 0 := by omega
        rw [hj0]
        exact h
      · intro h
        exact h 0 (by omega)
    · intro a ha
      exact hsw.2 mem a ha
  | succ m ih =>
    rw [List.range_succ, List.foldl_append, List.foldl_cons, List.foldl_nil]
    have hsw := sweep_spec (i * info.num_samples_per_mask)
      ((info.num_samples_per_mask + 15) / 16)
      (fun q old => old &&& cmpeq_epi8 (genotypes (m + 1) q)
        (combination.genotypes (i * order + (m + 1))))
      (fun mem t => store_si128 mem (i * info.num_samples_per_mask + 16 * t)
        (and_si128 (load_si128 mem (i * info.num_samples_per_mask + 16 * t))
          (fun lane => cmpeq_epi8 (genotypes (m + 1) (16 * t + lane))
            (combination.genotypes (i * order + (m + 1))))))
      (fun _ _ => rfl)
    rw [hn] at hsw
    beta_reduce at hsw
    constructor
    · intro p hp
      rw [hsw.1 _ p hp, ih.1 p hp]
      unfold cmpeq_epi8
      rw [and_flags]
      apply if_congr _ rfl rfl
      constructor
      · intro h j hj
        rcases Nat.lt_succ_iff_lt_or_eq.mp hj with hlt | heq
        · exact h.1 j hlt
        · rw [heq]; exact h.2
      · intro h
        exact ⟨fun j hj => h j (Nat.lt_succ_of_lt hj), h (m + 1) (Nat.lt_succ_self _)⟩
    · intro a ha
      rw [hsw.2 _ a ha]
      exact ih.2 a ha

/-- The array `confusion_masks`: one flag per high-risk cell and position,
set when every SNP of the position matches the cell. -/
theorem confusion_masks_spec (order : Nat) (combination : risky_combination)
    (info : masks_info) (hl : masks_layout order info) (horder : 1 ≤ order)
    (genotypes : Nat → Nat → uint8_t) (stack : Nat → Nat) (i p : Nat)
    (hi : i < combination.num_risky_genotypes) (hp : p < info.num_samples_per_mask) :
    confusion_masks order combination info genotypes stack (i * info.num_samples_per_mask + p) =
      if ∀ j, j < order → genotypes j p = combination.genotypes (i * order + j)
      then 255 else 0 := by
  have hfr := foldl_range_blocks (fun (s : Nat → Nat) => s)
    (fun mem i =>
      (List.range (order - 1)).foldl
        (fun mem j' =>
          (List.range ((info.num_samples_per_mask + 15) / 16)).foldl
            (fun mem t =>
              store_si128 mem (i * info.num_samples_per_mask + 16 * t)
                (and_si128 (load_si128 mem (i * info.num_samples_per_mask + 16 * t))
                  (fun lane => cmpeq_epi8 (genotypes (j' + 1) (16 * t + lane))
                    (combination.genotypes (i * order + (j' + 1))))))
            mem)
        ((List.range ((info.num_samples_per_mask + 15) / 16)).foldl
          (fun mem t =>
            store_si128 mem (i * info.num_samples_per_mask + 16 * t)
              (fun lane => cmpeq_epi8 (genotypes 0 (16 * t + lane))
                (combination.genotypes (i * order))))
          mem))
    info.num_samples_per_mask 0 combination.num_risky_genotypes
    (fun i p _ => if ∀ j, j < order → genotypes j p = combination.genotypes (i * order + j)
      then 255 else 0)
    (by
      intro i mem a _ ha
      apply (confusion_cell_passes order combination info hl genotypes i (order - 1) mem).2 a
      have e : (i + 1) * info.num_samples_per_mask =
          i * info.num_samples_per_mask + info.num_samples_per_mask := Nat.succ_mul _ _
      omega)
    (by
      intro i mem p _ hp
      have h := (confusion_cell_passes order combination info hl genotypes i (order - 1) mem).1
        p hp
      have e : order - 1 + 1 = order := by omega
      rw [e] at h
      rw [Nat.zero_add]
      exact h)
  have h := hfr.1 (memset stack 0 0
    (combination.num_risky_genotypes * info.num_samples_per_mask)) i p hi hp
  rw [Nat.zero_add] at h
  exact h

/-- Lane of an OR chain over registers. -/
theorem or_fold_lane (m : Nat) (x0 : Nat → Nat) (y : Nat → Nat → Nat) (lane : Nat) :
    ((List.range m).foldl (fun x j => or_si128 x (y j)) x0) lane =
      (List.range m).foldl (fun v j => v ||| y j lane) (x0 lane) := by
  induction m with
  | zero => rfl
  | succ m ih =>
    rw [List.range_succ, List.foldl_append, List.foldl_append, List.foldl_cons, List.foldl_nil,
      List.foldl_cons, List.foldl_nil]
    show ((List.range m).foldl (fun x j => or_si128 x (y j)) x0) lane ||| y m lane = _
    rw [ih]

/-- OR chain over 0xFF / 0x00 flags: the disjunction of the flags. -/
theorem or_fold_flags (m : Nat) (v0 : Nat) (w : Nat → Nat) (b0 : Prop) (b : Nat → Prop)
    [Decidable b0] [DecidablePred b]
    (h0 : v0 = if b0 then 255 else 0)
    (hw : ∀ j, j < m → w j = if b j then 255 else 0) :
    (List.range m).foldl (fun v j => v ||| w j) v0 =
      if (b0 ∨ ∃ j, j < m ∧ b j) then 255 else 0 := by
  induction m with
  | zero =>
    rw [List.range_zero, List.foldl_nil, h0]
    apply if_congr _ rfl rfl
    constructor
    · intro h
      exact Or.inl h
    · rintro (h | ⟨j, hj, -⟩)
      · exact h
      · exact absurd hj (Nat.not_lt_zero j)
  | succ m ih =>
    rw [List.range_succ, List.foldl_append, List.foldl_cons, List.foldl_nil,
      ih (fun j hj => hw j (Nat.lt_succ_of_lt hj)), hw m (Nat.lt_succ_self m), or_flags]
    apply if_congr _ rfl rfl
    constructor
    · rintro ((h | ⟨j, hj, hb⟩) | h)
      · exact Or.inl h
      · exact Or.inr ⟨j, Nat.lt_succ_of_lt hj, hb⟩
      · exact Or.inr ⟨m, Nat.lt_succ_self m, h⟩
    · rintro (h | ⟨j, hj, hb⟩)
      · exact Or.inl (Or.inl h)
      · rcases Nat.lt_succ_iff_lt_or_eq.mp hj with hlt | heq
        · exact Or.inl (Or.inr ⟨j, hlt, hb⟩)
        · rw [heq] at hb
          exact Or.inr hb

/-- The array `final_masks` on the flags of `confusion_masks`: a position is
flagged when it is a real sample position and matches one high-risk cell. -/
theorem final_masks_spec (order : Nat) (combination : risky_combination)
    (info : masks_info) (hl : masks_layout order info) (horder : 1 ≤ order)
    (hn : 1 ≤ combination.num_risky_genotypes)
    (genotypes : Nat → Nat → uint8_t) (stack_confusion stack_final : Nat → Nat) (p : Nat)
    (hp : p < info.num_samples_per_mask) :
    final_masks combination info
        (confusion_masks order combination info genotypes stack_confusion) stack_final p =
      if (p < info.num_affected ∨ (info.num_affected_with_padding ≤ p ∧
            p < info.num_affected_with_padding + info.num_unaffected)) ∧
          ∃ i, i < combination.num_risky_genotypes ∧
            ∀ j, j < order → genotypes j p = combination.genotypes (i * order + j)
      then 255 else 0 := by
  have hl' := hl
  obtain ⟨ha1, ha2, ha3, hu1, hu2, hu3, hs, -, -⟩ := hl'
  have hn16 : 16 * ((info.num_samples_per_mask + 15) / 16) = info.num_samples_per_mask := by
    omega
  have hfr := foldl_range_blocks (fun (s : Nat → Nat) => s)
    (fun mem t =>
      store_si128 mem (16 * t)
        ((List.range (combination.num_risky_genotypes - 1)).foldl
          (fun final_or j' =>
            or_si128 final_or
              (load_si128 (confusion_masks order combination info genotypes stack_confusion)
                ((j' + 1) * info.num_samples_per_mask + 16 * t)))
          (load_si128 (confusion_masks order combination info genotypes stack_confusion)
            (16 * t))))
    16 0 ((info.num_samples_per_mask + 15) / 16)
    (fun t lane _ =>
      ((List.range (combination.num_risky_genotypes - 1)).foldl
          (fun final_or j' =>
            or_si128 final_or
              (load_si128 (confusion_masks order combination info genotypes stack_confusion)
                ((j' + 1) * info.num_samples_per_mask + 16 * t)))
          (load_si128 (confusion_masks order combination info genotypes stack_confusion)
            (16 * t))) lane)
    (by
      intro t mem a _ ha
      show store_si128 mem (16 * t) _ a = mem a
      unfold store_si128
      rw [if_neg (by omega)])
    (by
      intro t mem lane _ hlane
      show store_si128 mem (16 * t) _ (0 + t * 16 + lane) = _
      unfold store_si128
      rw [if_pos (by omega)]
      have e : 0 + t * 16 + lane - 16 * t = lane := by omega
      rw [e])
  have hsweep := hfr.1 stack_final (p / 16) (p % 16) (by omega) (by omega)
  have e1 : 0 + p / 16 * 16 + p % 16 = p := by omega
  rw [e1] at hsweep
  beta_reduce at hsweep
  rw [or_fold_lane] at hsweep
  have hflag0 : load_si128 (confusion_masks order combination info genotypes stack_confusion)
      (16 * (p / 16)) (p % 16) =
      if ∀ j, j < order → genotypes j p = combination.genotypes (0 * order + j)
      then 255 else 0 := by
    have h := confusion_masks_spec order combination info hl horder genotypes stack_confusion
      0 p (by omega) hp
    have e : 0 * info.num_samples_per_mask + p = 16 * (p / 16) + p % 16 := by
      rw [Nat.zero_mul]; omega
    rw [e] at h
    exact h
  have hflags : ∀ j', j' < combination.num_risky_genotypes - 1 →
      load_si128 (confusion_masks order combination info genotypes stack_confusion)
        ((j' + 1) * info.num_samples_per_mask + 16 * (p / 16)) (p % 16) =
      if ∀ j, j < order → genotypes j p = combination.genotypes ((j' + 1) * order + j)
      then 255 else 0 := by
    intro j' hj'
    have h := confusion_masks_spec order combination info hl horder genotypes stack_confusion
      (j' + 1) p (by omega) hp
    have e : (j' + 1) * info.num_samples_per_mask + p =
        (j' + 1) * info.num_samples_per_mask + 16 * (p / 16) + p % 16 := by omega
    rw [e] at h
    exact h
  rw [or_fold_flags (combination.num_risky_genotypes - 1) _ _
    (∀ j, j < order → genotypes j p = combination.genotypes (0 * order + j))
    (fun j' => ∀ j, j < order → genotypes j p = combination.genotypes ((j' + 1) * order + j))
    hflag0 hflags] at hsweep
  have hex : ((∀ j, j < order → genotypes j p = combination.genotypes (0 * order + j)) ∨
      ∃ j', j' < combination.num_risky_genotypes - 1 ∧
        ∀ j, j < order → genotypes j p = combination.genotypes ((j' + 1) * order + j)) ↔
      ∃ i, i < combination.num_risky_genotypes ∧
        ∀ j, j < order → genotypes j p = combination.genotypes (i * order + j) := by
    constructor
    · rintro (h | ⟨j', hj', h⟩)
      · exact ⟨0, by omega, h⟩
      · exact ⟨j' + 1, by omega, h⟩
    · rintro ⟨i, hi, h⟩
      rcases Nat.eq_zero_or_pos i with h0 | hpos
      · subst h0
        exact Or.inl h
      · refine Or.inr ⟨i - 1, by omega, ?_⟩
        have e : i - 1 + 1 = i := by omega
        rw [e]
        exact h
  unfold final_masks memset
  simp only []
  by_cases hpu : info.num_affected_with_padding + info.num_unaffected ≤ p
  · rw [if_pos (by omega), if_neg (by omega)]
  · rw [if_neg (by omega)]
    by_cases hpa : info.num_affected ≤ p ∧ p < info.num_affected_with_padding
    · rw [if_pos (by omega), if_neg (by omega)]
    · rw [if_neg (by omega)]
      refine Eq.trans hsweep ?_
      apply if_congr _ rfl rfl
      rw [hex]
      constructor
      · intro h
        exact ⟨by omega, h⟩
      · intro h
        exact h.2

/-- A counting sweep over a mask of 0xFF / 0x00 flags. -/
theorem final_popcount_flags (mask : Nat → Nat) (offset n : Nat) (c : Nat → Bool)
    (h : ∀ q, q < 16 * ((n + 15) / 16) → mask (offset + q) = if c q = true then 255 else 0) :
    final_popcount mask offset n = 8 * ((List.range (16 * ((n + 15) / 16))).filter c).length :=
  popcount_sweep_flags ((n + 15) / 16) (fun t => load_si128 mask (offset + 16 * t)) c
    (fun t lane ht hlane => by
      show mask (offset + 16 * t + lane) = _
      rw [Nat.add_assoc]
      exact h (16 * t + lane) (by omega))

/-- C9. For a layout built by `masks_info_init` (sample counts within the
range of `int`), order at least 1 and a risky combination with at least one
high-risk cell, `confusion_matrix` returns (TP, FN, FP, TN) where TP is the
number of affected positions `0..A-1` whose `k` genotype codes equal one of
the high-risk cells, FP the number of unaffected positions `A'..A'+U-1` with
that property, FN = A - TP and TN = U - FP; padding positions never count. -/
theorem confusion_matrix_counts (order R A U : Nat) (info : masks_info)
    (hinit : masks_info_init order R A U = some info)
    (hA : A ≤ 2147483647) (hU : U ≤ 2147483647) (horder : 1 ≤ order)
    (combination : risky_combination) (hn : 1 ≤ combination.num_risky_genotypes)
    (genotypes : Nat → Nat → uint8_t) (stack_confusion stack_final : Nat → Nat) :
    confusion_matrix order combination info genotypes stack_confusion stack_final =
      (((List.range A).filter (fun p => decide
          (∃ i, i < combination.num_risky_genotypes ∧
            ∀ j, j < order → genotypes j p = combination.genotypes (i * order + j)))).length,
       A - ((List.range A).filter (fun p => decide
          (∃ i, i < combination.num_risky_genotypes ∧
            ∀ j, j < order → genotypes j p = combination.genotypes (i * order + j)))).length,
       ((List.range U).filter (fun q => decide
          (∃ i, i < combination.num_risky_genotypes ∧
            ∀ j, j < order → genotypes j (info.num_affected_with_padding + q)
              = combination.genotypes (i * order + j)))).length,
       U - ((List.range U).filter (fun q => decide
          (∃ i, i < combination.num_risky_genotypes ∧
            ∀ j, j < order → genotypes j (info.num_affected_with_padding + q)
              = combination.genotypes (i * order + j)))).length) := by
  have hl := masks_info_init_layout order R A U info hinit
  obtain ⟨hfA, hfU, -, -, -, -, -, -⟩ := masks_info_init_fields order R A U info hinit
  obtain ⟨ha1, ha2, ha3, hu1, hu2, hu3, hs, -, -⟩ := hl
  have hl := masks_info_init_layout order R A U info hinit
  have h0 : final_popcount (final_masks combination info
      (confusion_masks order combination info genotypes stack_confusion) stack_final)
      0 info.num_affected =
      8 * ((List.range A).filter (fun p => decide
          (∃ i, i < combination.num_risky_genotypes ∧
            ∀ j, j < order → genotypes j p = combination.genotypes (i * order + j)))).length := by
    rw [final_popcount_flags _ 0 info.num_affected
      (fun p => decide ((p < info.num_affected ∨ (info.num_affected_with_padding ≤ p ∧
            p < info.num_affected_with_padding + info.num_unaffected)) ∧
          ∃ i, i < combination.num_risky_genotypes ∧
            ∀ j, j < order → genotypes j p = combination.genotypes (i * order + j)))
      (fun q hq => by
        rw [Nat.zero_add, final_masks_spec order combination info hl horder hn genotypes
          stack_confusion stack_final q (by omega)]
        simp only [decide_eq_true_eq])]
    congr 1
    rw [filter_range_trim _ info.num_affected (16 * ((info.num_affected + 15) / 16))
      (by omega) (by
        intro p hp1 hp2
        apply decide_eq_false
        intro h
        omega), hfA]
    congr 1
    apply List.filter_congr
    intro p hp
    have hp' := List.mem_range.mp hp
    apply decide_eq_decide.mpr
    constructor
    · intro h
      exact h.2
    · intro h
      exact ⟨Or.inl (by omega), h⟩
  have h1 : final_popcount (final_masks combination info
      (confusion_masks order combination info genotypes stack_confusion) stack_final)
      info.num_affected_with_padding info.num_unaffected =
      8 * ((List.range U).filter (fun q => decide
          (∃ i, i < combination.num_risky_genotypes ∧
            ∀ j, j < order → genotypes j (info.num_affected_with_padding + q)
              = combination.genotypes (i * order + j)))).length := by
    rw [final_popcount_flags _ info.num_affected_with_padding info.num_unaffected
      (fun q => decide ((info.num_affected_with_padding + q < info.num_affected ∨
          (info.num_affected_with_padding ≤ info.num_affected_with_padding + q ∧
            info.num_affected_with_padding + q <
              info.num_affected_with_padding + info.num_unaffected)) ∧
          ∃ i, i < combination.num_risky_genotypes ∧
            ∀ j, j < order → genotypes j (info.num_affected_with_padding + q)
              = combination.genotypes (i * order + j)))
      (fun q hq => by
        rw [final_masks_spec order combination info hl horder hn genotypes
          stack_confusion stack_final _ (by omega)]
        simp only [decide_eq_true_eq])]
    congr 1
    rw [filter_range_trim _ info.num_unaffected (16 * ((info.num_unaffected + 15) / 16))
      (by omega) (by
        intro p hp1 hp2
        apply decide_eq_false
        intro h
        omega), hfU]
    congr 1
    apply List.filter_congr
    intro p hp
    have hp' := List.mem_range.mp hp
    apply decide_eq_decide.mpr
    constructor
    · intro h
      exact h.2
    · intro h
      exact ⟨Or.inr ⟨by omega, by omega⟩, h⟩
  have hTP := List.length_filter_le (fun p => decide
      (∃ i, i < combination.num_risky_genotypes ∧
        ∀ j, j < order → genotypes j p = combination.genotypes (i * order + j)))
    (List.range A)
  have hFP := List.length_filter_le (fun q => decide
      (∃ i, i < combination.num_risky_genotypes ∧
        ∀ j, j < order → genotypes j (info.num_affected_with_padding + q)
          = combination.genotypes (i * order + j)))
    (List.range U)
  rw [List.length_range] at hTP hFP
  unfold confusion_matrix
  simp only []
  rw [h0, h1, hfA, hfU]
  generalize ((List.range A).filter (fun p => decide
      (∃ i, i < combination.num_risky_genotypes ∧
        ∀ j, j < order → genotypes j p = combination.genotypes (i * order + j)))).length
    = TP at hTP ⊢
  generalize ((List.range U).filter (fun q => decide
      (∃ i, i < combination.num_risky_genotypes ∧
        ∀ j, j < order → genotypes j (info.num_affected_with_padding + q)
          = combination.genotypes (i * order + j)))).length
    = FP at hFP ⊢
  have e0 := uint32_of_range ((8 * TP / 8 : Nat) : Int) (by omega) (by omega)
  have e1 := uint32_of_range ((A : Int) - ((8 * TP / 8 : Nat) : Int)) (by omega) (by omega)
  have e2 := uint32_of_range ((8 * FP / 8 : Nat) : Int) (by omega) (by omega)
  have e3 := uint32_of_range ((U : Int) - ((8 * FP / 8 : Nat) : Int)) (by omega) (by omega)
  refine Prod.ext ?_ (Prod.ext ?_ (Prod.ext ?_ ?_)) <;> simp only [] <;> omega

/-- C9 witness: one SNP, two affected samples with genotype 1, two unaffected
samples with genotype 0, one high-risk cell (1): the matrix is (2, 0, 0, 2). -/
theorem confusion_matrix_counts_witness :
    masks_info_init 1 1 2 2 = some ⟨2, 2, 16, 16, 1, 3, 32, 96⟩ ∧
    confusion_matrix 1 ⟨1, [0], fun _ => 1, 1, none, none⟩ ⟨2, 2, 16, 16, 1, 3, 32, 96⟩
      (fun _ p => if p < 16 then 1 else 0) (fun _ => 170) (fun _ => 170) = (2, 0, 0, 2) :=
  ⟨by decide,
   (confusion_matrix_counts 1 1 2 2 ⟨2, 2, 16, 16, 1, 3, 32, 96⟩ (by decide) (by decide)
      (by decide) (by decide) ⟨1, [0], fun _ => 1, 1, none, none⟩ (by decide)
      (fun _ p => if p < 16 then 1 else 0) (fun _ => 170) (fun _ => 170)).trans (by decide)⟩

/-! ## Confusion matrix: column sums -/

theorem popcnt8_le (b : Nat) : popcnt8 b ≤ 8 := by
  simp only [popcnt8, List.range_succ, List.range_zero, List.nil_append, List.cons_append,
    List.map_cons, List.map_nil, List.sum_cons, List.sum_nil]
  omega

/-- A counting sweep in 16-byte lanes adds the population counts of the
bytes it covers. -/
theorem popcount_sweep_sum (mask : Nat → Nat) (offset n : Nat) :
    final_popcount mask offset n =
      ((List.range (16 * ((n + 15) / 16))).map (fun q => popcnt8 (mask (offset + q)))).sum := by
  unfold final_popcount
  generalize (n + 15) / 16 = k
  induction k with
  | zero => rfl
  | succ k ih =>
    rw [List.range_succ, List.foldl_append, List.foldl_cons, List.foldl_nil, ih]
    have e : 16 * (k + 1) = 16 * k + 16 := by ring
    rw [e, List.range_add, List.map_append, List.sum_append, List.map_map]
    refine congrArg (fun z =>
      ((List.range (16 * k)).map (fun q => popcnt8 (mask (offset + q)))).sum + z) ?_
    refine Eq.trans (popcnt_si128 (load_si128 mask (offset + 16 * k))) ?_
    refine congrArg List.sum ?_
    apply List.map_congr_left
    intro lane _
    show popcnt8 (mask (offset + 16 * k + lane)) = popcnt8 (mask (offset + (16 * k + lane)))
    rw [Nat.add_assoc]

theorem sum_popcnt8_le (f : Nat → Nat) (n : Nat) :
    ((List.range n).map (fun q => popcnt8 (f q))).sum ≤ 8 * n := by
  induction n with
  | zero => simp
  | succ n ih =>
    rw [List.range_succ, List.map_append, List.sum_append]
    have := popcnt8_le (f n)
    simp only [List.map_cons, List.map_nil, List.sum_cons, List.sum_nil, Nat.add_zero]
    omega

theorem sum_popcnt8_zero (f : Nat → Nat) (n d : Nat) (h : ∀ x, x < d → f (n + x) = 0) :
    (((List.range d).map (fun x => n + x)).map (fun q => popcnt8 (f q))).sum = 0 := by
  rw [List.map_map]
  apply List.sum_eq_zero
  intro v hv
  obtain ⟨x, hx, rfl⟩ := List.mem_map.mp hv
  show popcnt8 (f (n + x)) = 0
  rw [h x (List.mem_range.mp hx)]
  exact popcnt8_zero

/-- A counting sweep over `n` samples followed by zero padding counts at most
eight bits per sample. -/
theorem final_popcount_le (mask : Nat → Nat) (offset n : Nat)
    (hpad : ∀ q, n ≤ q → q < 16 * ((n + 15) / 16) → mask (offset + q) = 0) :
    final_popcount mask offset n ≤ 8 * n := by
  rw [popcount_sweep_sum]
  obtain ⟨d, hd⟩ := Nat.exists_eq_add_of_le (show n ≤ 16 * ((n + 15) / 16) by omega)
  rw [hd, List.range_add, List.map_append, List.sum_append,
    sum_popcnt8_zero (fun q => mask (offset + q)) n d (fun x hx => hpad (n + x) (by omega)
      (by omega))]
  exact sum_popcnt8_le (fun q => mask (offset + q)) n

/-- The two `memset` calls clear the padding of `final_masks`. -/
theorem final_masks_padding (order : Nat) (combination : risky_combination) (info : masks_info)
    (hl : masks_layout order info) (confusion : Nat → Nat) (stack : Nat → Nat) (p : Nat)
    (hp : (info.num_affected ≤ p ∧ p < info.num_affected_with_padding) ∨
      (info.num_affected_with_padding + info.num_unaffected ≤ p ∧
        p < info.num_affected_with_padding + info.num_unaffected_with_padding)) :
    final_masks combination info confusion stack p = 0 := by
  obtain ⟨ha1, ha2, ha3, hu1, hu2, hu3, hs, -, -⟩ := hl
  unfold final_masks memset
  rcases hp with hp | hp
  · by_cases h2 : info.num_affected_with_padding + info.num_unaffected ≤ p ∧
        p < info.num_affected_with_padding + info.num_unaffected +
          (info.num_unaffected_with_padding - info.num_unaffected)
    · simp only [h2, and_self, if_true]
    · simp only [h2, if_false]
      rw [if_pos (by omega)]
  · simp only []
    rw [if_pos (by omega)]

/-- C10. For a layout built by `masks_info_init` (sample counts within the
range of `int`), every risky combination and every validation input, the
matrix (TP, FN, FP, TN) of `confusion_matrix` has TP + FN = A, FP + TN = U,
TP ≤ A and FP ≤ U, and FN, TN are the exact differences A - TP, U - FP: the
unsigned subtractions do not wrap around. -/
theorem confusion_matrix_column_sums (order R A U : Nat) (info : masks_info)
    (hinit : masks_info_init order R A U = some info)
    (hA : A ≤ 2147483647) (hU : U ≤ 2147483647)
    (order' : Nat) (combination : risky_combination) (genotypes : Nat → Nat → uint8_t)
    (stack_confusion stack_final : Nat → Nat) :
    (confusion_matrix order' combination info genotypes stack_confusion stack_final).1
      + (confusion_matrix order' combination info genotypes stack_confusion stack_final).2.1
      = A ∧
    (confusion_matrix order' combination info genotypes stack_confusion stack_final).2.2.1
      + (confusion_matrix order' combination info genotypes stack_confusion stack_final).2.2.2
      = U ∧
    (confusion_matrix order' combination info genotypes stack_confusion stack_final).1 ≤ A ∧
    (confusion_matrix order' combination info genotypes stack_confusion stack_final).2.2.1
      ≤ U ∧
    (((confusion_matrix order' combination info genotypes stack_confusion stack_final).2.1
        : Nat) : Int) = (A : Int) -
      ((confusion_matrix order' combination info genotypes stack_confusion stack_final).1 : Int) ∧
    (((confusion_matrix order' combination info genotypes stack_confusion stack_final).2.2.2
        : Nat) : Int) = (U : Int) -
      ((confusion_matrix order' combination info genotypes stack_confusion stack_final).2.2.1
        : Int) := by
  have hl := masks_info_init_layout order R A U info hinit
  obtain ⟨hfA, hfU, -, -, -, -, -, -⟩ := masks_info_init_fields order R A U info hinit
  obtain ⟨ha1, ha2, ha3, hu1, hu2, hu3, hs, -, -⟩ := hl
  have hl := masks_info_init_layout order R A U info hinit
  have h0 := final_popcount_le
    (final_masks combination info
      (confusion_masks order' combination info genotypes stack_confusion) stack_final)
    0 info.num_affected
    (fun q hq1 hq2 => by
      rw [Nat.zero_add]
      exact final_masks_padding order combination info hl _ _ q (Or.inl ⟨hq1, by omega⟩))
  have h1 := final_popcount_le
    (final_masks combination info
      (confusion_masks order' combination info genotypes stack_confusion) stack_final)
    info.num_affected_with_padding info.num_unaffected
    (fun q hq1 hq2 => final_masks_padding order combination info hl _ _ _
      (Or.inr ⟨by omega, by omega⟩))
  unfold confusion_matrix
  simp only []
  generalize final_popcount (final_masks combination info
      (confusion_masks order' combination info genotypes stack_confusion) stack_final)
    0 info.num_affected = pc0 at h0 ⊢
  generalize final_popcount (final_masks combination info
      (confusion_masks order' combination info genotypes stack_confusion) stack_final)
    info.num_affected_with_padding info.num_unaffected = pc1 at h1 ⊢
  rw [hfA] at h0 ⊢
  rw [hfU] at h1 ⊢
  have e0 := uint32_of_range ((pc0 / 8 : Nat) : Int) (by omega) (by omega)
  have e1 := uint32_of_range ((A : Int) - ((pc0 / 8 : Nat) : Int)) (by omega) (by omega)
  have e2 := uint32_of_range ((pc1 / 8 : Nat) : Int) (by omega) (by omega)
  have e3 := uint32_of_range ((U : Int) - ((pc1 / 8 : Nat) : Int)) (by omega) (by omega)
  refine ⟨?_, ?_, ?_, ?_, ?_, ?_⟩ <;> omega

/-- C10 witness: a combination without any high-risk cell, scored on three
affected and five unaffected samples over arbitrary stack contents. -/
theorem confusion_matrix_column_sums_witness :
    masks_info_init 2 1 3 5 = some ⟨3, 5, 16, 16, 1, 9, 32, 192⟩ ∧
    (confusion_matrix 2 ⟨2, [0, 1], fun _ => 2, 0, none, none⟩ ⟨3, 5, 16, 16, 1, 9, 32, 192⟩
        (fun _ _ => 2) (fun _ => 255) (fun _ => 255)).1
      + (confusion_matrix 2 ⟨2, [0, 1], fun _ => 2, 0, none, none⟩
        ⟨3, 5, 16, 16, 1, 9, 32, 192⟩ (fun _ _ => 2) (fun _ => 255) (fun _ => 255)).2.1 = 3 ∧
    (confusion_matrix 2 ⟨2, [0, 1], fun _ => 2, 0, none, none⟩ ⟨3, 5, 16, 16, 1, 9, 32, 192⟩
        (fun _ _ => 2) (fun _ => 255) (fun _ => 255)).2.2.1
      + (confusion_matrix 2 ⟨2, [0, 1], fun _ => 2, 0, none, none⟩
        ⟨3, 5, 16, 16, 1, 9, 32, 192⟩ (fun _ _ => 2) (fun _ => 255)
        (fun _ => 255)).2.2.2 = 5 :=
  ⟨by decide,
   (confusion_matrix_column_sums 2 1 3 5 ⟨3, 5, 16, 16, 1, 9, 32, 192⟩ (by decide)
      (by decide) (by decide) 2 ⟨2, [0, 1], fun _ => 2, 0, none, none⟩
      (fun _ _ => 2) (fun _ => 255) (fun _ => 255)).1,
   (confusion_matrix_column_sums 2 1 3 5 ⟨3, 5, 16, 16, 1, 9, 32, 192⟩ (by decide)
      (by decide) (by decide) 2 ⟨2, [0, 1], fun _ => 2, 0, none, none⟩
      (fun _ _ => 2) (fun _ => 255) (fun _ => 255)).2.1⟩

/-! ## Evaluators -/

theorem double_div_of_ne (a b : ℚ) (h : b ≠ 0) : double_div a b = some (a / b) := by
  unfold double_div
  rw [if_neg h]

theorem double_div_zero (a : ℚ) : double_div a 0 = NAN := by
  unfold double_div
  rw [if_pos rfl]

/-- Called with `BA`, `evaluate_model` evaluates the balanced accuracy whatever
the values of the enumerators. -/
theorem evaluate_model_BA (enum_value : eval_function → Int) (sqrt : ℚ → ℚ)
    (cm : Nat × Nat × Nat × Nat) :
    evaluate_model enum_value sqrt cm eval_function.BA =
      match double_div (cm.1 : ℚ) ((cm.1 : ℚ) + (cm.2.1 : ℚ)),
        double_div (cm.2.2.2 : ℚ) ((cm.2.2.2 : ℚ) + (cm.2.2.1 : ℚ)) with
      | some x, some y => some ((x + y) / 2)
      | _, _ => NAN := by
  unfold evaluate_model
  by_cases h : enum_value eval_function.BA = 0
  · simp only [h, if_true]
  · simp only [h, if_false]

/-- C11. `test_model` returns the value of `evaluate_model` with `BA` on the
confusion matrix it computed and stores that value as the combination's
accuracy; for every matrix (TP, FN, FP, TN) with TP+FN > 0 and TN+FP > 0 that
value is (TP/(TP+FN) + TN/(TN+FP)) / 2. -/
theorem test_model_balanced_accuracy (enum_value : eval_function → Int) (sqrt : ℚ → ℚ) :
    (∀ (order : Nat) (risky_comb : risky_combination) (val : Nat → Nat → uint8_t)
      (info : masks_info) (stack_confusion stack_final : Nat → Nat),
      (test_model enum_value sqrt order risky_comb val info stack_confusion stack_final).2.2 =
        confusion_matrix order risky_comb info val stack_confusion stack_final ∧
      (test_model enum_value sqrt order risky_comb val info stack_confusion stack_final).1 =
        evaluate_model enum_value sqrt
          (confusion_matrix order risky_comb info val stack_confusion stack_final)
          eval_function.BA ∧
      (test_model enum_value sqrt order risky_comb val info stack_confusion
          stack_final).2.1.accuracy =
        (test_model enum_value sqrt order risky_comb val info stack_confusion stack_final).1) ∧
    (∀ TP FN FP TN : Nat, 0 < TP + FN → 0 < TN + FP →
      evaluate_model enum_value sqrt (TP, FN, FP, TN) eval_function.BA =
        some ((((TP : ℚ) / ((TP : ℚ) + (FN : ℚ))) + ((TN : ℚ) / ((TN : ℚ) + (FP : ℚ)))) / 2)) := by
  constructor
  · intro order risky_comb val info stack_confusion stack_final
    exact ⟨rfl, rfl, rfl⟩
  · intro TP FN FP TN h1 h2
    rw [evaluate_model_BA]
    have e1 : ((TP : ℚ) + (FN : ℚ)) ≠ 0 := by
      have : (0 : ℚ) < ((TP + FN : Nat) : ℚ) := by exact_mod_cast h1
      push_cast at this
      exact ne_of_gt this
    have e2 : ((TN : ℚ) + (FP : ℚ)) ≠ 0 := by
      have : (0 : ℚ) < ((TN + FP : Nat) : ℚ) := by exact_mod_cast h2
      push_cast at this
      exact ne_of_gt this
    simp only [double_div_of_ne _ _ e1, double_div_of_ne _ _ e2]

/-- C11 witness: the matrix (8, 0, 0, 8) has balanced accuracy (8/8 + 8/8) / 2. -/
theorem test_model_balanced_accuracy_witness :
    evaluate_model (fun _ => 1) (fun x => x) (8, 0, 0, 8) eval_function.BA =
      some (((((8 : Nat) : ℚ) / (((8 : Nat) : ℚ) + ((0 : Nat) : ℚ))) +
        (((8 : Nat) : ℚ) / (((8 : Nat) : ℚ) + ((0 : Nat) : ℚ)))) / 2) :=
  (test_model_balanced_accuracy (fun _ => 1) (fun x => x)).2 8 0 0 8 (by decide) (by decide)

theorem double_gt_some (x y : ℚ) : double_gt (some x) (some y) = true ↔ y < x := by
  simp [double_gt]

theorem double_le_some (x y : ℚ) : double_le (some x) (some y) = true ↔ x ≤ y := by
  simp [double_le]

theorem double_gt_nan_right (a : double) : double_gt a NAN = false := by
  cases a <;> rfl

/-- For defined scores `a > b` fails exactly when `a <= b`. -/
theorem double_gt_false_iff_le (a b : double) (ha : a ≠ NAN) (hb : b ≠ NAN) :
    double_gt a b = false ↔ double_le a b = true := by
  cases a with
  | none => exact absurd rfl ha
  | some x =>
    cases b with
    | none => exact absurd rfl hb
    | some y =>
      rw [double_le_some, ← Bool.not_eq_true, double_gt_some]
      exact not_lt

theorem double_le_defined (a b : double) (h : double_le a b = true) : a ≠ NAN ∧ b ≠ NAN := by
  cases a with
  | none => simp [double_le] at h
  | some x =>
    cases b with
    | none => simp [double_le] at h
    | some y => exact ⟨Option.some_ne_none x, Option.some_ne_none y⟩

theorem double_le_not_gt (a b : double) (h : double_le a b = true) : double_gt a b = false :=
  (double_gt_false_iff_le a b (double_le_defined a b h).1 (double_le_defined a b h).2).mpr h

theorem double_le_trans (a b c : double) (h1 : double_le a b = true)
    (h2 : double_le b c = true) : double_le a c = true := by
  cases a with
  | none => simp [double_le] at h1
  | some x =>
    cases b with
    | none => simp [double_le] at h1
    | some y =>
      cases c with
      | none => simp [double_le] at h2
      | some z =>
        rw [double_le_some] at h1 h2 ⊢
        exact le_trans h1 h2

theorem double_gt_of_gt_of_le (a b c : double) (h1 : double_gt a b = true)
    (h2 : double_le c b = true) : double_gt a c = true := by
  cases a with
  | none => simp [double_gt] at h1
  | some x =>
    cases b with
    | none => simp [double_gt] at h1
    | some y =>
      cases c with
      | none => simp [double_le] at h2
      | some z =>
        rw [double_gt_some] at h1 ⊢
        rw [double_le_some] at h2
        exact lt_of_le_of_lt h2 h1

/-- The scan stops at the first element whose score the new score exceeds. -/
theorem ranking_scan_eq (c : risky_combination) (l : List risky_combination) :
    ranking_scan c l =
      match l.dropWhile (fun e => !double_gt c.accuracy e.accuracy) with
      | [] => none
      | _ :: _ =>
        some ((l.takeWhile (fun e => !double_gt c.accuracy e.accuracy)).length,
          l.takeWhile (fun e => !double_gt c.accuracy e.accuracy) ++
            c :: l.dropWhile (fun e => !double_gt c.accuracy e.accuracy)) := by
  induction l with
  | nil => rfl
  | cons e rest ih =>
    unfold ranking_scan
    by_cases hgt : double_gt c.accuracy e.accuracy = true
    · rw [if_pos hgt]
      simp [List.dropWhile, List.takeWhile, hgt]
    · rw [if_neg hgt, ih]
      have hf : double_gt c.accuracy e.accuracy = false := by
        simpa using hgt
      simp only [List.dropWhile, List.takeWhile, hf, Bool.not_false]
      cases hdw : rest.dropWhile (fun e => !double_gt c.accuracy e.accuracy) with
      | nil => rfl
      | cons d ds => simp

/-- An element the new score exceeds is never dropped by the scan. -/
theorem dropWhile_ne_nil_of_mem (c : risky_combination) (l : List risky_combination)
    (e : risky_combination) (he : e ∈ l) (hgt : double_gt c.accuracy e.accuracy = true) :
    l.dropWhile (fun e => !double_gt c.accuracy e.accuracy) ≠ [] := by
  intro h
  rw [List.dropWhile_eq_nil_iff] at h
  have := h e he
  simp [hgt] at this

theorem getLast?_mem (l : List risky_combination) (t : risky_combination)
    (h : l.getLast? = some t) : t ∈ l :=
  List.mem_of_getLast?_eq_some h

theorem getLast?_append_cons (xs : List risky_combination) (y : risky_combination)
    (ys : List risky_combination) : (xs ++ y :: ys).getLast? = (y :: ys).getLast? := by
  induction xs with
  | nil => rfl
  | cons x xs ih =>
    cases hxs : xs ++ y :: ys with
    | nil => simp at hxs
    | cons z zs =>
      rw [List.cons_append, hxs, List.getLast?_cons_cons, ← hxs]
      exact ih

theorem add_to_model_ranking_empty (c : risky_combination) (N : Int)
    (removed : Option risky_combination) :
    add_to_model_ranking c N [] removed = (0, [c], removed) := rfl

/-- A call whose new score exceeds the tail's: the scan inserts. -/
theorem add_to_model_ranking_gt (c : risky_combination) (N : Int)
    (l : List risky_combination) (removed : Option risky_combination) (t : risky_combination)
    (ht : l.getLast? = some t) (hgt : double_gt c.accuracy t.accuracy = true) :
    ∃ d ds, l.dropWhile (fun e => !double_gt c.accuracy e.accuracy) = d :: ds ∧
      double_gt c.accuracy d.accuracy = true ∧
      add_to_model_ranking c N l removed =
        if l.length ≥ int_to_size_t N then
          (((l.takeWhile (fun e => !double_gt c.accuracy e.accuracy)).length : Int),
            l.takeWhile (fun e => !double_gt c.accuracy e.accuracy) ++ c :: (d :: ds).dropLast,
            some t)
        else
          (((l.takeWhile (fun e => !double_gt c.accuracy e.accuracy)).length : Int),
            l.takeWhile (fun e => !double_gt c.accuracy e.accuracy) ++ c :: d :: ds,
            removed) := by
  have hne := dropWhile_ne_nil_of_mem c l t (getLast?_mem l t ht) hgt
  cases hdw : l.dropWhile (fun e => !double_gt c.accuracy e.accuracy) with
  | nil => exact absurd hdw hne
  | cons d ds =>
    have hd : double_gt c.accuracy d.accuracy = true := by
      have h := List.head_dropWhile_not (fun e => !double_gt c.accuracy e.accuracy) l
        (by rw [hdw]; exact List.cons_ne_nil d ds)
      simp only [hdw, List.head_cons] at h
      simpa using h
    refine ⟨d, ds, rfl, hd, ?_⟩
    have hsplit : l.takeWhile (fun e => !double_gt c.accuracy e.accuracy) ++ d :: ds = l := by
      rw [← hdw]
      exact List.takeWhile_append_dropWhile _ l
    have hlast : (l.takeWhile (fun e => !double_gt c.accuracy e.accuracy) ++
        c :: d :: ds).getLast? = some t := by
      have h2 : l.getLast? = (d :: ds).getLast? := by
        generalize l.takeWhile (fun e => !double_gt c.accuracy e.accuracy) = tw at hsplit
        rw [← hsplit]
        exact getLast?_append_cons tw d ds
      rw [← ht, h2, getLast?_append_cons _ c (d :: ds)]
      exact List.getLast?_cons_cons
    have hdrop : (l.takeWhile (fun e => !double_gt c.accuracy e.accuracy) ++
        c :: d :: ds).dropLast =
        l.takeWhile (fun e => !double_gt c.accuracy e.accuracy) ++ c :: (d :: ds).dropLast := by
      rw [List.dropLast_append_of_ne_nil _ (List.cons_ne_nil c (d :: ds))]
      rfl
    unfold add_to_model_ranking
    simp only [linked_list_get_last, ht, hgt, if_true, ranking_scan_eq, hdw,
      linked_list_remove_last, hlast, hdrop]

/-- A call whose new score does not exceed the tail's: append or reject. -/
theorem add_to_model_ranking_not_gt (c : risky_combination) (N : Int)
    (l : List risky_combination) (removed : Option risky_combination) (t : risky_combination)
    (ht : l.getLast? = some t) (hgt : double_gt c.accuracy t.accuracy = false) :
    add_to_model_ranking c N l removed =
      if l.length < int_to_size_t N then ((l.length : Int), l ++ [c], removed)
      else (-1, l, removed) := by
  unfold add_to_model_ranking
  simp only [linked_list_get_last, ht, hgt, linked_list_insert_last]
  simp only [Bool.false_eq_true, if_false]
  split_ifs
  · simp
  · rfl

theorem getLast?_eq_none_or_some (l : List risky_combination) :
    l = [] ∨ ∃ t, l.getLast? = some t := by
  cases l with
  | nil => exact Or.inl rfl
  | cons a as =>
    right
    cases h : (a :: as).getLast? with
    | none => simp at h
    | some t => exact ⟨t, rfl⟩

theorem int_to_size_t_of_nonneg (N : Int) (h : 0 ≤ N) : ((int_to_size_t N : Nat) : Int) = N := by
  unfold int_to_size_t
  rw [if_neg (by omega)]
  exact Int.toNat_of_nonneg h

/-! ## Ranking: placement, rejection, eviction -/

theorem int_to_size_t_lt_of_lt (N : Int) (n : Nat) (h : (n : Int) < N) :
    n < int_to_size_t N := by
  have h0 : 0 ≤ N := by omega
  have := int_to_size_t_of_nonneg N h0
  omega

/-- In a ranking sorted by non-increasing score no entry scores below the tail. -/
theorem sorted_tail_le (l : List risky_combination) (t : risky_combination)
    (hs : l.Pairwise (fun a b => double_le b.accuracy a.accuracy = true))
    (hd : ∀ e ∈ l, e.accuracy ≠ NAN) (ht : l.getLast? = some t) :
    ∀ e ∈ l, double_le t.accuracy e.accuracy = true := by
  intro e he
  have hl : l.dropLast ++ [t] = l := List.dropLast_append_getLast? t ht
  rw [← hl] at he hs
  rcases List.mem_append.mp he with h | h
  · exact (List.pairwise_append.mp hs).2.2 e h t (List.mem_singleton_self t)
  · rw [List.mem_singleton] at h
    rw [h]
    have htd := hd t (getLast?_mem l t ht)
    cases hta : t.accuracy with
    | none => exact absurd hta htd
    | some x => rw [double_le_some]

/-- The return value of a call is -1 only on the rejecting branch. -/
theorem add_to_model_ranking_minus_one (c : risky_combination) (N : Int)
    (l : List risky_combination) (removed : Option risky_combination)
    (h : (add_to_model_ranking c N l removed).1 = -1) :
    ∃ t, l.getLast? = some t ∧ double_gt c.accuracy t.accuracy = false ∧
      int_to_size_t N ≤ l.length := by
  rcases getLast?_eq_none_or_some l with hnil | ⟨t, ht⟩
  · rw [hnil, add_to_model_ranking_empty] at h
    have h' : (0 : Int) = -1 := h
    omega
  · refine ⟨t, ht, ?_⟩
    cases hgt : double_gt c.accuracy t.accuracy with
    | true =>
      obtain ⟨d, ds, -, -, hadd⟩ := add_to_model_ranking_gt c N l removed t ht hgt
      exfalso
      by_cases hsz : l.length ≥ int_to_size_t N
      · rw [hadd, if_pos hsz] at h
        have h' : ((l.takeWhile (fun e => !double_gt c.accuracy e.accuracy)).length : Int)
            = -1 := h
        omega
      · rw [hadd, if_neg hsz] at h
        have h' : ((l.takeWhile (fun e => !double_gt c.accuracy e.accuracy)).length : Int)
            = -1 := h
        omega
    | false =>
      by_cases hlt : l.length < int_to_size_t N
      · rw [add_to_model_ranking_not_gt c N l removed t ht hgt, if_pos hlt] at h
        have h' : (l.length : Int) = -1 := h
        omega
      · exact ⟨rfl, by omega⟩

/-- C15. When `add_to_model_ranking` inserts into a ranking that already holds
N entries, the entry that was the tail leaves the ranking and is handed back
through `removed`, the new combination sits among the other entries, whose
order is kept, and the size stays N; when the ranking held fewer than N
entries the combination is inserted, every previous entry stays in place and
`removed` is left untouched. -/
theorem add_to_model_ranking_eviction (c : risky_combination) (N : Int)
    (l : List risky_combination) (removed : Option risky_combination) :
    (∀ t, l.getLast? = some t → (l.length : Int) = N →
      (add_to_model_ranking c N l removed).1 ≠ -1 →
      (add_to_model_ranking c N l removed).2.2 = some t ∧
      ((add_to_model_ranking c N l removed).2.1.length : Int) = N ∧
      ∃ before after, l.dropLast = before ++ after ∧
        (add_to_model_ranking c N l removed).2.1 = before ++ c :: after) ∧
    ((l.length : Int) < N →
      (add_to_model_ranking c N l removed).2.2 = removed ∧
      (add_to_model_ranking c N l removed).2.1.length = l.length + 1 ∧
      ∃ before after, l = before ++ after ∧
        (add_to_model_ranking c N l removed).2.1 = before ++ c :: after) := by
  constructor
  · intro t ht hlen hret
    have h0 : 0 ≤ N := by omega
    have hN := int_to_size_t_of_nonneg N h0
    cases hgt : double_gt c.accuracy t.accuracy with
    | false =>
      rw [add_to_model_ranking_not_gt c N l removed t ht hgt, if_neg (by omega)] at hret
      exact absurd rfl hret
    | true =>
      obtain ⟨d, ds, hdw, -, hadd⟩ := add_to_model_ranking_gt c N l removed t ht hgt
      have hsplit : l.takeWhile (fun e => !double_gt c.accuracy e.accuracy) ++ d :: ds = l := by
        rw [← hdw]
        exact List.takeWhile_append_dropWhile _ l
      have hdl : l.dropLast =
          l.takeWhile (fun e => !double_gt c.accuracy e.accuracy) ++ (d :: ds).dropLast := by
        conv_lhs => rw [← hsplit]
        exact List.dropLast_append_of_ne_nil _ (List.cons_ne_nil d ds)
      rw [hadd, if_pos (by omega)]
      refine ⟨rfl, ?_, _, _, hdl, rfl⟩
      have hlen2 : l.length =
          (l.takeWhile (fun e => !double_gt c.accuracy e.accuracy)).length
            + (ds.length + 1) := by
        conv_lhs => rw [← hsplit]
        simp
      simp only [List.length_append, List.length_cons, List.length_dropLast]
      omega
  · intro hlen
    have hlt := int_to_size_t_lt_of_lt N l.length hlen
    rcases getLast?_eq_none_or_some l with hnil | ⟨t, ht⟩
    · subst hnil
      rw [add_to_model_ranking_empty]
      exact ⟨rfl, rfl, [], [], rfl, rfl⟩
    · cases hgt : double_gt c.accuracy t.accuracy with
      | false =>
        rw [add_to_model_ranking_not_gt c N l removed t ht hgt, if_pos hlt]
        refine ⟨rfl, by simp, l, [], by simp, rfl⟩
      | true =>
        obtain ⟨d, ds, hdw, -, hadd⟩ := add_to_model_ranking_gt c N l removed t ht hgt
        have hsplit :
            l.takeWhile (fun e => !double_gt c.accuracy e.accuracy) ++ d :: ds = l := by
          rw [← hdw]
          exact List.takeWhile_append_dropWhile _ l
        rw [hadd, if_neg (by omega)]
        refine ⟨rfl, ?_, _, _, hsplit.symm, rfl⟩
        conv_rhs => rw [← hsplit]
        simp only [List.length_append, List.length_cons]
        omega

/-- C15 witness: a score 4 enters the full ranking 3, 2 (cap 2); the tail,
the entry scoring 2, is handed back. -/
theorem add_to_model_ranking_eviction_witness :
    (add_to_model_ranking ⟨1, [7], fun _ => 0, 1, none, some 4⟩ 2
      [⟨1, [1], fun _ => 0, 1, none, some 3⟩, ⟨1, [2], fun _ => 0, 1, none, some 2⟩]
      none).2.2 = some ⟨1, [2], fun _ => 0, 1, none, some 2⟩ :=
  ((add_to_model_ranking_eviction ⟨1, [7], fun _ => 0, 1, none, some 4⟩ 2
    [⟨1, [1], fun _ => 0, 1, none, some 3⟩, ⟨1, [2], fun _ => 0, 1, none, some 2⟩] none).1
    ⟨1, [2], fun _ => 0, 1, none, some 2⟩ rfl (by decide) (by decide)).1

/-! ## Ranking: invariants over sequences of calls -/

theorem double_le_of_gt (a b : double) (h : double_gt a b = true) : double_le b a = true := by
  cases a with
  | none => simp [double_gt] at h
  | some x =>
    cases b with
    | none => simp [double_gt] at h
    | some y =>
      rw [double_gt_some] at h
      rw [double_le_some]
      exact le_of_lt h

/-- The split made by the scan in a ranking sorted by non-increasing defined
scores: the entries kept before the new one score at least as much, the
entries after it score strictly less. -/
theorem ranking_scan_split (c : risky_combination) (l : List risky_combination)
    (hs : l.Pairwise (fun a b => double_le b.accuracy a.accuracy = true))
    (hdef : ∀ e ∈ l, e.accuracy ≠ NAN) (hc : c.accuracy ≠ NAN) :
    (∀ e ∈ l.takeWhile (fun e => !double_gt c.accuracy e.accuracy),
      double_le c.accuracy e.accuracy = true) ∧
    (∀ e ∈ l.dropWhile (fun e => !double_gt c.accuracy e.accuracy),
      double_gt c.accuracy e.accuracy = true) := by
  constructor
  · intro a ha
    have h1 := List.mem_takeWhile_imp ha
    have h2 : double_gt c.accuracy a.accuracy = false := by simpa using h1
    exact (double_gt_false_iff_le _ _ hc (hdef a ((List.takeWhile_sublist _).subset ha))).mp h2
  · cases hdw : l.dropWhile (fun e => !double_gt c.accuracy e.accuracy) with
    | nil =>
      intro e he
      exact absurd he (List.not_mem_nil e)
    | cons d ds =>
      have hd : double_gt c.accuracy d.accuracy = true := by
        have h := List.head_dropWhile_not (fun e => !double_gt c.accuracy e.accuracy) l
          (by rw [hdw]; exact List.cons_ne_nil d ds)
        simp only [hdw, List.head_cons] at h
        simpa using h
      have hpw : (d :: ds).Pairwise (fun a b => double_le b.accuracy a.accuracy = true) := by
        rw [← hdw]
        exact hs.sublist (List.dropWhile_sublist _)
      intro a ha
      rcases List.mem_cons.mp ha with h | h
      · rw [h]; exact hd
      · exact double_gt_of_gt_of_le _ _ _ hd (List.rel_of_pairwise_cons hpw h)

/-- The stable insertion of a defined score keeps a ranking sorted. -/
theorem ranking_insert_sorted (c : risky_combination) (l : List risky_combination)
    (hs : l.Pairwise (fun a b => double_le b.accuracy a.accuracy = true))
    (hdef : ∀ e ∈ l, e.accuracy ≠ NAN) (hc : c.accuracy ≠ NAN) :
    (l.takeWhile (fun e => !double_gt c.accuracy e.accuracy) ++
      c :: l.dropWhile (fun e => !double_gt c.accuracy e.accuracy)).Pairwise
      (fun a b => double_le b.accuracy a.accuracy = true) := by
  obtain ⟨h1, h2⟩ := ranking_scan_split c l hs hdef hc
  have hs' := hs
  rw [← List.takeWhile_append_dropWhile (fun e => !double_gt c.accuracy e.accuracy) l] at hs'
  obtain ⟨hp1, hp2, hp3⟩ := List.pairwise_append.mp hs'
  rw [List.pairwise_append]
  refine ⟨hp1, ?_, ?_⟩
  · rw [List.pairwise_cons]
    exact ⟨fun a ha => double_le_of_gt _ _ (h2 a ha), hp2⟩
  · intro a ha b hb
    rcases List.mem_cons.mp hb with h | h
    · rw [h]; exact h1 a ha
    · exact hp3 a ha b h

/-- One call keeps a ranking of defined scores sorted by non-increasing score. -/
theorem add_to_model_ranking_sorted (c : risky_combination) (N : Int)
    (l : List risky_combination) (removed : Option risky_combination)
    (hs : l.Pairwise (fun a b => double_le b.accuracy a.accuracy = true))
    (hdef : ∀ e ∈ l, e.accuracy ≠ NAN) (hc : c.accuracy ≠ NAN) :
    (add_to_model_ranking c N l removed).2.1.Pairwise
      (fun a b => double_le b.accuracy a.accuracy = true) ∧
    (∀ e ∈ (add_to_model_ranking c N l removed).2.1, e.accuracy ≠ NAN) := by
  rcases getLast?_eq_none_or_some l with hnil | ⟨t, ht⟩
  · subst hnil
    rw [add_to_model_ranking_empty]
    refine ⟨List.pairwise_singleton _ c, ?_⟩
    intro e he
    rw [List.mem_singleton.mp he]
    exact hc
  · cases hgt : double_gt c.accuracy t.accuracy with
    | true =>
      obtain ⟨d, ds, hdw, -, hadd⟩ := add_to_model_ranking_gt c N l removed t ht hgt
      have hins := ranking_insert_sorted c l hs hdef hc
      rw [hdw] at hins
      have hsplit : l.takeWhile (fun e => !double_gt c.accuracy e.accuracy) ++ d :: ds = l := by
        rw [← hdw]
        exact List.takeWhile_append_dropWhile _ l
      have hmem : ∀ e ∈ l.takeWhile (fun e => !double_gt c.accuracy e.accuracy) ++
          c :: d :: ds, e.accuracy ≠ NAN := by
        intro e he
        rcases List.mem_append.mp he with h | h
        · exact hdef e ((List.takeWhile_sublist _).subset h)
        · rcases List.mem_cons.mp h with h' | h'
          · rw [h']; exact hc
          · apply hdef e
            rw [← hsplit]
            exact List.mem_append_right _ h'
      have hsub : (l.takeWhile (fun e => !double_gt c.accuracy e.accuracy) ++
          c :: (d :: ds).dropLast).Sublist
          (l.takeWhile (fun e => !double_gt c.accuracy e.accuracy) ++ c :: d :: ds) :=
        List.Sublist.append_left ((List.dropLast_sublist (d :: ds)).cons₂ c) _
      rw [hadd]
      split_ifs
      · exact ⟨hins.sublist hsub, fun e he => hmem e (hsub.subset he)⟩
      · exact ⟨hins, hmem⟩
    | false =>
      rw [add_to_model_ranking_not_gt c N l removed t ht hgt]
      split_ifs
      · constructor
        · show (l ++ [c]).Pairwise _
          rw [List.pairwise_append]
          refine ⟨hs, List.pairwise_singleton _ c, ?_⟩
          intro a ha b hb
          rw [List.mem_singleton.mp hb]
          have h1 : double_le c.accuracy t.accuracy = true :=
            (double_gt_false_iff_le _ _ hc (hdef t (getLast?_mem l t ht))).mp hgt
          exact double_le_trans _ _ _ h1 (sorted_tail_le l t hs hdef ht a ha)
        · intro e he
          rcases List.mem_append.mp he with h | h
          · exact hdef e h
          · rw [List.mem_singleton.mp h]; exact hc
      · exact ⟨hs, hdef⟩

theorem add_to_model_ranking_calls_sorted (calls : List (risky_combination × Int)) :
    ∀ (l : List risky_combination) (removed : Option risky_combination),
    l.Pairwise (fun a b => double_le b.accuracy a.accuracy = true) →
    (∀ e ∈ l, e.accuracy ≠ NAN) → (∀ call ∈ calls, call.1.accuracy ≠ NAN) →
    (add_to_model_ranking_calls calls l removed).2.1.Pairwise
      (fun a b => double_le b.accuracy a.accuracy = true) ∧
    (∀ e ∈ (add_to_model_ranking_calls calls l removed).2.1, e.accuracy ≠ NAN) := by
  induction calls with
  | nil =>
    intro l removed hs hdef _
    exact ⟨hs, hdef⟩
  | cons call rest ih =>
    intro l removed hs hdef hcalls
    obtain ⟨c, N⟩ := call
    have hstep := add_to_model_ranking_sorted c N l removed hs hdef
      (hcalls (c, N) (List.mem_cons_self _ _))
    exact ih _ _ hstep.1 hstep.2 (fun call hcall => hcalls call (List.mem_cons_of_mem _ hcall))

/-- C16. Starting from an empty ranking, after every sequence of
`add_to_model_ranking` calls with defined scores (each call with its own cap)
the accuracies of the ranking are non-increasing from head to tail. -/
theorem add_to_model_ranking_non_increasing (calls : List (risky_combination × Int))
    (removed : Option risky_combination)
    (hdef : ∀ call ∈ calls, call.1.accuracy ≠ NAN) :
    (add_to_model_ranking_calls calls [] removed).2.1.Pairwise
      (fun a b => double_le b.accuracy a.accuracy = true) :=
  (add_to_model_ranking_calls_sorted calls [] removed List.Pairwise.nil
    (fun e he => absurd he (List.not_mem_nil e)) hdef).1

/-- C16 witness: the scores 1, 3, 2, 3 inserted with cap 3. -/
theorem add_to_model_ranking_non_increasing_witness :
    (add_to_model_ranking_calls
      [(⟨1, [1], fun _ => 0, 1, none, some 1⟩, 3), (⟨1, [2], fun _ => 0, 1, none, some 3⟩, 3),
       (⟨1, [3], fun _ => 0, 1, none, some 2⟩, 3), (⟨1, [4], fun _ => 0, 1, none, some 3⟩, 3)]
      [] none).2.1.Pairwise (fun a b => double_le b.accuracy a.accuracy = true) :=
  add_to_model_ranking_non_increasing _ none (by
    intro call hcall
    simp only [List.mem_cons, List.mem_singleton, List.not_mem_nil, or_false] at hcall
    rcases hcall with h | h | h | h <;> rw [h] <;> exact Option.some_ne_none _)

/-! ## Ranking: the cap -/

/-- One call with a cap of at least 1 keeps the ranking within the cap. -/
theorem add_to_model_ranking_length_le (c : risky_combination) (N : Int)
    (l : List risky_combination) (removed : Option risky_combination)
    (hN : 1 ≤ N) (hl : (l.length : Int) ≤ N) :
    (((add_to_model_ranking c N l removed).2.1.length : Nat) : Int) ≤ N := by
  have hsz := int_to_size_t_of_nonneg N (by omega)
  rcases getLast?_eq_none_or_some l with hnil | ⟨t, ht⟩
  · subst hnil
    rw [add_to_model_ranking_empty]
    simpa using hN
  · cases hgt : double_gt c.accuracy t.accuracy with
    | true =>
      obtain ⟨d, ds, hdw, -, hadd⟩ := add_to_model_ranking_gt c N l removed t ht hgt
      have hlen : (l.takeWhile (fun e => !double_gt c.accuracy e.accuracy)).length +
          (ds.length + 1) = l.length := by
        have h := congrArg List.length
          (List.takeWhile_append_dropWhile (fun e => !double_gt c.accuracy e.accuracy) l)
        rw [hdw, List.length_append, List.length_cons] at h
        exact h
      rw [hadd]
      split_ifs with hfull
      · simp only [List.length_append, List.length_cons, List.length_dropLast,
          Nat.add_sub_cancel]
        omega
      · simp only [List.length_append, List.length_cons]
        omega
    | false =>
      rw [add_to_model_ranking_not_gt c N l removed t ht hgt]
      split_ifs with hroom
      · simp only [List.length_append, List.length_singleton]
        omega
      · exact hl

theorem add_to_model_ranking_calls_length_le (N : Int) (hN : 1 ≤ N)
    (combos : List risky_combination) :
    ∀ (l : List risky_combination) (removed : Option risky_combination),
    (l.length : Int) ≤ N →
    (((add_to_model_ranking_calls (combos.map (fun c => (c, N))) l removed).2.1.length : Nat)
      : Int) ≤ N := by
  induction combos with
  | nil =>
    intro l removed hl
    exact hl
  | cons c rest ih =>
    intro l removed hl
    exact ih _ _ (add_to_model_ranking_length_le c N l removed hN hl)

/-- C17 (as stated, refuted): with cap 0 a single call on the empty ranking
leaves a ranking of one entry. -/
theorem add_to_model_ranking_cap_zero_exceeded :
    ¬ ((add_to_model_ranking_calls [(⟨1, [7], fun _ => 0, 1, none, some 1⟩, 0)]
      [] none).2.1.length ≤ 0) := by
  decide

/-- C17 (amended). Starting from an empty ranking, for every cap N that is at
least 1 and every sequence of `add_to_model_ranking` calls made with that cap,
the size of the ranking does not exceed N after any call (after the first k
calls, for every k). -/
theorem add_to_model_ranking_size_bound (N : Int) (hN : 1 ≤ N)
    (combos : List risky_combination) (k : Nat) (removed : Option risky_combination) :
    (((add_to_model_ranking_calls ((combos.take k).map (fun c => (c, N))) [] removed).2.1.length
      : Nat) : Int) ≤ N :=
  add_to_model_ranking_calls_length_le N hN (combos.take k) [] removed (by simpa using by omega)

/-- C17 witness: cap 1, two calls. -/
theorem add_to_model_ranking_size_bound_witness :
    (((add_to_model_ranking_calls
      (([⟨1, [1], fun _ => 0, 1, none, some 1⟩, ⟨1, [2], fun _ => 0, 1, none, some 3⟩].take 2).map
        (fun c => (c, (1 : Int)))) [] none).2.1.length : Nat) : Int) ≤ 1 :=
  add_to_model_ranking_size_bound 1 (by decide) _ 2 none

/-! ## Ranking: the stable descending sort -/

theorem double_gt_irrefl (a : double) : double_gt a a = false := by
  cases a with
  | none => rfl
  | some x => simp [double_gt]

theorem stable_insert_desc_sorted (c : risky_combination) (l : List risky_combination)
    (hs : l.Pairwise (fun a b => double_le b.accuracy a.accuracy = true))
    (hdef : ∀ e ∈ l, e.accuracy ≠ NAN) (hc : c.accuracy ≠ NAN) :
    (stable_insert_desc c l).Pairwise (fun a b => double_le b.accuracy a.accuracy = true) :=
  ranking_insert_sorted c l hs hdef hc

theorem stable_insert_desc_perm (c : risky_combination) (l : List risky_combination) :
    (stable_insert_desc c l).Perm (l ++ [c]) := by
  unfold stable_insert_desc
  have h1 : (l.takeWhile (fun e => !double_gt c.accuracy e.accuracy) ++
      c :: l.dropWhile (fun e => !double_gt c.accuracy e.accuracy)).Perm
      (c :: (l.takeWhile (fun e => !double_gt c.accuracy e.accuracy) ++
        l.dropWhile (fun e => !double_gt c.accuracy e.accuracy))) := List.perm_middle
  rw [List.takeWhile_append_dropWhile] at h1
  exact h1.trans (List.perm_append_singleton c l).symm

theorem stable_insert_desc_length (c : risky_combination) (l : List risky_combination) :
    (stable_insert_desc c l).length = l.length + 1 := by
  have h := (stable_insert_desc_perm c l).length_eq
  rw [List.length_append, List.length_singleton] at h
  exact h

theorem stable_insert_desc_defined (c : risky_combination) (l : List risky_combination)
    (hdef : ∀ e ∈ l, e.accuracy ≠ NAN) (hc : c.accuracy ≠ NAN) :
    ∀ e ∈ stable_insert_desc c l, e.accuracy ≠ NAN := by
  intro e he
  have h := (stable_insert_desc_perm c l).subset he
  rcases List.mem_append.mp h with h | h
  · exact hdef e h
  · rw [List.mem_singleton.mp h]; exact hc

/-- Stable insertion keeps, for every score, the list of entries of that score
in insertion order. -/
theorem stable_insert_desc_filter (c : risky_combination) (l : List risky_combination)
    (hs : l.Pairwise (fun a b => double_le b.accuracy a.accuracy = true))
    (hdef : ∀ e ∈ l, e.accuracy ≠ NAN) (hc : c.accuracy ≠ NAN) (v : double) :
    (stable_insert_desc c l).filter (fun e => decide (e.accuracy = v)) =
      (l ++ [c]).filter (fun e => decide (e.accuracy = v)) := by
  obtain ⟨-, h2⟩ := ranking_scan_split c l hs hdef hc
  have hl : (l ++ [c]).filter (fun e => decide (e.accuracy = v)) =
      ((l.takeWhile (fun e => !double_gt c.accuracy e.accuracy) ++
        l.dropWhile (fun e => !double_gt c.accuracy e.accuracy)) ++ [c]).filter
        (fun e => decide (e.accuracy = v)) := by
    rw [List.takeWhile_append_dropWhile]
  rw [hl]
  unfold stable_insert_desc
  simp only [List.filter_append, List.filter_cons, List.filter_nil]
  by_cases hv : c.accuracy = v
  · have hB : (l.dropWhile (fun e => !double_gt c.accuracy e.accuracy)).filter
        (fun e => decide (e.accuracy = v)) = [] := by
      rw [List.filter_eq_nil_iff]
      intro e he
      have hgt := h2 e he
      intro hev
      have hev' : e.accuracy = v := by simpa using hev
      rw [hev', ← hv, double_gt_irrefl] at hgt
      exact Bool.false_ne_true hgt
    rw [hB]
    simp [hv]
  · simp [hv]

/-- The specification-side sort is a sorted, stable permutation. -/
theorem stable_sort_desc_from_spec (combos : List risky_combination) :
    ∀ l : List risky_combination,
    l.Pairwise (fun a b => double_le b.accuracy a.accuracy = true) →
    (∀ e ∈ l, e.accuracy ≠ NAN) → (∀ c ∈ combos, c.accuracy ≠ NAN) →
    (stable_sort_desc_from l combos).Pairwise
      (fun a b => double_le b.accuracy a.accuracy = true) ∧
    (∀ e ∈ stable_sort_desc_from l combos, e.accuracy ≠ NAN) ∧
    (stable_sort_desc_from l combos).Perm (l ++ combos) ∧
    (∀ v : double, (stable_sort_desc_from l combos).filter (fun e => decide (e.accuracy = v)) =
      (l ++ combos).filter (fun e => decide (e.accuracy = v))) ∧
    (stable_sort_desc_from l combos).length = l.length + combos.length := by
  induction combos with
  | nil =>
    intro l hs hdef _
    have hunf : stable_sort_desc_from l [] = l := rfl
    rw [hunf, List.append_nil]
    exact ⟨hs, hdef, List.Perm.refl l, fun _ => rfl, rfl⟩
  | cons c rest ih =>
    intro l hs hdef hcombos
    have hc := hcombos c (List.mem_cons_self _ _)
    have hrest : ∀ x ∈ rest, x.accuracy ≠ NAN :=
      fun x hx => hcombos x (List.mem_cons_of_mem _ hx)
    obtain ⟨i1, i2, i3, i4, i5⟩ := ih (stable_insert_desc c l)
      (stable_insert_desc_sorted c l hs hdef hc) (stable_insert_desc_defined c l hdef hc) hrest
    have hunf : stable_sort_desc_from l (c :: rest) =
        stable_sort_desc_from (stable_insert_desc c l) rest := rfl
    rw [hunf]
    refine ⟨i1, i2, ?_, ?_, ?_⟩
    · refine i3.trans ?_
      have h := (stable_insert_desc_perm c l).append_right rest
      rw [List.append_assoc, List.singleton_append] at h
      exact h
    · intro v
      rw [i4 v, List.filter_append, stable_insert_desc_filter c l hs hdef hc v,
        ← List.filter_append, List.append_assoc, List.singleton_append]
    · rw [i5, stable_insert_desc_length, List.length_cons]
      omega

/-- A new score that does not beat the tail of a sorted ranking goes last. -/
theorem stable_insert_desc_of_not_gt_tail (c : risky_combination) (l : List risky_combination)
    (t : risky_combination)
    (hs : l.Pairwise (fun a b => double_le b.accuracy a.accuracy = true))
    (hdef : ∀ e ∈ l, e.accuracy ≠ NAN) (hc : c.accuracy ≠ NAN)
    (ht : l.getLast? = some t) (hgt : double_gt c.accuracy t.accuracy = false) :
    stable_insert_desc c l = l ++ [c] := by
  have hall : ∀ e ∈ l, (!double_gt c.accuracy e.accuracy) = true := by
    intro e he
    have h1 : double_le c.accuracy t.accuracy = true :=
      (double_gt_false_iff_le _ _ hc (hdef t (getLast?_mem l t ht))).mp hgt
    have h2 := double_le_trans _ _ _ h1 (sorted_tail_le l t hs hdef ht e he)
    rw [double_le_not_gt _ _ h2]
    rfl
  unfold stable_insert_desc
  rw [List.takeWhile_eq_self_iff.mpr hall, List.dropWhile_eq_nil_iff.mpr hall]

/-- One call on a sorted ranking within the cap: the ranking becomes the
stable insertion cut to the cap. -/
theorem add_to_model_ranking_eq_take (c : risky_combination) (N : Int)
    (l : List risky_combination) (removed : Option risky_combination) (hN : 1 ≤ N)
    (hs : l.Pairwise (fun a b => double_le b.accuracy a.accuracy = true))
    (hdef : ∀ e ∈ l, e.accuracy ≠ NAN) (hc : c.accuracy ≠ NAN)
    (hl : l.length ≤ int_to_size_t N) :
    (add_to_model_ranking c N l removed).2.1 =
      (stable_insert_desc c l).take (int_to_size_t N) := by
  have hsz := int_to_size_t_of_nonneg N (by omega)
  have hn : 1 ≤ int_to_size_t N := by omega
  have hlen := stable_insert_desc_length c l
  rcases getLast?_eq_none_or_some l with hnil | ⟨t, ht⟩
  · subst hnil
    rw [add_to_model_ranking_empty]
    show [c] = List.take (int_to_size_t N) [c]
    rw [List.take_of_length_le (by simpa using hn)]
  · cases hgt : double_gt c.accuracy t.accuracy with
    | true =>
      obtain ⟨d, ds, hdw, -, hadd⟩ := add_to_model_ranking_gt c N l removed t ht hgt
      have hins : stable_insert_desc c l =
          l.takeWhile (fun e => !double_gt c.accuracy e.accuracy) ++ c :: d :: ds := by
        unfold stable_insert_desc
        rw [hdw]
      rw [hadd]
      split_ifs with hfull
      · have hdrop : (l.takeWhile (fun e => !double_gt c.accuracy e.accuracy) ++
            c :: d :: ds).dropLast =
            l.takeWhile (fun e => !double_gt c.accuracy e.accuracy) ++
              c :: (d :: ds).dropLast := by
          rw [List.dropLast_append_of_ne_nil _ (List.cons_ne_nil c (d :: ds))]
          rfl
        show l.takeWhile (fun e => !double_gt c.accuracy e.accuracy) ++
            c :: (d :: ds).dropLast = _
        rw [← hdrop, ← hins, List.dropLast_eq_take, hlen]
        have hle : l.length = int_to_size_t N := by omega
        rw [hle, Nat.add_sub_cancel]
      · show l.takeWhile (fun e => !double_gt c.accuracy e.accuracy) ++ c :: d :: ds = _
        rw [← hins, List.take_of_length_le (by omega)]
    | false =>
      rw [add_to_model_ranking_not_gt c N l removed t ht hgt,
        stable_insert_desc_of_not_gt_tail c l t hs hdef hc ht hgt]
      split_ifs with hroom
      · show l ++ [c] = _
        rw [List.take_of_length_le (by simp; omega)]
      · show l = _
        have hle : int_to_size_t N = l.length := by omega
        rw [hle, List.take_left]

/-- Cutting before or after a stable insertion gives the same first n entries. -/
theorem stable_insert_desc_take (c : risky_combination) (l : List risky_combination) :
    ∀ n : Nat, (stable_insert_desc c (l.take n)).take n = (stable_insert_desc c l).take n := by
  induction l with
  | nil => intro n; simp
  | cons a l ih =>
    intro n
    cases n with
    | zero => simp
    | succ m =>
      by_cases hp : double_gt c.accuracy a.accuracy = true
      · simp only [stable_insert_desc, List.take_succ_cons, List.takeWhile_cons,
          List.dropWhile_cons, hp, Bool.not_true, Bool.false_eq_true, if_false,
          List.nil_append]
        cases m with
        | zero => simp
        | succ k =>
          simp only [List.take_succ_cons, List.take_take]
          rw [Nat.min_eq_left (Nat.le_succ k)]
      · have hp' : double_gt c.accuracy a.accuracy = false := by simpa using hp
        have h := ih m
        simp only [stable_insert_desc] at h
        simp only [stable_insert_desc, List.take_succ_cons, List.takeWhile_cons,
          List.dropWhile_cons, hp', Bool.not_false, if_true, List.cons_append]
        rw [h]

theorem add_to_model_ranking_calls_cons (c : risky_combination) (N : Int)
    (rest : List (risky_combination × Int)) (l : List risky_combination)
    (removed : Option risky_combination) :
    add_to_model_ranking_calls ((c, N) :: rest) l removed =
      ((add_to_model_ranking c N l removed).1 ::
        (add_to_model_ranking_calls rest (add_to_model_ranking c N l removed).2.1
          (add_to_model_ranking c N l removed).2.2).1,
       (add_to_model_ranking_calls rest (add_to_model_ranking c N l removed).2.1
          (add_to_model_ranking c N l removed).2.2).2.1,
       (add_to_model_ranking_calls rest (add_to_model_ranking c N l removed).2.1
          (add_to_model_ranking c N l removed).2.2).2.2) := rfl

theorem add_to_model_ranking_calls_returns_length (calls : List (risky_combination × Int)) :
    ∀ (l : List risky_combination) (removed : Option risky_combination),
    (add_to_model_ranking_calls calls l removed).1.length = calls.length := by
  induction calls with
  | nil => intro l removed; rfl
  | cons call rest ih =>
    intro l removed
    obtain ⟨c, N⟩ := call
    rw [add_to_model_ranking_calls_cons]
    simp only [List.length_cons]
    rw [ih]

/-- With a cap of at least 1, a run of calls keeps in the ranking the first
entries, up to the cap, of the stable descending sort. -/
theorem add_to_model_ranking_calls_top (N : Int) (hN : 1 ≤ N)
    (combos : List risky_combination) :
    ∀ (S : List risky_combination) (removed : Option risky_combination),
    S.Pairwise (fun a b => double_le b.accuracy a.accuracy = true) →
    (∀ e ∈ S, e.accuracy ≠ NAN) → (∀ c ∈ combos, c.accuracy ≠ NAN) →
    (add_to_model_ranking_calls (combos.map (fun c => (c, N)))
      (S.take (int_to_size_t N)) removed).2.1 =
      (stable_sort_desc_from S combos).take (int_to_size_t N) := by
  induction combos with
  | nil => intro S removed _ _ _; rfl
  | cons c rest ih =>
    intro S removed hs hdef hcombos
    have hc := hcombos c (List.mem_cons_self _ _)
    have hrest : ∀ x ∈ rest, x.accuracy ≠ NAN :=
      fun x hx => hcombos x (List.mem_cons_of_mem _ hx)
    have hstep : (add_to_model_ranking c N (S.take (int_to_size_t N)) removed).2.1 =
        (stable_insert_desc c S).take (int_to_size_t N) := by
      rw [add_to_model_ranking_eq_take c N _ removed hN (hs.sublist (List.take_sublist _ _))
        (fun e he => hdef e (List.mem_of_mem_take he)) hc
        (by rw [List.length_take]; exact Nat.min_le_left _ _)]
      exact stable_insert_desc_take c S _
    rw [List.map_cons, add_to_model_ranking_calls_cons]
    show (add_to_model_ranking_calls (rest.map (fun c => (c, N)))
      (add_to_model_ranking c N (S.take (int_to_size_t N)) removed).2.1
      (add_to_model_ranking c N (S.take (int_to_size_t N)) removed).2.2).2.1 = _
    rw [hstep]
    exact ih (stable_insert_desc c S) _ (stable_insert_desc_sorted c S hs hdef hc)
      (stable_insert_desc_defined c S hdef hc) hrest

/-- While there is room for every combination still to come, no call
returns -1. -/
theorem add_to_model_ranking_calls_room (N : Int) (combos : List risky_combination) :
    ∀ (S : List risky_combination) (removed : Option risky_combination),
    S.Pairwise (fun a b => double_le b.accuracy a.accuracy = true) →
    (∀ e ∈ S, e.accuracy ≠ NAN) → (∀ c ∈ combos, c.accuracy ≠ NAN) →
    (S.length : Int) + (combos.length : Int) ≤ N →
    ∀ r ∈ (add_to_model_ranking_calls (combos.map (fun c => (c, N))) S removed).1, r ≠ -1 := by
  induction combos with
  | nil =>
    intro S removed _ _ _ _ r hr
    exact absurd hr (List.not_mem_nil r)
  | cons c rest ih =>
    intro S removed hs hdef hcombos hroom r hr
    have hc := hcombos c (List.mem_cons_self _ _)
    have hrest : ∀ x ∈ rest, x.accuracy ≠ NAN :=
      fun x hx => hcombos x (List.mem_cons_of_mem _ hx)
    rw [List.length_cons] at hroom
    have hN : 1 ≤ N := by omega
    have hsz := int_to_size_t_of_nonneg N (by omega)
    have hstep : (add_to_model_ranking c N S removed).2.1 = stable_insert_desc c S := by
      rw [add_to_model_ranking_eq_take c N S removed hN hs hdef hc (by omega),
        List.take_of_length_le (by rw [stable_insert_desc_length]; omega)]
    rw [List.map_cons, add_to_model_ranking_calls_cons] at hr
    rcases List.mem_cons.mp hr with h | h
    · intro hneg
      rw [hneg] at h
      obtain ⟨-, -, -, hfull⟩ := add_to_model_ranking_minus_one c N S removed h.symm
      omega
    · rw [hstep] at h
      exact ih (stable_insert_desc c S) _ (stable_insert_desc_sorted c S hs hdef hc)
        (stable_insert_desc_defined c S hdef hc) hrest
        (by rw [stable_insert_desc_length]; push_cast; omega) r h

/-- C18. For every finite sequence of combinations with defined scores,
inserting them one by one with `add_to_model_ranking` into an empty ranking
whose cap N is at least the length of the sequence yields a ranking that is a
permutation of the inserted combinations, sorted by descending accuracy, with
the combinations of each score in insertion order; every call returns a
position, none returns -1. -/
theorem add_to_model_ranking_sorts_all (N : Int) (combos : List risky_combination)
    (removed : Option risky_combination) (hN : (combos.length : Int) ≤ N)
    (hdef : ∀ c ∈ combos, c.accuracy ≠ NAN) :
    (add_to_model_ranking_calls (combos.map (fun c => (c, N))) [] removed).2.1.Perm combos ∧
    (add_to_model_ranking_calls (combos.map (fun c => (c, N))) [] removed).2.1.Pairwise
      (fun a b => double_le b.accuracy a.accuracy = true) ∧
    (∀ v : double,
      (add_to_model_ranking_calls (combos.map (fun c => (c, N))) [] removed).2.1.filter
        (fun e => decide (e.accuracy = v)) = combos.filter (fun e => decide (e.accuracy = v))) ∧
    (add_to_model_ranking_calls (combos.map (fun c => (c, N))) [] removed).1.length =
      combos.length ∧
    (∀ r ∈ (add_to_model_ranking_calls (combos.map (fun c => (c, N))) [] removed).1,
      r ≠ -1) := by
  have hret := add_to_model_ranking_calls_room N combos [] removed List.Pairwise.nil
    (fun e he => absurd he (List.not_mem_nil e)) hdef (by simpa using hN)
  have hlen := add_to_model_ranking_calls_returns_length (combos.map (fun c => (c, N))) []
    removed
  rw [List.length_map] at hlen
  obtain ⟨s1, -, s3, s4, s5⟩ := stable_sort_desc_from_spec combos [] List.Pairwise.nil
    (fun e he => absurd he (List.not_mem_nil e)) hdef
  rw [List.nil_append] at s3
  have hfinal : (add_to_model_ranking_calls (combos.map (fun c => (c, N))) [] removed).2.1 =
      stable_sort_desc_from [] combos := by
    cases combos with
    | nil => rfl
    | cons c rest =>
      rw [List.length_cons] at hN
      have hN1 : 1 ≤ N := by omega
      have hsz := int_to_size_t_of_nonneg N (by omega)
      have h := add_to_model_ranking_calls_top N hN1 (c :: rest) [] removed List.Pairwise.nil
        (fun e he => absurd he (List.not_mem_nil e)) hdef
      rw [List.take_nil] at h
      rw [h, List.take_of_length_le]
      rw [s5, List.length_nil, List.length_cons]
      omega
  rw [hfinal]
  refine ⟨s3, s1, ?_, hlen, hret⟩
  intro v
  rw [s4 v, List.nil_append]

/-- C18 witness: the scores 2, 3, 2 inserted with cap 3. -/
theorem add_to_model_ranking_sorts_all_witness :
    (add_to_model_ranking_calls
      ([⟨1, [1], fun _ => 0, 1, none, some 2⟩, ⟨1, [2], fun _ => 0, 1, none, some 3⟩,
        ⟨1, [3], fun _ => 0, 1, none, some 2⟩].map (fun c => (c, (3 : Int)))) [] none).2.1.Perm
      [⟨1, [1], fun _ => 0, 1, none, some 2⟩, ⟨1, [2], fun _ => 0, 1, none, some 3⟩,
        ⟨1, [3], fun _ => 0, 1, none, some 2⟩] :=
  (add_to_model_ranking_sorts_all 3 _ none (by decide) (by
    intro c hc
    simp only [List.mem_cons, List.mem_singleton, List.not_mem_nil, or_false] at hc
    rcases hc with h | h | h <;> rw [h] <;> exact Option.some_ne_none _)).1

/-! ## Undefined scores -/

theorem strcasecmp_eq_zero (a b : String) :
    strcasecmp a b = 0 ↔ a.data.map Char.toLower = b.data.map Char.toLower := by
  unfold strcasecmp
  split_ifs with h
  · exact ⟨fun _ => h, fun _ => rfl⟩
  · exact ⟨fun h1 => absurd h1 (by decide), fun h1 => absurd h1 h⟩

/-- The test of a table operation compares the pair (bucket, case-folded
string) of the two keys. -/
theorem cp_entry_matches_iff (cp_hash_string : String → Nat) (table_size : Nat)
    (key stored : String) :
    cp_entry_matches cp_hash_string table_size key stored = true ↔
      (cp_hash_string key % table_size, key.data.map Char.toLower) =
        (cp_hash_string stored % table_size, stored.data.map Char.toLower) := by
  unfold cp_entry_matches
  rw [Bool.and_eq_true, decide_eq_true_iff, decide_eq_true_iff, strcasecmp_eq_zero,
    Prod.mk.injEq]
  exact ⟨fun h => ⟨h.1.symm, h.2⟩, fun h => ⟨h.1.symm, h.2⟩⟩

/-- Keys that match each other match the same stored keys. -/
theorem cp_entry_matches_congr (cp_hash_string : String → Nat) (table_size : Nat)
    (key name stored : String)
    (h : cp_entry_matches cp_hash_string table_size key name = true) :
    cp_entry_matches cp_hash_string table_size key stored =
      cp_entry_matches cp_hash_string table_size name stored := by
  rw [cp_entry_matches_iff] at h
  rw [Bool.eq_iff_iff, cp_entry_matches_iff, cp_entry_matches_iff, h]

theorem cp_hashtable_put_table_size (cp_hash_string : String → Nat) (table : cp_hashtable)
    (key : String) (value : Nat) :
    (cp_hashtable_put cp_hash_string table key value).table_size = table.table_size := by
  unfold cp_hashtable_put
  split_ifs <;> rfl

theorem find_replace_matching (p q : String × Nat → Bool) (x : String × Nat)
    (l : List (String × Nat)) (hpq : ∀ e, p e = q e) (hx : p x = true)
    (hex : l.any q = true) :
    (l.map (fun e => if q e = true then x else e)).find? p = some x := by
  induction l with
  | nil => simp at hex
  | cons a l ih =>
    rw [List.map_cons]
    by_cases hq : q a = true
    · rw [if_pos hq, List.find?_cons, hx]
    · rw [if_neg hq, List.find?_cons]
      have hpa : p a = false := by rw [hpq]; simpa using hq
      rw [hpa]
      apply ih
      rw [List.any_cons] at hex
      simpa [hq] using hex

theorem find_replace_other (p q : String × Nat → Bool) (x : String × Nat)
    (l : List (String × Nat)) (hpq : ∀ e, q e = true → p e = false) (hx : p x = false) :
    (l.map (fun e => if q e = true then x else e)).find? p = l.find? p := by
  induction l with
  | nil => rfl
  | cons a l ih =>
    rw [List.map_cons]
    by_cases hq : q a = true
    · rw [if_pos hq, List.find?_cons, hx, List.find?_cons, hpq a hq]
      exact ih
    · rw [if_neg hq, List.find?_cons, List.find?_cons, ih]

/-- Lookup after one `cp_hashtable_put`. -/
theorem cp_hashtable_get_put (cp_hash_string : String → Nat) (table : cp_hashtable)
    (name : String) (value : Nat) (key : String) :
    cp_hashtable_get cp_hash_string (cp_hashtable_put cp_hash_string table name value) key =
      if cp_entry_matches cp_hash_string table.table_size key name = true then some value
      else cp_hashtable_get cp_hash_string table key := by
  unfold cp_hashtable_get
  rw [cp_hashtable_put_table_size]
  unfold cp_hashtable_put
  by_cases hm : cp_entry_matches cp_hash_string table.table_size key name = true
  · rw [if_pos hm]
    by_cases hany : table.entries.any
        (fun e => cp_entry_matches cp_hash_string table.table_size name e.1) = true
    · rw [if_pos hany]
      show Option.map Prod.snd (List.find? _ (List.map _ table.entries)) = _
      rw [find_replace_matching
        (fun e => cp_entry_matches cp_hash_string table.table_size key e.1)
        (fun e => cp_entry_matches cp_hash_string table.table_size name e.1) (name, value)
        table.entries (fun e => cp_entry_matches_congr _ _ _ _ _ hm) hm hany]
      rfl
    · rw [if_neg hany]
      show Option.map Prod.snd (List.find? _ (table.entries ++ [(name, value)])) = _
      have hnone : table.entries.find?
          (fun e => cp_entry_matches cp_hash_string table.table_size key e.1) = none := by
        rw [List.find?_eq_none]
        intro e he hp
        apply hany
        rw [List.any_eq_true]
        refine ⟨e, he, ?_⟩
        rw [← cp_entry_matches_congr _ _ _ _ _ hm]
        exact hp
      rw [List.find?_append, hnone]
      simp [hm]
  · rw [if_neg hm]
    have hm' : cp_entry_matches cp_hash_string table.table_size key name = false := by
      simpa using hm
    have hother : ∀ e : String × Nat,
        cp_entry_matches cp_hash_string table.table_size name e.1 = true →
        cp_entry_matches cp_hash_string table.table_size key e.1 = false := by
      intro e he
      by_contra hk
      have hk' : cp_entry_matches cp_hash_string table.table_size key e.1 = true := by
        simpa using hk
      rw [cp_entry_matches_iff] at he hk'
      apply hm
      rw [cp_entry_matches_iff, hk', he]
    by_cases hany : table.entries.any
        (fun e => cp_entry_matches cp_hash_string table.table_size name e.1) = true
    · rw [if_pos hany]
      show Option.map Prod.snd (List.find? _ (List.map _ table.entries)) = _
      rw [find_replace_other
        (fun e => cp_entry_matches cp_hash_string table.table_size key e.1)
        (fun e => cp_entry_matches cp_hash_string table.table_size name e.1) (name, value)
        table.entries hother hm']
    · rw [if_neg hany]
      show Option.map Prod.snd (List.find? _ (table.entries ++ [(name, value)])) = _
      rw [List.find?_append]
      simp [hm']

theorem associate_samples_loop_table_size (cp_hash_string : String → Nat)
    (items : List String) : ∀ (i : Nat) (table : cp_hashtable),
    (associate_samples_loop cp_hash_string i items table).table_size = table.table_size := by
  induction items with
  | nil => intro i table; rfl
  | cons name rest ih =>
    intro i table
    show (associate_samples_loop cp_hash_string (i + 1) rest
      (cp_hashtable_put cp_hash_string table name i)).table_size = _
    rw [ih, cp_hashtable_put_table_size]

/-- Lookup after the loop: the position of the last item that matches the
key, or what the table held before. -/
theorem associate_samples_loop_get (cp_hash_string : String → Nat) (items : List String)
    (key : String) : ∀ (i : Nat) (table : cp_hashtable),
    cp_hashtable_get cp_hash_string (associate_samples_loop cp_hash_string i items table) key =
      (items.enumFrom i).foldl
        (fun found p =>
          if cp_entry_matches cp_hash_string table.table_size key p.2 = true then some p.1
          else found)
        (cp_hashtable_get cp_hash_string table key) := by
  induction items with
  | nil => intro i table; rfl
  | cons name rest ih =>
    intro i table
    show cp_hashtable_get cp_hash_string (associate_samples_loop cp_hash_string (i + 1) rest
      (cp_hashtable_put cp_hash_string table name i)) key = _
    rw [ih, cp_hashtable_put_table_size, cp_hashtable_get_put, List.enumFrom_cons,
      List.foldl_cons]

theorem last_match_none (p : String → Bool) (items : List String) :
    ∀ (i : Nat) (found : Option Nat), (∀ x ∈ items, p x = false) →
    (items.enumFrom i).foldl (fun found e => if p e.2 = true then some e.1 else found) found =
      found := by
  induction items with
  | nil => intro i found _; rfl
  | cons a rest ih =>
    intro i found h
    rw [List.enumFrom_cons, List.foldl_cons, h a (List.mem_cons_self _ _)]
    simp only [Bool.false_eq_true, if_false]
    exact ih _ _ (fun x hx => h x (List.mem_cons_of_mem _ hx))

/-- Lookup in the index built by `associate_samples_and_positions`: the
position of the last sample name that lies in the key's bucket and compares
equal to the key. -/
theorem associate_samples_and_positions_get (cp_hash_string : String → Nat)
    (table_size : Nat → Nat) (sample_names : List String) (key : String) :
    cp_hashtable_get cp_hash_string
      (associate_samples_and_positions cp_hash_string table_size sample_names) key =
      (sample_names.enumFrom 0).foldl
        (fun found p =>
          if cp_entry_matches cp_hash_string (table_size (sample_names.length * 2)) key p.2 = true
          then some p.1 else found)
        none := by
  unfold associate_samples_and_positions
  rw [associate_samples_loop_get]
  rfl

/-- C22 (evaluation of the code). A key whose bucket under `cp_hash_string`
differs from the bucket of every stored sample name is not found, whatever
its spelling: the comparison `strcasecmp` is applied only inside the bucket
that the hash of the key selects. -/
theorem cp_hashtable_get_other_bucket (cp_hash_string : String → Nat)
    (table_size : Nat → Nat) (sample_names : List String) (key : String)
    (hbucket : ∀ name ∈ sample_names,
      cp_hash_string name % table_size (sample_names.length * 2) ≠
        cp_hash_string key % table_size (sample_names.length * 2)) :
    cp_hashtable_get cp_hash_string
      (associate_samples_and_positions cp_hash_string table_size sample_names) key = none := by
  rw [associate_samples_and_positions_get]
  apply last_match_none
    (fun x => cp_entry_matches cp_hash_string (table_size (sample_names.length * 2)) key x)
  intro x hx
  unfold cp_entry_matches
  simp [hbucket x hx]

/-- C22 witness: the index of the single sample `NA001`, looked up with the
spelling `na001`, for a polynomial hash of the character codes and 11
buckets. -/
theorem cp_hashtable_get_other_bucket_witness :
    strcasecmp "na001" "NA001" = 0 ∧
    cp_hashtable_get (fun s => s.data.foldl (fun h c => 31 * h + c.toNat) 1)
      (associate_samples_and_positions (fun s => s.data.foldl (fun h c => 31 * h + c.toNat) 1)
        (fun _ => 11) ["NA001"]) "na001" = none :=
  ⟨by decide,
    cp_hashtable_get_other_bucket (fun s => s.data.foldl (fun h c => 31 * h + c.toNat) 1)
      (fun _ => 11) ["NA001"] "na001" (by decide)⟩

/-- Every offset of a region of `R` rows is the offset of one byte of one
block. -/
theorem mask_offset_decompose (order S R a : Nat) (hS : 0 < S)
    (ha : a < R * (order * (3 * S))) :
    ∃ c j g p, c < R ∧ j < order ∧ g < 3 ∧ p < S ∧
      a = c * (order * (3 * S)) + j * (3 * S) + g * S + p := by
  have hM : 0 < order * (3 * S) := by
    rcases Nat.eq_zero_or_pos (order * (3 * S)) with h | h
    · rw [h, Nat.mul_zero] at ha
      exact absurd ha (Nat.not_lt_zero a)
    · exact h
  have h3S : 0 < 3 * S := by omega
  refine ⟨a / (order * (3 * S)), a % (order * (3 * S)) / (3 * S),
    a % (order * (3 * S)) % (3 * S) / S, a % (order * (3 * S)) % (3 * S) % S, ?_, ?_, ?_,
    Nat.mod_lt _ hS, ?_⟩
  · exact Nat.div_lt_of_lt_mul (by rw [Nat.mul_comm (order * (3 * S)) R]; exact ha)
  · exact Nat.div_lt_of_lt_mul (by rw [Nat.mul_comm (3 * S) order]; exact Nat.mod_lt _ hM)
  · exact Nat.div_lt_of_lt_mul (by rw [Nat.mul_comm S 3]; exact Nat.mod_lt _ h3S)
  · have h1 := Nat.div_add_mod a (order * (3 * S))
    have h2 := Nat.div_add_mod (a % (order * (3 * S))) (3 * S)
    have h3 := Nat.div_add_mod (a % (order * (3 * S)) % (3 * S)) S
    rw [Nat.mul_comm (a / (order * (3 * S))) (order * (3 * S)),
      Nat.mul_comm (a % (order * (3 * S)) / (3 * S)) (3 * S),
      Nat.mul_comm (a % (order * (3 * S)) % (3 * S) / S) S]
    omega

/-- C24. Rebuilding the masks is idempotent: for a layout built by
`masks_info_init`, a second call of `set_genotypes_masks` with the same
genotype columns and layout leaves every byte as the first call left it, and
the bytes of the mask region (offsets below `R * num_masks`) after a call do
not depend on the content of the region before the call. -/
theorem set_genotypes_masks_idempotent (order R A U : Nat) (info : masks_info)
    (hinit : masks_info_init order R A U = some info)
    (genotypes : Nat → Nat → uint8_t) (masks other : Nat → Nat) :
    (∀ a, set_genotypes_masks order genotypes R info
        (set_genotypes_masks order genotypes R info masks) a =
      set_genotypes_masks order genotypes R info masks a) ∧
    (∀ a, a < R * info.num_masks →
      set_genotypes_masks order genotypes R info masks a =
        set_genotypes_masks order genotypes R info other a) := by
  have hl := masks_info_init_layout order R A U info hinit
  have hnm : info.num_masks = order * (3 * info.num_samples_per_mask) := hl.2.2.2.2.2.2.2.1
  obtain ⟨hval, hframe⟩ := set_genotypes_masks_spec order info hl genotypes R
  constructor
  · intro a
    by_cases hin : ∃ c j g p, c < R ∧ j < order ∧ g < 3 ∧ p < info.num_samples_per_mask ∧
        a = c * info.num_masks + j * (3 * info.num_samples_per_mask)
          + g * info.num_samples_per_mask + p
    · obtain ⟨c, j, g, p, hc, hj, hg, hp, rfl⟩ := hin
      rw [hval _ c j g p hc hj hg hp, hval _ c j g p hc hj hg hp]
    · apply hframe
      intro c j g p hc hj hg hp heq
      exact hin ⟨c, j, g, p, hc, hj, hg, hp, heq⟩
  · intro a ha
    have hS : 0 < info.num_samples_per_mask := by
      have hfields := masks_info_init_fields order R A U info hinit
      by_contra h0
      have hA : 16 * ((A + 15) / 16) = 0 := by omega
      unfold masks_info_init at hinit
      simp [hA] at hinit
    rw [hnm] at ha
    obtain ⟨c, j, g, p, hc, hj, hg, hp, heq⟩ :=
      mask_offset_decompose order info.num_samples_per_mask R a hS ha
    rw [← hnm] at heq
    rw [heq, hval masks c j g p hc hj hg hp, hval other c j g p hc hj hg hp]

/-- C24 witness: one SNP, one row, 10 affected and 10 unaffected samples;
regions that held 0xAA and 0x55 before the build. -/
theorem set_genotypes_masks_idempotent_witness :
    set_genotypes_masks 1 (fun _ p => if p < 16 then 0 else 2) 1
        ⟨10, 10, 16, 16, 1, 3, 32, 96⟩ (fun _ => 170) 5 =
      set_genotypes_masks 1 (fun _ p => if p < 16 then 0 else 2) 1
        ⟨10, 10, 16, 16, 1, 3, 32, 96⟩ (fun _ => 85) 5 :=
  (set_genotypes_masks_idempotent 1 1 10 10 ⟨10, 10, 16, 16, 1, 3, 32, 96⟩ (by decide)
    (fun _ p => if p < 16 then 0 else 2) (fun _ => 170) (fun _ => 85)).2 5 (by decide)

/-! ## Closed forms shared by the pipeline results -/

/-- The counts stored by `combination_counts` on freshly built masks, cell by
cell (shared form for the pipeline results). -/
theorem combination_counts_cells (order R A U : Nat) (info : masks_info)
    (hinit : masks_info_init order R A U = some info) (horder : 1 ≤ order)
    (genotypes : Nat → Nat → uint8_t) (masks : Nat → Nat)
    (genotype_permutations : Nat → Nat → uint8_t)
    (hperm : ∀ c j, c < 3 ^ order → j < order → (genotype_permutations c j).val < 3)
    (counts_aff counts_unaff : Nat → Nat) (rc c : Nat) (hrc : rc < R) (hc : c < 3 ^ order) :
    (combination_counts order (set_genotypes_masks order genotypes R info masks)
        genotype_permutations (3 ^ order) counts_aff counts_unaff info).1 (rc * 3 ^ order + c) =
      ((List.range A).filter (fun p => decide (∀ j, j < order →
        genotypes (rc * order + j) p = genotype_permutations c j))).length ∧
    (combination_counts order (set_genotypes_masks order genotypes R info masks)
        genotype_permutations (3 ^ order) counts_aff counts_unaff info).2 (rc * 3 ^ order + c) =
      ((List.range U).filter (fun q => decide (∀ j, j < order →
        genotypes (rc * order + j) (info.num_affected_with_padding + q)
          = genotype_permutations c j))).length ∧
    combination_count order (set_genotypes_masks order genotypes R info masks)
        (rc * order * NUM_GENOTYPES * info.num_samples_per_mask) (genotype_permutations c)
        info 0 info.num_affected =
      8 * ((List.range A).filter (fun p => decide (∀ j, j < order →
        genotypes (rc * order + j) p = genotype_permutations c j))).length ∧
    combination_count order (set_genotypes_masks order genotypes R info masks)
        (rc * order * NUM_GENOTYPES * info.num_samples_per_mask) (genotype_permutations c)
        info info.num_affected_with_padding info.num_unaffected =
      8 * ((List.range U).filter (fun q => decide (∀ j, j < order →
        genotypes (rc * order + j) (info.num_affected_with_padding + q)
          = genotype_permutations c j))).length := by
  have hl := masks_info_init_layout order R A U info hinit
  obtain ⟨hA, hU, -, -, hR, hN, -, -⟩ := masks_info_init_fields order R A U info hinit
  obtain ⟨ha1, ha2, ha3, hu1, hu2, hu3, hs, -, -⟩ := hl
  have hl := masks_info_init_layout order R A U info hinit
  -- the affected sweep
  have haff : combination_count order (set_genotypes_masks order genotypes R info masks)
      (rc * order * NUM_GENOTYPES * info.num_samples_per_mask) (genotype_permutations c)
      info 0 info.num_affected =
      8 * ((List.range A).filter (fun p => decide (∀ j, j < order →
        genotypes (rc * order + j) p = genotype_permutations c j))).length := by
    rw [combination_count_spec order R info hl horder genotypes masks rc hrc
      (genotype_permutations c) (fun j hj => hperm c j hc hj) 0 info.num_affected (by omega)]
    congr 1
    rw [filter_range_trim _ info.num_affected (16 * ((info.num_affected + 15) / 16))
      (by omega) (by
        intro p hp1 hp2
        apply decide_eq_false
        intro h
        omega), hA]
    congr 1
    apply List.filter_congr
    intro p hp
    have hp' := List.mem_range.mp hp
    apply decide_eq_decide.mpr
    constructor
    · intro h j hj
      have := h.2 j hj
      rw [Nat.zero_add] at this
      exact this
    · intro h
      refine ⟨Or.inl (by omega), fun j hj => ?_⟩
      rw [Nat.zero_add]
      exact h j hj
  -- the unaffected sweep
  have hunaff : combination_count order (set_genotypes_masks order genotypes R info masks)
      (rc * order * NUM_GENOTYPES * info.num_samples_per_mask) (genotype_permutations c)
      info info.num_affected_with_padding info.num_unaffected =
      8 * ((List.range U).filter (fun q => decide (∀ j, j < order →
        genotypes (rc * order + j) (info.num_affected_with_padding + q)
          = genotype_permutations c j))).length := by
    rw [combination_count_spec order R info hl horder genotypes masks rc hrc
      (genotype_permutations c) (fun j hj => hperm c j hc hj)
      info.num_affected_with_padding info.num_unaffected (by omega)]
    congr 1
    rw [filter_range_trim _ info.num_unaffected (16 * ((info.num_unaffected + 15) / 16))
      (by omega) (by
        intro p hp1 hp2
        apply decide_eq_false
        intro h
        omega), hU]
    congr 1
    apply List.filter_congr
    intro p hp
    have hp' := List.mem_range.mp hp
    apply decide_eq_decide.mpr
    constructor
    · intro h
      exact h.2
    · intro h
      exact ⟨Or.inr ⟨by omega, by omega⟩, h⟩
  refine ⟨?_, ?_, haff, hunaff⟩
  · unfold combination_counts
    rw [hR, hN]
    have h := counts_fold_spec (fun (s : (Nat → Nat) × (Nat → Nat)) => s.1)
      (fun counts rc c =>
        (fun n => if n = rc * 3 ^ order + c then
            combination_count order (set_genotypes_masks order genotypes R info masks)
              (rc * order * NUM_GENOTYPES * info.num_samples_per_mask)
              (genotype_permutations c) info 0 info.num_affected / 8
          else counts.1 n,
         fun n => if n = rc * 3 ^ order + c then
            combination_count order (set_genotypes_masks order genotypes R info masks)
              (rc * order * NUM_GENOTYPES * info.num_samples_per_mask)
              (genotype_permutations c) info info.num_affected_with_padding
              info.num_unaffected / 8
          else counts.2 n))
      R (3 ^ order) (3 ^ order) (le_refl _)
      (fun rc c => combination_count order (set_genotypes_masks order genotypes R info masks)
        (rc * order * NUM_GENOTYPES * info.num_samples_per_mask)
        (genotype_permutations c) info 0 info.num_affected / 8)
      (fun _ _ _ _ => rfl) (counts_aff, counts_unaff) rc c hrc hc
    refine Eq.trans h ?_
    beta_reduce
    rw [haff]
    omega
  · unfold combination_counts
    rw [hR, hN]
    have h := counts_fold_spec (fun (s : (Nat → Nat) × (Nat → Nat)) => s.2)
      (fun counts rc c =>
        (fun n => if n = rc * 3 ^ order + c then
            combination_count order (set_genotypes_masks order genotypes R info masks)
              (rc * order * NUM_GENOTYPES * info.num_samples_per_mask)
              (genotype_permutations c) info 0 info.num_affected / 8
          else counts.1 n,
         fun n => if n = rc * 3 ^ order + c then
            combination_count order (set_genotypes_masks order genotypes R info masks)
              (rc * order * NUM_GENOTYPES * info.num_samples_per_mask)
              (genotype_permutations c) info info.num_affected_with_padding
              info.num_unaffected / 8
          else counts.2 n))
      R (3 ^ order) (3 ^ order) (le_refl _)
      (fun rc c => combination_count order (set_genotypes_masks order genotypes R info masks)
        (rc * order * NUM_GENOTYPES * info.num_samples_per_mask)
        (genotype_permutations c) info info.num_affected_with_padding
        info.num_unaffected / 8)
      (fun _ _ _ _ => rfl) (counts_aff, counts_unaff) rc c hrc hc
    refine Eq.trans h ?_
    beta_reduce
    rw [hunaff]
    omega

/-- The matrix returned by `confusion_matrix`, entry by entry (shared form for
the pipeline results). -/
theorem confusion_matrix_cells (order R A U : Nat) (info : masks_info)
    (hinit : masks_info_init order R A U = some info)
    (hA : A ≤ 2147483647) (hU : U ≤ 2147483647) (horder : 1 ≤ order)
    (combination : risky_combination) (hn : 1 ≤ combination.num_risky_genotypes)
    (genotypes : Nat → Nat → uint8_t) (stack_confusion stack_final : Nat → Nat) :
    confusion_matrix order combination info genotypes stack_confusion stack_final =
      (((List.range A).filter (fun p => decide
          (∃ i, i < combination.num_risky_genotypes ∧
            ∀ j, j < order → genotypes j p = combination.genotypes (i * order + j)))).length,
       A - ((List.range A).filter (fun p => decide
          (∃ i, i < combination.num_risky_genotypes ∧
            ∀ j, j < order → genotypes j p = combination.genotypes (i * order + j)))).length,
       ((List.range U).filter (fun q => decide
          (∃ i, i < combination.num_risky_genotypes ∧
            ∀ j, j < order → genotypes j (info.num_affected_with_padding + q)
              = combination.genotypes (i * order + j)))).length,
       U - ((List.range U).filter (fun q => decide
          (∃ i, i < combination.num_risky_genotypes ∧
            ∀ j, j < order → genotypes j (info.num_affected_with_padding + q)
              = combination.genotypes (i * order + j)))).length) := by
  have hl := masks_info_init_layout order R A U info hinit
  obtain ⟨hfA, hfU, -, -, -, -, -, -⟩ := masks_info_init_fields order R A U info hinit
  obtain ⟨ha1, ha2, ha3, hu1, hu2, hu3, hs, -, -⟩ := hl
  have hl := masks_info_init_layout order R A U info hinit
  have h0 : final_popcount (final_masks combination info
      (confusion_masks order combination info genotypes stack_confusion) stack_final)
      0 info.num_affected =
      8 * ((List.range A).filter (fun p => decide
          (∃ i, i < combination.num_risky_genotypes ∧
            ∀ j, j < order → genotypes j p = combination.genotypes (i * order + j)))).length := by
    rw [final_popcount_flags _ 0 info.num_affected
      (fun p => decide ((p < info.num_affected ∨ (info.num_affected_with_padding ≤ p ∧
            p < info.num_affected_with_padding + info.num_unaffected)) ∧
          ∃ i, i < combination.num_risky_genotypes ∧
            ∀ j, j < order → genotypes j p = combination.genotypes (i * order + j)))
      (fun q hq => by
        rw [Nat.zero_add, final_masks_spec order combination info hl horder hn genotypes
          stack_confusion stack_final q (by omega)]
        simp only [decide_eq_true_eq])]
    congr 1
    rw [filter_range_trim _ info.num_affected (16 * ((info.num_affected + 15) / 16))
      (by omega) (by
        intro p hp1 hp2
        apply decide_eq_false
        intro h
        omega), hfA]
    congr 1
    apply List.filter_congr
    intro p hp
    have hp' := List.mem_range.mp hp
    apply decide_eq_decide.mpr
    constructor
    · intro h
      exact h.2
    · intro h
      exact ⟨Or.inl (by omega), h⟩
  have h1 : final_popcount (final_masks combination info
      (confusion_masks order combination info genotypes stack_confusion) stack_final)
      info.num_affected_with_padding info.num_unaffected =
      8 * ((List.range U).filter (fun q => decide
          (∃ i, i < combination.num_risky_genotypes ∧
            ∀ j, j < order → genotypes j (info.num_affected_with_padding + q)
              = combination.genotypes (i * order + j)))).length := by
    rw [final_popcount_flags _ info.num_affected_with_padding info.num_unaffected
      (fun q => decide ((info.num_affected_with_padding + q < info.num_affected ∨
          (info.num_affected_with_padding ≤ info.num_affected_with_padding + q ∧
            info.num_affected_with_padding + q <
              info.num_affected_with_padding + info.num_unaffected)) ∧
          ∃ i, i < combination.num_risky_genotypes ∧
            ∀ j, j < order → genotypes j (info.num_affected_with_padding + q)
              = combination.genotypes (i * order + j)))
      (fun q hq => by
        rw [final_masks_spec order combination info hl horder hn genotypes
          stack_confusion stack_final _ (by omega)]
        simp only [decide_eq_true_eq])]
    congr 1
    rw [filter_range_trim _ info.num_unaffected (16 * ((info.num_unaffected + 15) / 16))
      (by omega) (by
        intro p hp1 hp2
        apply decide_eq_false
        intro h
        omega), hfU]
    congr 1
    apply List.filter_congr
    intro p hp
    have hp' := List.mem_range.mp hp
    apply decide_eq_decide.mpr
    constructor
    · intro h
      exact h.2
    · intro h
      exact ⟨Or.inr ⟨by omega, by omega⟩, h⟩
  have hTP := List.length_filter_le (fun p => decide
      (∃ i, i < combination.num_risky_genotypes ∧
        ∀ j, j < order → genotypes j p = combination.genotypes (i * order + j)))
    (List.range A)
  have hFP := List.length_filter_le (fun q => decide
      (∃ i, i < combination.num_risky_genotypes ∧
        ∀ j, j < order → genotypes j (info.num_affected_with_padding + q)
          = combination.genotypes (i * order + j)))
    (List.range U)
  rw [List.length_range] at hTP hFP
  unfold confusion_matrix
  simp only []
  rw [h0, h1, hfA, hfU]
  generalize ((List.range A).filter (fun p => decide
      (∃ i, i < combination.num_risky_genotypes ∧
        ∀ j, j < order → genotypes j p = combination.genotypes (i * order + j)))).length
    = TP at hTP ⊢
  generalize ((List.range U).filter (fun q => decide
      (∃ i, i < combination.num_risky_genotypes ∧
        ∀ j, j < order → genotypes j (info.num_affected_with_padding + q)
          = combination.genotypes (i * order + j)))).length
    = FP at hFP ⊢
  have e0 := uint32_of_range ((8 * TP / 8 : Nat) : Int) (by omega) (by omega)
  have e1 := uint32_of_range ((A : Int) - ((8 * TP / 8 : Nat) : Int)) (by omega) (by omega)
  have e2 := uint32_of_range ((8 * FP / 8 : Nat) : Int) (by omega) (by omega)
  have e3 := uint32_of_range ((U : Int) - ((8 * FP / 8 : Nat) : Int)) (by omega) (by omega)
  refine Prod.ext ?_ (Prod.ext ?_ (Prod.ext ?_ ?_)) <;> simp only [] <;> omega

/-- The column sums of the matrix returned by `confusion_matrix` (shared form
for the results on the balanced accuracy). -/
theorem confusion_matrix_sums (order R A U : Nat) (info : masks_info)
    (hinit : masks_info_init order R A U = some info)
    (hA : A ≤ 2147483647) (hU : U ≤ 2147483647)
    (order' : Nat) (combination : risky_combination) (genotypes : Nat → Nat → uint8_t)
    (stack_confusion stack_final : Nat → Nat) :
    (confusion_matrix order' combination info genotypes stack_confusion stack_final).1
      + (confusion_matrix order' combination info genotypes stack_confusion stack_final).2.1
      = A ∧
    (confusion_matrix order' combination info genotypes stack_confusion stack_final).2.2.1
      + (confusion_matrix order' combination info genotypes stack_confusion stack_final).2.2.2
      = U ∧
    (confusion_matrix order' combination info genotypes stack_confusion stack_final).1 ≤ A ∧
    (confusion_matrix order' combination info genotypes stack_confusion stack_final).2.2.1
      ≤ U ∧
    (((confusion_matrix order' combination info genotypes stack_confusion stack_final).2.1
        : Nat) : Int) = (A : Int) -
      ((confusion_matrix order' combination info genotypes stack_confusion stack_final).1 : Int) ∧
    (((confusion_matrix order' combination info genotypes stack_confusion stack_final).2.2.2
        : Nat) : Int) = (U : Int) -
      ((confusion_matrix order' combination info genotypes stack_confusion stack_final).2.2.1
        : Int) := by
  have hl := masks_info_init_layout order R A U info hinit
  obtain ⟨hfA, hfU, -, -, -, -, -, -⟩ := masks_info_init_fields order R A U info hinit
  obtain ⟨ha1, ha2, ha3, hu1, hu2, hu3, hs, -, -⟩ := hl
  have hl := masks_info_init_layout order R A U info hinit
  have h0 := final_popcount_le
    (final_masks combination info
      (confusion_masks order' combination info genotypes stack_confusion) stack_final)
    0 info.num_affected
    (fun q hq1 hq2 => by
      rw [Nat.zero_add]
      exact final_masks_padding order combination info hl _ _ q (Or.inl ⟨hq1, by omega⟩))
  have h1 := final_popcount_le
    (final_masks combination info
      (confusion_masks order' combination info genotypes stack_confusion) stack_final)
    info.num_affected_with_padding info.num_unaffected
    (fun q hq1 hq2 => final_masks_padding order combination info hl _ _ _
      (Or.inr ⟨by omega, by omega⟩))
  unfold confusion_matrix
  simp only []
  generalize final_popcount (final_masks combination info
      (confusion_masks order' combination info genotypes stack_confusion) stack_final)
    0 info.num_affected = pc0 at h0 ⊢
  generalize final_popcount (final_masks combination info
      (confusion_masks order' combination info genotypes stack_confusion) stack_final)
    info.num_affected_with_padding info.num_unaffected = pc1 at h1 ⊢
  rw [hfA] at h0 ⊢
  rw [hfU] at h1 ⊢
  have e0 := uint32_of_range ((pc0 / 8 : Nat) : Int) (by omega) (by omega)
  have e1 := uint32_of_range ((A : Int) - ((pc0 / 8 : Nat) : Int)) (by omega) (by omega)
  have e2 := uint32_of_range ((pc1 / 8 : Nat) : Int) (by omega) (by omega)
  have e3 := uint32_of_range ((U : Int) - ((pc1 / 8 : Nat) : Int)) (by omega) (by omega)
  refine ⟨?_, ?_, ?_, ?_, ?_, ?_⟩ <;> omega

/-! ## Worked example: two SNPs, perfect separation -/

theorem filter_range_const (f : Nat → Bool) (n : Nat) (b : Bool)
    (h : ∀ p, p < n → f p = b) :
    ((List.range n).filter f).length = if b = true then n else 0 := by
  have hc : (List.range n).filter f = (List.range n).filter (fun _ => b) :=
    List.filter_congr (fun p hp => h p (List.mem_range.mp hp))
  rw [hc]
  cases b with
  | true => simp
  | false => simp

/-- With payload-free rule results, `choose_high_risk_combinations` returns
the flagged cell indices in increasing order and their number. -/
theorem choose_high_risk_combinations_filter (counts_aff counts_unaff : Nat → Nat)
    (num_affected num_unaffected : Nat) (aux_ret : Option Nat)
    (test_func : Nat → Nat → Nat → Nat → Bool × Option Nat) (num_counts : Nat)
    (hpayload : ∀ i, i < num_counts →
      (test_func (counts_aff i) (counts_unaff i) num_affected num_unaffected).2 = none) :
    choose_high_risk_combinations counts_aff counts_unaff num_counts num_affected num_unaffected
        aux_ret test_func =
      ((List.range num_counts).filter (fun i =>
          (test_func (counts_aff i) (counts_unaff i) num_affected num_unaffected).1),
        ((List.range num_counts).filter (fun i =>
          (test_func (counts_aff i) (counts_unaff i) num_affected num_unaffected).1)).length,
        aux_ret) := by
  unfold choose_high_risk_combinations
  induction num_counts with
  | zero => rfl
  | succ n ih =>
    rw [List.range_succ, List.foldl_append, ih (fun i hi => hpayload i (by omega)),
      List.filter_append]
    simp only [List.foldl_cons, List.foldl_nil, List.filter_cons, List.filter_nil]
    by_cases ht : (test_func (counts_aff n) (counts_unaff n) num_affected num_unaffected).1 = true
    · simp only [ht, if_true, hpayload n (by omega), List.length_append, List.length_singleton]
    · have ht' : (test_func (counts_aff n) (counts_unaff n) num_affected num_unaffected).1 =
          false := by simpa using ht
      simp only [ht', Bool.false_eq_true, if_false, List.append_nil]

/-- The counts of the example: the cell (1,1) counts the eight affected
samples and no unaffected sample, every other cell counts no affected
sample. -/
theorem perfect_separation_counts (genotypes genotype_combinations : Nat → Nat → uint8_t)
    (c11 : Nat)
    (haff : ∀ j p, j < 2 → p < 8 → genotypes j p = 1)
    (hunaff : ∀ j q, j < 2 → q < 8 → genotypes j (16 + q) = 0)
    (hcodes : ∀ c j, c < 9 → j < 2 → (genotype_combinations c j).val < 3)
    (hcell : ∀ c, c < 9 →
      ((genotype_combinations c 0 = 1 ∧ genotype_combinations c 1 = 1) ↔ c = c11))
    (counts_aff counts_unaff masks : Nat → Nat) (c : Nat) (hc : c < 9) :
    (combination_counts 2
        (set_genotypes_masks 2 genotypes 1 ⟨8, 8, 16, 16, 1, 9, 32, 192⟩ masks)
        genotype_combinations 9 counts_aff counts_unaff ⟨8, 8, 16, 16, 1, 9, 32, 192⟩).1 c =
      (if c = c11 then 8 else 0) ∧
    (c = c11 →
      (combination_counts 2
        (set_genotypes_masks 2 genotypes 1 ⟨8, 8, 16, 16, 1, 9, 32, 192⟩ masks)
        genotype_combinations 9 counts_aff counts_unaff ⟨8, 8, 16, 16, 1, 9, 32, 192⟩).2 c =
      0) := by
  have e9 : (3 : Nat) ^ 2 = 9 := by norm_num
  have h := combination_counts_cells 2 1 8 8 ⟨8, 8, 16, 16, 1, 9, 32, 192⟩ (by decide)
    (by decide) genotypes masks genotype_combinations
    (fun c j hc hj => hcodes c j (by omega) hj) counts_aff counts_unaff 0 c (by decide)
    (by omega)
  rw [e9, Nat.zero_mul, Nat.zero_add] at h
  constructor
  · rw [h.1, filter_range_const _ 8 (decide (c = c11))]
    · simp
    · intro p hp
      apply decide_eq_decide.mpr
      constructor
      · intro hall
        apply (hcell c hc).mp
        have h0 := hall 0 (by decide)
        have h1 := hall 1 (by decide)
        rw [Nat.zero_add] at h0 h1
        rw [haff 0 p (by decide) hp] at h0
        rw [haff 1 p (by decide) hp] at h1
        exact ⟨h0.symm, h1.symm⟩
      · intro hcc j hj
        obtain ⟨g0, g1⟩ := (hcell c hc).mpr hcc
        rw [Nat.zero_add, haff j p hj hp]
        interval_cases j
        · exact g0.symm
        · exact g1.symm
  · intro hcc
    rw [h.2.1, filter_range_const _ 8 false]
    · simp
    · intro q hq
      apply decide_eq_false
      intro hall
      obtain ⟨g0, -⟩ := (hcell c hc).mpr hcc
      have h0 := hall 0 (by decide)
      rw [Nat.zero_add] at h0
      have h16 := hunaff 0 q (by decide) hq
      have h0' : genotypes 0 (16 + q) = genotype_combinations c 0 := h0
      rw [h16, g0] at h0'
      exact absurd h0' (by decide)

/-- The MDR rule on the counts of the example. -/
theorem mdr_high_risk_combinations_example (unaff : Nat) :
    (mdr_high_risk_combinations 8 0 8 8).1 = true ∧
    (mdr_high_risk_combinations 0 unaff 8 8).1 = false := by
  unfold mdr_high_risk_combinations
  constructor
  · rw [double_div_of_ne _ _ (by norm_num), double_div_of_ne _ _ (by norm_num), double_gt_some]
    norm_num
  · rw [double_div_of_ne _ _ (by norm_num), double_div_of_ne _ _ (by norm_num)]
    apply Bool.eq_false_iff.mpr
    intro h
    rw [double_gt_some] at h
    have h0 : (0 : ℚ) ≤ ((unaff : Nat) : ℚ) / ((8 : Nat) : ℚ) := by positivity
    have h1 : (((0 : Nat) : ℚ)) / ((8 : Nat) : ℚ) = 0 := by norm_num
    rw [h1] at h
    exact absurd h (not_lt.mpr h0)

/-- The cells flagged in the example, from the counts. -/
theorem choose_high_risk_combinations_example (ca cu : Nat → Nat) (c11 : Nat) (hc11 : c11 < 9)
    (hca : ∀ c, c < 9 → ca c = if c = c11 then 8 else 0) (hcu : cu c11 = 0)
    (aux_info : Option Nat) :
    choose_high_risk_combinations ca cu 9 8 8 aux_info mdr_high_risk_combinations =
      ([c11], 1, aux_info) := by
  have hmdr : ∀ i, i < 9 → (mdr_high_risk_combinations (ca i) (cu i) 8 8).1 =
      decide (i = c11) := by
    intro i hi
    by_cases hic : i = c11
    · rw [hca i hi, if_pos hic, hic, hcu, (mdr_high_risk_combinations_example 0).1]
      simp
    · rw [hca i hi, if_neg hic, (mdr_high_risk_combinations_example (cu i)).2]
      simp [hic]
  have hfilter : (List.range 9).filter (fun i =>
      (mdr_high_risk_combinations (ca i) (cu i) 8 8).1) = [c11] := by
    rw [List.filter_congr (fun i hi => hmdr i (List.mem_range.mp hi))]
    interval_cases c11 <;> rfl
  have hchoose := choose_high_risk_combinations_filter ca cu 8 8 aux_info
    mdr_high_risk_combinations 9 (fun _ _ => rfl)
  rw [hfilter] at hchoose
  exact hchoose

/-- C25. For 2 SNPs, 8 affected samples all with genotypes (1,1) and 8
unaffected samples all with genotypes (0,0) (layout of `masks_info_init`:
affected at positions 0..7, unaffected at 16..23), whatever the padding bytes
and the previous content of the buffers: the pipeline `set_genotypes_masks`,
`combination_counts`, `choose_high_risk_combinations` with the MDR rule flags
exactly the cell (1,1) (index `c11` of the cell table);
`get_model_from_combination_in_fold` returns a combination with that single
high-risk cell; `confusion_matrix` on the same data gives
(TP, FN, FP, TN) = (8, 0, 0, 8); `test_model` returns 1; and after
`add_to_model_ranking` into an empty ranking the head's accuracy is 1. -/
theorem epistasis_perfect_separation (enum_value : eval_function → Int) (sqrt : ℚ → ℚ)
    (genotypes genotype_combinations : Nat → Nat → uint8_t) (c11 : Nat)
    (haff : ∀ j p, j < 2 → p < 8 → genotypes j p = 1)
    (hunaff : ∀ j q, j < 2 → q < 8 → genotypes j (16 + q) = 0)
    (hcodes : ∀ c j, c < 9 → j < 2 → (genotype_combinations c j).val < 3)
    (hc11 : c11 < 9)
    (hcell : ∀ c, c < 9 →
      ((genotype_combinations c 0 = 1 ∧ genotype_combinations c 1 = 1) ↔ c = c11))
    (comb : List Int) (counts_aff counts_unaff masks stack_confusion stack_final : Nat → Nat)
    (aux_info : Option Nat) (fresh : risky_combination) (N : Int)
    (removed : Option risky_combination) :
    masks_info_init 2 1 8 8 = some ⟨8, 8, 16, 16, 1, 9, 32, 192⟩ ∧
    choose_high_risk_combinations
      (combination_counts 2
        (set_genotypes_masks 2 genotypes 1 ⟨8, 8, 16, 16, 1, 9, 32, 192⟩ masks)
        genotype_combinations 9 counts_aff counts_unaff ⟨8, 8, 16, 16, 1, 9, 32, 192⟩).1
      (combination_counts 2
        (set_genotypes_masks 2 genotypes 1 ⟨8, 8, 16, 16, 1, 9, 32, 192⟩ masks)
        genotype_combinations 9 counts_aff counts_unaff ⟨8, 8, 16, 16, 1, 9, 32, 192⟩).2
      9 8 8 aux_info mdr_high_risk_combinations = ([c11], 1, aux_info) ∧
    ∃ model : risky_combination,
      get_model_from_combination_in_fold 2 comb genotypes 9 genotype_combinations 9
        counts_aff counts_unaff ⟨8, 8, 16, 16, 1, 9, 32, 192⟩ masks aux_info none fresh =
        some model ∧
      model.num_risky_genotypes = 1 ∧ model.genotypes 0 = 1 ∧ model.genotypes 1 = 1 ∧
      confusion_matrix 2 model ⟨8, 8, 16, 16, 1, 9, 32, 192⟩ genotypes stack_confusion
        stack_final = (8, 0, 0, 8) ∧
      (test_model enum_value sqrt 2 model genotypes ⟨8, 8, 16, 16, 1, 9, 32, 192⟩
        stack_confusion stack_final).1 = some 1 ∧
      (add_to_model_ranking
        (test_model enum_value sqrt 2 model genotypes ⟨8, 8, 16, 16, 1, 9, 32, 192⟩
          stack_confusion stack_final).2.1 N [] removed).2.1.map (fun e => e.accuracy) =
        [some 1] := by
  have hcounts := perfect_separation_counts genotypes genotype_combinations c11 haff hunaff
    hcodes hcell counts_aff counts_unaff masks
  have hchoose := choose_high_risk_combinations_example
    (combination_counts 2
      (set_genotypes_masks 2 genotypes 1 ⟨8, 8, 16, 16, 1, 9, 32, 192⟩ masks)
      genotype_combinations 9 counts_aff counts_unaff ⟨8, 8, 16, 16, 1, 9, 32, 192⟩).1
    (combination_counts 2
      (set_genotypes_masks 2 genotypes 1 ⟨8, 8, 16, 16, 1, 9, 32, 192⟩ masks)
      genotype_combinations 9 counts_aff counts_unaff ⟨8, 8, 16, 16, 1, 9, 32, 192⟩).2
    c11 hc11 (fun c hc => (hcounts c hc).1) ((hcounts c11 hc11).2 rfl) aux_info
  have hgen : ∀ j, j < 2 →
      (risky_combination_new 2 comb genotype_combinations 1 [c11] aux_info fresh).genotypes j =
        1 := by
    intro j hj
    obtain ⟨g0, g1⟩ := (hcell c11 hc11).mpr rfl
    interval_cases j
    · exact g0
    · exact g1
  have hconf : confusion_matrix 2
      (risky_combination_new 2 comb genotype_combinations 1 [c11] aux_info fresh)
      ⟨8, 8, 16, 16, 1, 9, 32, 192⟩ genotypes stack_confusion stack_final = (8, 0, 0, 8) := by
    rw [confusion_matrix_cells 2 1 8 8 ⟨8, 8, 16, 16, 1, 9, 32, 192⟩ (by decide) (by decide)
      (by decide) (by decide) _ (le_refl 1) genotypes stack_confusion stack_final,
      filter_range_const _ 8 true (by
        intro p hp
        apply decide_eq_true
        refine ⟨0, Nat.zero_lt_one, ?_⟩
        intro j hj
        rw [Nat.zero_mul, Nat.zero_add, hgen j hj]
        exact haff j p hj hp),
      filter_range_const _ 8 false (by
        intro q hq
        apply decide_eq_false
        rintro ⟨i, hi, hall⟩
        have hi0 : i = 0 := by
          have : i < 1 := hi
          omega
        have h0 := hall 0 (by decide)
        rw [hi0, Nat.zero_mul, Nat.zero_add, hgen 0 (by decide)] at h0
        have h16 := hunaff 0 q (by decide) hq
        have h0' : genotypes 0 (16 + q) = 1 := h0
        rw [h16] at h0'
        exact absurd h0' (by decide))]
    rfl
  have htest : (test_model enum_value sqrt 2
      (risky_combination_new 2 comb genotype_combinations 1 [c11] aux_info fresh) genotypes
      ⟨8, 8, 16, 16, 1, 9, 32, 192⟩ stack_confusion stack_final).1 = some 1 := by
    unfold test_model
    simp only [hconf]
    rw [evaluate_model_BA]
    norm_num [double_div]
  refine ⟨by decide, hchoose, risky_combination_new 2 comb genotype_combinations 1 [c11]
    aux_info fresh, ?_, rfl, hgen 0 (by decide), hgen 1 (by decide), hconf, htest, ?_⟩
  · unfold get_model_from_combination_in_fold
    simp only [hchoose]
    rfl
  · rw [add_to_model_ranking_empty]
    show [(test_model enum_value sqrt 2
      (risky_combination_new 2 comb genotype_combinations 1 [c11] aux_info fresh) genotypes
      ⟨8, 8, 16, 16, 1, 9, 32, 192⟩ stack_confusion stack_final).2.1.accuracy] = [some 1]
    have hacc : (test_model enum_value sqrt 2
        (risky_combination_new 2 comb genotype_combinations 1 [c11] aux_info fresh) genotypes
        ⟨8, 8, 16, 16, 1, 9, 32, 192⟩ stack_confusion stack_final).2.1.accuracy =
        (test_model enum_value sqrt 2
        (risky_combination_new 2 comb genotype_combinations 1 [c11] aux_info fresh) genotypes
        ⟨8, 8, 16, 16, 1, 9, 32, 192⟩ stack_confusion stack_final).1 := rfl
    rw [hacc, htest]

/-- C25 witness: padding bytes 0, cell `c` of the table holding the codes
`(c / 3, c % 3)` (the cell (1,1) is cell 4), buffers holding 0xAA before. -/
theorem epistasis_perfect_separation_witness :
    choose_high_risk_combinations
      (combination_counts 2
        (set_genotypes_masks 2 (fun _ p => if p < 8 then 1 else 0) 1
          ⟨8, 8, 16, 16, 1, 9, 32, 192⟩ (fun _ => 170))
        (fun c j => Fin.ofNat (if j = 0 then c / 3 else c % 3)) 9 (fun _ => 0) (fun _ => 0)
        ⟨8, 8, 16, 16, 1, 9, 32, 192⟩).1
      (combination_counts 2
        (set_genotypes_masks 2 (fun _ p => if p < 8 then 1 else 0) 1
          ⟨8, 8, 16, 16, 1, 9, 32, 192⟩ (fun _ => 170))
        (fun c j => Fin.ofNat (if j = 0 then c / 3 else c % 3)) 9 (fun _ => 0) (fun _ => 0)
        ⟨8, 8, 16, 16, 1, 9, 32, 192⟩).2
      9 8 8 none mdr_high_risk_combinations = ([4], 1, none) :=
  (epistasis_perfect_separation (fun _ => 1) (fun x => x)
    (fun _ p => if p < 8 then 1 else 0)
    (fun c j => Fin.ofNat (if j = 0 then c / 3 else c % 3)) 4
    (fun _ _ _ hp => if_pos hp)
    (fun _ q _ _ => if_neg (by omega))
    (by intro c j hc hj; interval_cases c <;> interval_cases j <;> decide)
    (by decide)
    (by intro c hc; interval_cases c <;> decide)
    [0, 1] (fun _ => 0) (fun _ => 0) (fun _ => 170) (fun _ => 170) (fun _ => 170) none
    ⟨0, [], fun _ => 0, 0, none, none⟩ 5 none).2.1

/-! ## TDT kernel: genotypes read as missing -/

/-- C27. In `tdt_test` a genotype whose first allele is non-zero and whose
second allele is zero (for example 1/0) is treated as missing: if either
parent has such a genotype the whole family is skipped for that variant (the
counters are left as they were), and an affected child with such a genotype
adds nothing to t1 or t2 (the loop state is left as it was). -/
theorem tdt_test_nonzero_zero_missing (get_alleles : String → Option (Int × Int))
    (sample_ids : String → Option Nat) (sample_data : Nat → String) (permute : Int) :
    (∀ (t : Int × Int) (fam : family) (father mother : individual)
      (father_pos mother_pos : Nat) (f1 f2 m1 m2 : Int),
      fam.father = some father → fam.mother = some mother →
      sample_ids father.id = some father_pos → sample_ids mother.id = some mother_pos →
      get_alleles (sample_data father_pos) = some (f1, f2) →
      get_alleles (sample_data mother_pos) = some (m1, m2) →
      ((f1 ≠ 0 ∧ f2 = 0) ∨ (m1 ≠ 0 ∧ m2 = 0)) →
      tdt_family get_alleles sample_ids sample_data permute t fam = t) ∧
    (∀ (f1 f2 m1 m2 : Int) (s : tdt_state) (child : individual) (child_pos : Nat)
      (c1 c2 : Int),
      sample_ids child.id = some child_pos →
      get_alleles (sample_data child_pos) = some (c1, c2) →
      (c1 ≠ 0 ∧ c2 = 0) →
      tdt_child get_alleles sample_ids sample_data permute f1 f2 m1 m2 s child = s) := by
  constructor
  · intro t fam father mother father_pos mother_pos f1 f2 m1 m2 hf hm hfp hmp hfa hma hmiss
    unfold tdt_family
    simp only [hf, hm, hfp, hmp, hfa, hma]
    by_cases hhom : f1 = f2 ∧ m1 = m2
    · rw [if_pos hhom]
    · rw [if_neg hhom, if_pos hmiss]
  · intro f1 f2 m1 m2 s child child_pos c1 c2 hpos hgc hmiss
    unfold tdt_child
    by_cases hph : child.phenotype ≠ 2
    · rw [if_pos hph]
    · rw [if_neg hph]
      simp only [hpos, hgc]
      rw [if_pos hmiss]

/-- C27 witness: a father read as 1/0, with a heterozygous mother and an
affected child. -/
theorem tdt_test_nonzero_zero_missing_witness :
    tdt_family get_alleles_spec
      (fun name => if name = "F" then some 0 else if name = "M" then some 1
        else if name = "C" then some 2 else none)
      (list_to_array ["1/0", "0/1", "0/1"]) 0 (0, 0)
      ⟨"fam", some ⟨"F", 1⟩, some ⟨"M", 1⟩, [⟨"C", 2⟩]⟩ = (0, 0) :=
  (tdt_test_nonzero_zero_missing get_alleles_spec _ (list_to_array ["1/0", "0/1", "0/1"]) 0).1
    (0, 0) ⟨"fam", some ⟨"F", 1⟩, some ⟨"M", 1⟩, [⟨"C", 2⟩]⟩ ⟨"F", 1⟩ ⟨"M", 1⟩ 0 1 1 0 0 1
    rfl rfl (by decide) (by decide) (by decide) (by decide) (by decide)

/-! ## TDT kernel: exchanging the alleles of a genotype -/

/-- The case analysis reads a genotype only through three tests: first allele
zero, second allele zero, alleles equal. -/
theorem tdt_transmit_congr (f1 f2 m1 m2 c1 c2 g1 g2 n1 n2 d1 d2 : Int)
    (hf1 : g1 = 0 ↔ f1 = 0) (hf2 : g2 = 0 ↔ f2 = 0) (hf : g1 = g2 ↔ f1 = f2)
    (hm1 : n1 = 0 ↔ m1 = 0) (hm2 : n2 = 0 ↔ m2 = 0) (hm : n1 = n2 ↔ m1 = m2)
    (hc1 : d1 = 0 ↔ c1 = 0) (hc2 : d2 = 0 ↔ c2 = 0) (s : tdt_state) :
    tdt_transmit g1 g2 n1 n2 d1 d2 s = tdt_transmit f1 f2 m1 m2 c1 c2 s := by
  unfold tdt_transmit
  simp only [ne_eq, hf1, hf2, hf, hm1, hm2, hm, hc1, hc2]

theorem tdt_child_congr (get_alleles : String → Option (Int × Int))
    (sample_ids : String → Option Nat) (sample_data other_data : Nat → String)
    (permute : Int)
    (hdata : ∀ pos, (get_alleles (sample_data pos) = none ∧
        get_alleles (other_data pos) = none) ∨
      ∃ a b g h, get_alleles (sample_data pos) = some (a, b) ∧
        get_alleles (other_data pos) = some (g, h) ∧
        (g = 0 ↔ a = 0) ∧ (h = 0 ↔ b = 0) ∧ (g = h ↔ a = b))
    (f1 f2 m1 m2 g1 g2 n1 n2 : Int)
    (hf1 : g1 = 0 ↔ f1 = 0) (hf2 : g2 = 0 ↔ f2 = 0) (hf : g1 = g2 ↔ f1 = f2)
    (hm1 : n1 = 0 ↔ m1 = 0) (hm2 : n2 = 0 ↔ m2 = 0) (hm : n1 = n2 ↔ m1 = m2)
    (s : tdt_state) (child : individual) :
    tdt_child get_alleles sample_ids other_data permute g1 g2 n1 n2 s child =
      tdt_child get_alleles sample_ids sample_data permute f1 f2 m1 m2 s child := by
  unfold tdt_child
  by_cases hph : child.phenotype ≠ 2
  · rw [if_pos hph, if_pos hph]
  · rw [if_neg hph, if_neg hph]
    cases hpos : sample_ids child.id with
    | none => rfl
    | some child_pos =>
      simp only []
      rcases hdata child_pos with ⟨h1, h2⟩ | ⟨a, b, g, h, h1, h2, ha, hb, -⟩
      · rw [h1, h2]
      · rw [h1, h2]
        simp only [ne_eq, ha, hb]
        rw [tdt_transmit_congr f1 f2 m1 m2 a b g1 g2 n1 n2 g h hf1 hf2 hf hm1 hm2 hm ha hb]

theorem tdt_family_congr (get_alleles : String → Option (Int × Int))
    (sample_ids : String → Option Nat) (sample_data other_data : Nat → String)
    (permute : Int)
    (hdata : ∀ pos, (get_alleles (sample_data pos) = none ∧
        get_alleles (other_data pos) = none) ∨
      ∃ a b g h, get_alleles (sample_data pos) = some (a, b) ∧
        get_alleles (other_data pos) = some (g, h) ∧
        (g = 0 ↔ a = 0) ∧ (h = 0 ↔ b = 0) ∧ (g = h ↔ a = b))
    (t : Int × Int) (fam : family) :
    tdt_family get_alleles sample_ids other_data permute t fam =
      tdt_family get_alleles sample_ids sample_data permute t fam := by
  unfold tdt_family
  cases hfa : fam.father with
  | none => rfl
  | some father =>
    cases hmo : fam.mother with
    | none => rfl
    | some mother =>
      simp only []
      cases hfp : sample_ids father.id with
      | none => rfl
      | some father_pos =>
        cases hmp : sample_ids mother.id with
        | none => rfl
        | some mother_pos =>
          simp only []
          rcases hdata father_pos with ⟨h1, h2⟩ | ⟨f1, f2, g1, g2, h1, h2, hf1, hf2, hf⟩
          · rw [h1, h2]
          · rcases hdata mother_pos with ⟨h3, h4⟩ | ⟨m1, m2, n1, n2, h3, h4, hm1, hm2, hm⟩
            · rw [h1, h2, h3, h4]
            · rw [h1, h2, h3, h4]
              simp only [ne_eq, hf1, hf2, hf, hm1, hm2, hm]
              have hch : tdt_children get_alleles sample_ids other_data permute g1 g2 n1 n2
                  ⟨0, 0, 0, 0, t.1, t.2⟩ fam.children =
                  tdt_children get_alleles sample_ids sample_data permute f1 f2 m1 m2
                  ⟨0, 0, 0, 0, t.1, t.2⟩ fam.children := by
                unfold tdt_children
                have hfun : tdt_child get_alleles sample_ids other_data permute g1 g2 n1 n2 =
                    tdt_child get_alleles sample_ids sample_data permute f1 f2 m1 m2 := by
                  funext s child
                  exact tdt_child_congr get_alleles sample_ids sample_data other_data permute
                    hdata f1 f2 m1 m2 g1 g2 n1 n2 hf1 hf2 hf hm1 hm2 hm s child
                rw [hfun]
              rw [hch]

/-- C26 (as stated, refuted): father 0/1, mother 0/0, affected child 0/1 gives
(t1, t2) = (0, 1); with the father's genotype read as 1/0 the family is
skipped and (t1, t2) = (0, 0). -/
theorem tdt_test_allele_order_matters :
    tdt_counts get_alleles_spec
      (fun name => if name = "F" then some 0 else if name = "M" then some 1
        else if name = "C" then some 2 else none)
      (list_to_array ["0/1", "0/0", "0/1"]) 0
      [⟨"fam", some ⟨"F", 1⟩, some ⟨"M", 1⟩, [⟨"C", 2⟩]⟩] = (0, 1) ∧
    tdt_counts get_alleles_spec
      (fun name => if name = "F" then some 0 else if name = "M" then some 1
        else if name = "C" then some 2 else none)
      (list_to_array ["1/0", "0/0", "0/1"]) 0
      [⟨"fam", some ⟨"F", 1⟩, some ⟨"M", 1⟩, [⟨"C", 2⟩]⟩] = (0, 0) := by
  decide

/-- C26 (amended). For every variant and pedigree, exchanging the two alleles
of any parent's or child's decoded genotype whose alleles are both non-zero
(for example reading 2/1 instead of 1/2) leaves the t1 and t2 computed by
`tdt_test` unchanged. (A genotype 0/x with x non-zero is not interchangeable
with x/0, which is read as missing.) -/
theorem tdt_test_allele_exchange (get_alleles : String → Option (Int × Int))
    (sample_ids : String → Option Nat) (sample_data exchanged : Nat → String)
    (permute : Int) (families : List family)
    (hexchange : ∀ pos, get_alleles (exchanged pos) = get_alleles (sample_data pos) ∨
      ∃ a b, get_alleles (sample_data pos) = some (a, b) ∧ a ≠ 0 ∧ b ≠ 0 ∧
        get_alleles (exchanged pos) = some (b, a)) :
    tdt_counts get_alleles sample_ids exchanged permute families =
      tdt_counts get_alleles sample_ids sample_data permute families := by
  have hdata : ∀ pos, (get_alleles (sample_data pos) = none ∧
        get_alleles (exchanged pos) = none) ∨
      ∃ a b g h, get_alleles (sample_data pos) = some (a, b) ∧
        get_alleles (exchanged pos) = some (g, h) ∧
        (g = 0 ↔ a = 0) ∧ (h = 0 ↔ b = 0) ∧ (g = h ↔ a = b) := by
    intro pos
    rcases hexchange pos with h | ⟨a, b, h1, ha, hb, h2⟩
    · cases hg : get_alleles (sample_data pos) with
      | none =>
        left
        rw [h, hg]
        exact ⟨rfl, rfl⟩
      | some g =>
        right
        obtain ⟨a, b⟩ := g
        rw [h, hg]
        exact ⟨a, b, a, b, rfl, rfl, Iff.rfl, Iff.rfl, Iff.rfl⟩
    · right
      refine ⟨a, b, b, a, h1, h2, ?_, ?_, ?_⟩
      · exact ⟨fun h => absurd h hb, fun h => absurd h ha⟩
      · exact ⟨fun h => absurd h ha, fun h => absurd h hb⟩
      · exact ⟨fun h => h.symm, fun h => h.symm⟩
  unfold tdt_counts
  have hfun : tdt_family get_alleles sample_ids exchanged permute =
      tdt_family get_alleles sample_ids sample_data permute := by
    funext t fam
    exact tdt_family_congr get_alleles sample_ids sample_data exchanged permute hdata t fam
  rw [hfun]

/-- C26 witness: the father's genotype 1/2 read as 2/1. -/
theorem tdt_test_allele_exchange_witness :
    tdt_counts get_alleles_spec
      (fun name => if name = "F" then some 0 else if name = "M" then some 1
        else if name = "C" then some 2 else none)
      (list_to_array ["2/1", "0/0", "0/1"]) 0
      [⟨"fam", some ⟨"F", 1⟩, some ⟨"M", 1⟩, [⟨"C", 2⟩]⟩] =
    tdt_counts get_alleles_spec
      (fun name => if name = "F" then some 0 else if name = "M" then some 1
        else if name = "C" then some 2 else none)
      (list_to_array ["1/2", "0/0", "0/1"]) 0
      [⟨"fam", some ⟨"F", 1⟩, some ⟨"M", 1⟩, [⟨"C", 2⟩]⟩] :=
  tdt_test_allele_exchange get_alleles_spec _ (list_to_array ["1/2", "0/0", "0/1"])
    (list_to_array ["2/1", "0/0", "0/1"]) 0 _ (by
      intro pos
      rcases Nat.eq_zero_or_pos pos with h | h
      · right
        subst h
        exact ⟨1, 2, by decide, by decide, by decide, by decide⟩
      · left
        obtain ⟨k, rfl⟩ := Nat.exists_eq_succ_of_ne_zero (Nat.pos_iff_ne_zero.mp h)
        rfl)

/-! ## TDT kernel: the permutation flag -/

theorem int32_neg_sq (x : Int) : int32 (-x) * int32 (-x) = int32 x * int32 x := by
  have h : int32 (-x) = - int32 x ∨ int32 (-x) = int32 x := by
    unfold int32
    omega
  rcases h with h | h
  · rw [h]; ring
  · rw [h]

/-- The statistic does not change when the two counts are exchanged. -/
theorem tdt_chisq_comm (t1 t2 : Int) : tdt_chisq t2 t1 = tdt_chisq t1 t2 := by
  unfold tdt_chisq
  have hneg : t2 - t1 = -(t1 - t2) := by ring
  rw [Int.add_comm t2 t1, hneg, int32_neg_sq]

/-- Every branch of the case analysis assigns `trA`, `unA` one of the pairs
(1, 2), (2, 1), whatever the state before. -/
theorem tdt_transmit_A (f1 f2 m1 m2 c1 c2 : Int) (s u : tdt_state) :
    (((tdt_transmit f1 f2 m1 m2 c1 c2 s).trA = 1 ∧ (tdt_transmit f1 f2 m1 m2 c1 c2 s).unA = 2) ∨
      ((tdt_transmit f1 f2 m1 m2 c1 c2 s).trA = 2 ∧
        (tdt_transmit f1 f2 m1 m2 c1 c2 s).unA = 1)) ∧
    (tdt_transmit f1 f2 m1 m2 c1 c2 u).trA = (tdt_transmit f1 f2 m1 m2 c1 c2 s).trA ∧
    (tdt_transmit f1 f2 m1 m2 c1 c2 u).unA = (tdt_transmit f1 f2 m1 m2 c1 c2 s).unA := by
  unfold tdt_transmit
  split_ifs <;> simp

/-- With both parents 0/1 every branch assigns `trB`, `unB` as well. -/
theorem tdt_transmit_B_both (c1 c2 : Int) (s u : tdt_state) :
    (((tdt_transmit 0 1 0 1 c1 c2 s).trB = 1 ∧ (tdt_transmit 0 1 0 1 c1 c2 s).unB = 2) ∨
      ((tdt_transmit 0 1 0 1 c1 c2 s).trB = 2 ∧ (tdt_transmit 0 1 0 1 c1 c2 s).unB = 1)) ∧
    (tdt_transmit 0 1 0 1 c1 c2 u).trB = (tdt_transmit 0 1 0 1 c1 c2 s).trB ∧
    (tdt_transmit 0 1 0 1 c1 c2 u).unB = (tdt_transmit 0 1 0 1 c1 c2 s).unB := by
  unfold tdt_transmit
  split_ifs <;> simp_all

/-- With parents in 0/0, 0/1, 1/1 that are not both 0/1 no branch assigns
`trB` or `unB`. -/
theorem tdt_transmit_B_kept (f1 f2 m1 m2 c1 c2 : Int)
    (hfg : (f1 = 0 ∧ f2 = 0) ∨ (f1 = 0 ∧ f2 = 1) ∨ (f1 = 1 ∧ f2 = 1))
    (hmg : (m1 = 0 ∧ m2 = 0) ∨ (m1 = 0 ∧ m2 = 1) ∨ (m1 = 1 ∧ m2 = 1))
    (hnb : ¬ ((f1 = 0 ∧ f2 = 1) ∧ (m1 = 0 ∧ m2 = 1))) (s : tdt_state) :
    (tdt_transmit f1 f2 m1 m2 c1 c2 s).trB = s.trB ∧
    (tdt_transmit f1 f2 m1 m2 c1 c2 s).unB = s.unB := by
  rcases hfg with ⟨h1, h2⟩ | ⟨h1, h2⟩ | ⟨h1, h2⟩ <;>
    rcases hmg with ⟨h3, h4⟩ | ⟨h3, h4⟩ | ⟨h3, h4⟩ <;>
    subst h1 <;> subst h2 <;> subst h3 <;> subst h4 <;>
    (unfold tdt_transmit; split_ifs <;> simp_all)

theorem tdt_permute_fields (permute : Int) (hp : permute ≠ 0) (s : tdt_state) :
    (tdt_permute permute s).trA = s.unA ∧ (tdt_permute permute s).unA = s.trA ∧
    (tdt_permute permute s).trB = s.unB ∧ (tdt_permute permute s).unB = s.trB ∧
    (tdt_permute permute s).t1 = s.t1 ∧ (tdt_permute permute s).t2 = s.t2 := by
  unfold tdt_permute
  rw [if_pos hp]
  exact ⟨rfl, rfl, rfl, rfl, rfl, rfl⟩

/-- One counted child, run with the flag clear from state `s` and with the
flag set from state `u`: if the counters of `u` are those of `s` exchanged
(and no stale `trB`, `unB` is pending unless both parents are 0/1), the same
holds afterwards. -/
theorem tdt_counted_permute (permute : Int) (hp : permute ≠ 0) (f1 f2 m1 m2 c1 c2 : Int)
    (hfg : (f1 = 0 ∧ f2 = 0) ∨ (f1 = 0 ∧ f2 = 1) ∨ (f1 = 1 ∧ f2 = 1))
    (hmg : (m1 = 0 ∧ m2 = 0) ∨ (m1 = 0 ∧ m2 = 1) ∨ (m1 = 1 ∧ m2 = 1))
    (s u : tdt_state)
    (hJ : u.t1 = s.t2 ∧ u.t2 = s.t1 ∧
      (((f1 = 0 ∧ f2 = 1) ∧ (m1 = 0 ∧ m2 = 1)) ∨ (s.trB = 0 ∧ u.trB = 0 ∧ u.unB = 0))) :
    (tdt_increment (tdt_permute permute (tdt_transmit f1 f2 m1 m2 c1 c2 u))).t1 =
      (tdt_increment (tdt_transmit f1 f2 m1 m2 c1 c2 s)).t2 ∧
    (tdt_increment (tdt_permute permute (tdt_transmit f1 f2 m1 m2 c1 c2 u))).t2 =
      (tdt_increment (tdt_transmit f1 f2 m1 m2 c1 c2 s)).t1 ∧
    (((f1 = 0 ∧ f2 = 1) ∧ (m1 = 0 ∧ m2 = 1)) ∨
      ((tdt_increment (tdt_transmit f1 f2 m1 m2 c1 c2 s)).trB = 0 ∧
        (tdt_increment (tdt_permute permute (tdt_transmit f1 f2 m1 m2 c1 c2 u))).trB = 0 ∧
        (tdt_increment (tdt_permute permute (tdt_transmit f1 f2 m1 m2 c1 c2 u))).unB = 0)) := by
  obtain ⟨hJ1, hJ2, hJ3⟩ := hJ
  obtain ⟨hA, hAtr, hAun⟩ := tdt_transmit_A f1 f2 m1 m2 c1 c2 s u
  obtain ⟨p1, p2, p3, p4, p5, p6⟩ :=
    tdt_permute_fields permute hp (tdt_transmit f1 f2 m1 m2 c1 c2 u)
  obtain ⟨-, -, i3, -, i5, i6⟩ := tdt_increment_fields (tdt_transmit f1 f2 m1 m2 c1 c2 s)
  obtain ⟨-, -, k3, k4, k5, k6⟩ :=
    tdt_increment_fields (tdt_permute permute (tdt_transmit f1 f2 m1 m2 c1 c2 u))
  obtain ⟨cs1, cs2⟩ := tdt_transmit_counts f1 f2 m1 m2 c1 c2 s
  obtain ⟨cu1, cu2⟩ := tdt_transmit_counts f1 f2 m1 m2 c1 c2 u
  rw [k3, k4, k5, k6, i3, i5, i6, p1, p3, p4, p5, p6, hAun, cs1, cs2, cu1, cu2, hJ1, hJ2]
  by_cases hb : (f1 = 0 ∧ f2 = 1) ∧ (m1 = 0 ∧ m2 = 1)
  · obtain ⟨⟨h1, h2⟩, ⟨h3, h4⟩⟩ := hb
    subst h1
    subst h2
    subst h3
    subst h4
    obtain ⟨hB, hBtr, hBun⟩ := tdt_transmit_B_both c1 c2 s u
    rw [hBun]
    refine ⟨?_, ?_, Or.inl ⟨⟨rfl, rfl⟩, rfl, rfl⟩⟩
    · rcases hA with ⟨a1, a2⟩ | ⟨a1, a2⟩ <;> rcases hB with ⟨b1, b2⟩ | ⟨b1, b2⟩ <;>
        rw [a1, a2, b1, b2] <;> simp
    · rcases hA with ⟨a1, a2⟩ | ⟨a1, a2⟩ <;> rcases hB with ⟨b1, b2⟩ | ⟨b1, b2⟩ <;>
        rw [a1, a2, b1, b2] <;> simp
  · obtain ⟨z1, z2, z3⟩ := hJ3.resolve_left hb
    obtain ⟨ks1, -⟩ := tdt_transmit_B_kept f1 f2 m1 m2 c1 c2 hfg hmg hb s
    obtain ⟨ku1, ku2⟩ := tdt_transmit_B_kept f1 f2 m1 m2 c1 c2 hfg hmg hb u
    rw [ks1, ku1, ku2, z1, z2, z3]
    refine ⟨?_, ?_, Or.inr ⟨rfl, rfl, rfl⟩⟩
    · rcases hA with ⟨a1, a2⟩ | ⟨a1, a2⟩ <;> rw [a1, a2] <;> simp
    · rcases hA with ⟨a1, a2⟩ | ⟨a1, a2⟩ <;> rw [a1, a2] <;> simp

theorem tdt_child_permute (get_alleles : String → Option (Int × Int))
    (sample_ids : String → Option Nat) (sample_data : Nat → String)
    (permute : Int) (hp : permute ≠ 0) (f1 f2 m1 m2 : Int)
    (hfg : (f1 = 0 ∧ f2 = 0) ∨ (f1 = 0 ∧ f2 = 1) ∨ (f1 = 1 ∧ f2 = 1))
    (hmg : (m1 = 0 ∧ m2 = 0) ∨ (m1 = 0 ∧ m2 = 1) ∨ (m1 = 1 ∧ m2 = 1))
    (child : individual) (s u : tdt_state)
    (hJ : u.t1 = s.t2 ∧ u.t2 = s.t1 ∧
      (((f1 = 0 ∧ f2 = 1) ∧ (m1 = 0 ∧ m2 = 1)) ∨ (s.trB = 0 ∧ u.trB = 0 ∧ u.unB = 0))) :
    (tdt_child get_alleles sample_ids sample_data permute f1 f2 m1 m2 u child).t1 =
      (tdt_child get_alleles sample_ids sample_data 0 f1 f2 m1 m2 s child).t2 ∧
    (tdt_child get_alleles sample_ids sample_data permute f1 f2 m1 m2 u child).t2 =
      (tdt_child get_alleles sample_ids sample_data 0 f1 f2 m1 m2 s child).t1 ∧
    (((f1 = 0 ∧ f2 = 1) ∧ (m1 = 0 ∧ m2 = 1)) ∨
      ((tdt_child get_alleles sample_ids sample_data 0 f1 f2 m1 m2 s child).trB = 0 ∧
        (tdt_child get_alleles sample_ids sample_data permute f1 f2 m1 m2 u child).trB = 0 ∧
        (tdt_child get_alleles sample_ids sample_data permute f1 f2 m1 m2 u child).unB = 0)) := by
  unfold tdt_child
  by_cases hph : child.phenotype ≠ 2
  · rw [if_pos hph, if_pos hph]
    exact hJ
  · rw [if_neg hph, if_neg hph]
    cases hpos : sample_ids child.id with
    | none => exact hJ
    | some child_pos =>
      simp only []
      cases hgc : get_alleles (sample_data child_pos) with
      | none => exact hJ
      | some gc =>
        obtain ⟨c1, c2⟩ := gc
        simp only []
        by_cases hmiss : c1 ≠ 0 ∧ c2 = 0
        · rw [if_pos hmiss, if_pos hmiss]
          exact hJ
        · rw [if_neg hmiss, if_neg hmiss, tdt_permute_zero]
          exact tdt_counted_permute permute hp f1 f2 m1 m2 c1 c2 hfg hmg s u hJ

theorem tdt_children_permute (get_alleles : String → Option (Int × Int))
    (sample_ids : String → Option Nat) (sample_data : Nat → String)
    (permute : Int) (hp : permute ≠ 0) (f1 f2 m1 m2 : Int)
    (hfg : (f1 = 0 ∧ f2 = 0) ∨ (f1 = 0 ∧ f2 = 1) ∨ (f1 = 1 ∧ f2 = 1))
    (hmg : (m1 = 0 ∧ m2 = 0) ∨ (m1 = 0 ∧ m2 = 1) ∨ (m1 = 1 ∧ m2 = 1))
    (children : List individual) : ∀ (s u : tdt_state),
    (u.t1 = s.t2 ∧ u.t2 = s.t1 ∧
      (((f1 = 0 ∧ f2 = 1) ∧ (m1 = 0 ∧ m2 = 1)) ∨ (s.trB = 0 ∧ u.trB = 0 ∧ u.unB = 0))) →
    (tdt_children get_alleles sample_ids sample_data permute f1 f2 m1 m2 u children).t1 =
      (tdt_children get_alleles sample_ids sample_data 0 f1 f2 m1 m2 s children).t2 ∧
    (tdt_children get_alleles sample_ids sample_data permute f1 f2 m1 m2 u children).t2 =
      (tdt_children get_alleles sample_ids sample_data 0 f1 f2 m1 m2 s children).t1 := by
  induction children with
  | nil =>
    intro s u hJ
    exact ⟨hJ.1, hJ.2.1⟩
  | cons child rest ih =>
    intro s u hJ
    simp only [tdt_children, List.foldl_cons] at ih ⊢
    exact ih _ _ (tdt_child_permute get_alleles sample_ids sample_data permute hp f1 f2 m1 m2
      hfg hmg child s u hJ)

/-- One family: from exchanged counters the run with the flag set ends in the
exchanged counters of the run with the flag clear. -/
theorem tdt_family_permute (get_alleles : String → Option (Int × Int))
    (sample_ids : String → Option Nat) (sample_data : Nat → String)
    (permute : Int) (hp : permute ≠ 0)
    (hbi : ∀ pos a b, get_alleles (sample_data pos) = some (a, b) →
      (a = 0 ∧ b = 0) ∨ (a = 0 ∧ b = 1) ∨ (a = 1 ∧ b = 1))
    (t : Int × Int) (fam : family) :
    tdt_family get_alleles sample_ids sample_data permute (t.2, t.1) fam =
      ((tdt_family get_alleles sample_ids sample_data 0 t fam).2,
       (tdt_family get_alleles sample_ids sample_data 0 t fam).1) := by
  unfold tdt_family
  cases hfa : fam.father with
  | none => rfl
  | some father =>
    cases hmo : fam.mother with
    | none => rfl
    | some mother =>
      simp only []
      cases hfp : sample_ids father.id with
      | none => rfl
      | some father_pos =>
        cases hmp : sample_ids mother.id with
        | none => rfl
        | some mother_pos =>
          simp only []
          cases hf : get_alleles (sample_data father_pos) with
          | none => rfl
          | some gf =>
            obtain ⟨f1, f2⟩ := gf
            cases hm : get_alleles (sample_data mother_pos) with
            | none => rfl
            | some gm =>
              obtain ⟨m1, m2⟩ := gm
              simp only []
              by_cases hhom : f1 = f2 ∧ m1 = m2
              · rw [if_pos hhom, if_pos hhom]
              · rw [if_neg hhom, if_neg hhom]
                by_cases hmiss : (f1 ≠ 0 ∧ f2 = 0) ∨ (m1 ≠ 0 ∧ m2 = 0)
                · rw [if_pos hmiss, if_pos hmiss]
                · rw [if_neg hmiss, if_neg hmiss]
                  obtain ⟨h1, h2⟩ := tdt_children_permute get_alleles sample_ids sample_data
                    permute hp f1 f2 m1 m2 (hbi father_pos f1 f2 hf) (hbi mother_pos m1 m2 hm)
                    fam.children ⟨0, 0, 0, 0, t.1, t.2⟩ ⟨0, 0, 0, 0, t.2, t.1⟩
                    ⟨rfl, rfl, Or.inr ⟨rfl, rfl, rfl⟩⟩
                  exact Prod.ext h1 h2

theorem tdt_counts_permute (get_alleles : String → Option (Int × Int))
    (sample_ids : String → Option Nat) (sample_data : Nat → String)
    (permute : Int) (hp : permute ≠ 0)
    (hbi : ∀ pos a b, get_alleles (sample_data pos) = some (a, b) →
      (a = 0 ∧ b = 0) ∨ (a = 0 ∧ b = 1) ∨ (a = 1 ∧ b = 1))
    (families : List family) : ∀ t : Int × Int,
    families.foldl (tdt_family get_alleles sample_ids sample_data permute) (t.2, t.1) =
      ((families.foldl (tdt_family get_alleles sample_ids sample_data 0) t).2,
       (families.foldl (tdt_family get_alleles sample_ids sample_data 0) t).1) := by
  induction families with
  | nil => intro t; rfl
  | cons fam rest ih =>
    intro t
    rw [List.foldl_cons, List.foldl_cons,
      tdt_family_permute get_alleles sample_ids sample_data permute hp hbi t fam]
    exact ih _

/-- C28. With the permutation flag set, `tdt_test` exchanges the transmitted
and the untransmitted allele of each heterozygous parent for every counted
child; so for every variant and pedigree whose genotypes are all 0/0, 0/1 or
1/1 (or missing), the counts computed with the flag set are the counts
computed with the flag clear with t1 and t2 exchanged, and the chi-square is
the same in both runs. -/
theorem tdt_test_permute_exchanges (get_alleles : String → Option (Int × Int))
    (sample_ids : String → Option Nat) (sample_data : Nat → String)
    (permute : Int) (hp : permute ≠ 0) (families : List family)
    (hbi : ∀ pos a b, get_alleles (sample_data pos) = some (a, b) →
      (a = 0 ∧ b = 0) ∨ (a = 0 ∧ b = 1) ∨ (a = 1 ∧ b = 1)) :
    (∀ s : tdt_state, tdt_permute permute s =
      { s with trA := s.unA, unA := s.trA, trB := s.unB, unB := s.trB }) ∧
    tdt_counts get_alleles sample_ids sample_data permute families =
      ((tdt_counts get_alleles sample_ids sample_data 0 families).2,
       (tdt_counts get_alleles sample_ids sample_data 0 families).1) ∧
    tdt_chisq (tdt_counts get_alleles sample_ids sample_data permute families).1
        (tdt_counts get_alleles sample_ids sample_data permute families).2 =
      tdt_chisq (tdt_counts get_alleles sample_ids sample_data 0 families).1
        (tdt_counts get_alleles sample_ids sample_data 0 families).2 := by
  have hcounts : tdt_counts get_alleles sample_ids sample_data permute families =
      ((tdt_counts get_alleles sample_ids sample_data 0 families).2,
       (tdt_counts get_alleles sample_ids sample_data 0 families).1) :=
    tdt_counts_permute get_alleles sample_ids sample_data permute hp hbi families (0, 0)
  refine ⟨?_, hcounts, ?_⟩
  · intro s
    unfold tdt_permute
    rw [if_pos hp]
  · rw [hcounts]
    exact tdt_chisq_comm _ _

/-- C28 witness: father 0/1, mother 0/0, affected child 0/1, flag 1. -/
theorem tdt_test_permute_exchanges_witness :
    tdt_counts get_alleles_spec
      (fun name => if name = "F" then some 0 else if name = "M" then some 1
        else if name = "C" then some 2 else none)
      (list_to_array ["0/1", "0/0", "0/1"]) 1
      [⟨"fam", some ⟨"F", 1⟩, some ⟨"M", 1⟩, [⟨"C", 2⟩]⟩] =
    ((tdt_counts get_alleles_spec
      (fun name => if name = "F" then some 0 else if name = "M" then some 1
        else if name = "C" then some 2 else none)
      (list_to_array ["0/1", "0/0", "0/1"]) 0
      [⟨"fam", some ⟨"F", 1⟩, some ⟨"M", 1⟩, [⟨"C", 2⟩]⟩]).2,
     (tdt_counts get_alleles_spec
      (fun name => if name = "F" then some 0 else if name = "M" then some 1
        else if name = "C" then some 2 else none)
      (list_to_array ["0/1", "0/0", "0/1"]) 0
      [⟨"fam", some ⟨"F", 1⟩, some ⟨"M", 1⟩, [⟨"C", 2⟩]⟩]).1) :=
  (tdt_test_permute_exchanges get_alleles_spec _ (list_to_array ["0/1", "0/0", "0/1"]) 1
    (by decide) _ (by
      intro pos a b h
      match pos, h with
      | 0, h =>
        have h' : some ((0 : Int), (1 : Int)) = some (a, b) := h
        simp only [Option.some.injEq, Prod.mk.injEq] at h'
        omega
      | 1, h =>
        have h' : some ((0 : Int), (0 : Int)) = some (a, b) := h
        simp only [Option.some.injEq, Prod.mk.injEq] at h'
        omega
      | 2, h =>
        have h' : some ((0 : Int), (1 : Int)) = some (a, b) := h
        simp only [Option.some.injEq, Prod.mk.injEq] at h'
        omega
      | n + 3, h =>
        have h' : (none : Option (Int × Int)) = some (a, b) := h
        exact absurd h' (by simp))).2.1

/-! ## Ranking: a true top-N -/

/-- C30. For every cap N that is at least 1 and every finite sequence of
combinations with defined scores inserted one by one with
`add_to_model_ranking` into an empty ranking, the final ranking is the first
min(N, length) entries of the stable descending-by-accuracy sort of the whole
sequence (a sorted permutation of the sequence that keeps the entries of each
score in insertion order); every entry of the sort that is not in the final
ranking, that is every rejected or evicted combination, scores no higher than
any entry of the final ranking, its tail included. -/
theorem add_to_model_ranking_top (N : Int) (hN : 1 ≤ N) (combos : List risky_combination)
    (hdef : ∀ c ∈ combos, c.accuracy ≠ NAN) (removed : Option risky_combination) :
    (add_to_model_ranking_calls (combos.map (fun c => (c, N))) [] removed).2.1 =
      (stable_sort_desc combos).take (min N.toNat combos.length) ∧
    (stable_sort_desc combos).Perm combos ∧
    (stable_sort_desc combos).Pairwise (fun a b => double_le b.accuracy a.accuracy = true) ∧
    (∀ v : double, (stable_sort_desc combos).filter (fun e => decide (e.accuracy = v)) =
      combos.filter (fun e => decide (e.accuracy = v))) ∧
    (∀ e ∈ (stable_sort_desc combos).drop (min N.toNat combos.length),
      ∀ t ∈ (add_to_model_ranking_calls (combos.map (fun c => (c, N))) [] removed).2.1,
        double_le e.accuracy t.accuracy = true) := by
  obtain ⟨s1, -, s3, s4, s5⟩ := stable_sort_desc_from_spec combos [] List.Pairwise.nil
    (fun e he => absurd he (List.not_mem_nil e)) hdef
  rw [List.nil_append] at s3
  rw [List.length_nil, Nat.zero_add] at s5
  have hsz : int_to_size_t N = N.toNat := by
    unfold int_to_size_t
    rw [if_neg (by omega)]
  have htop := add_to_model_ranking_calls_top N hN combos [] removed List.Pairwise.nil
    (fun e he => absurd he (List.not_mem_nil e)) hdef
  rw [List.take_nil, hsz] at htop
  have hmin : (stable_sort_desc combos).take (min N.toNat combos.length) =
      (stable_sort_desc combos).take N.toNat := by
    unfold stable_sort_desc
    rcases Nat.le_total N.toNat combos.length with h | h
    · rw [Nat.min_eq_left h]
    · rw [Nat.min_eq_right h, List.take_of_length_le (le_of_eq s5),
        List.take_of_length_le (by rw [s5]; exact h)]
  have hfinal : (add_to_model_ranking_calls (combos.map (fun c => (c, N))) [] removed).2.1 =
      (stable_sort_desc combos).take (min N.toNat combos.length) := by
    rw [hmin]
    exact htop
  refine ⟨hfinal, s3, s1, ?_, ?_⟩
  · intro v
    have h := s4 v
    rw [List.nil_append] at h
    exact h
  · intro e he t ht
    rw [hfinal] at ht
    have hsplit := s1
    unfold stable_sort_desc at he ht
    rw [← List.take_append_drop (min N.toNat combos.length) (stable_sort_desc_from [] combos)]
      at hsplit
    exact (List.pairwise_append.mp hsplit).2.2 t ht e he

/-- C30 witness: the scores 1, 3, 2 inserted with cap 2. -/
theorem add_to_model_ranking_top_witness :
    (add_to_model_ranking_calls
      ([⟨1, [1], fun _ => 0, 1, none, some 1⟩, ⟨1, [2], fun _ => 0, 1, none, some 3⟩,
        ⟨1, [3], fun _ => 0, 1, none, some 2⟩].map (fun c => (c, (2 : Int)))) [] none).2.1 =
      (stable_sort_desc
        [⟨1, [1], fun _ => 0, 1, none, some 1⟩, ⟨1, [2], fun _ => 0, 1, none, some 3⟩,
          ⟨1, [3], fun _ => 0, 1, none, some 2⟩]).take (min (2 : Int).toNat
        [(⟨1, [1], fun _ => 0, 1, none, some 1⟩ : risky_combination),
          ⟨1, [2], fun _ => 0, 1, none, some 3⟩, ⟨1, [3], fun _ => 0, 1, none, some 2⟩].length) :=
  (add_to_model_ranking_top 2 (by decide) _ (by
    intro c hc
    simp only [List.mem_cons, List.mem_singleton, List.not_mem_nil, or_false] at hc
    rcases hc with h | h | h <;> rw [h] <;> exact Option.some_ne_none _) none).1

/-! ## TDT kernel: a family with several children -/

/-- C29 (evaluation of the code). Father 0/1, mother 1/2, two affected
children 0/1 and 1/1. Alone, the child 0/1 adds (1, 1) and the child 1/1 adds
(0, 1). Traversed in the order 0/1, 1/1 the family adds (1, 3): the variables
`trB`, `unB` are declared once per family, and the child 1/1, whose branch
assigns only `trA`, `unA`, counts the `trB` left by the child 0/1 a second
time. Traversed in the order 1/1, 0/1 the family adds (1, 2). -/
theorem tdt_test_stale_second_transmission :
    tdt_counts get_alleles_spec
      (fun name => if name = "F" then some 0 else if name = "M" then some 1
        else if name = "C1" then some 2 else if name = "C2" then some 3 else none)
      (list_to_array ["0/1", "1/2", "0/1", "1/1"]) 0
      [⟨"fam", some ⟨"F", 1⟩, some ⟨"M", 1⟩, [⟨"C1", 2⟩]⟩] = (1, 1) ∧
    tdt_counts get_alleles_spec
      (fun name => if name = "F" then some 0 else if name = "M" then some 1
        else if name = "C1" then some 2 else if name = "C2" then some 3 else none)
      (list_to_array ["0/1", "1/2", "0/1", "1/1"]) 0
      [⟨"fam", some ⟨"F", 1⟩, some ⟨"M", 1⟩, [⟨"C2", 2⟩]⟩] = (0, 1) ∧
    tdt_counts get_alleles_spec
      (fun name => if name = "F" then some 0 else if name = "M" then some 1
        else if name = "C1" then some 2 else if name = "C2" then some 3 else none)
      (list_to_array ["0/1", "1/2", "0/1", "1/1"]) 0
      [⟨"fam", some ⟨"F", 1⟩, some ⟨"M", 1⟩, [⟨"C1", 2⟩, ⟨"C2", 2⟩]⟩] = (1, 3) ∧
    tdt_counts get_alleles_spec
      (fun name => if name = "F" then some 0 else if name = "M" then some 1
        else if name = "C1" then some 2 else if name = "C2" then some 3 else none)
      (list_to_array ["0/1", "1/2", "0/1", "1/1"]) 0
      [⟨"fam", some ⟨"F", 1⟩, some ⟨"M", 1⟩, [⟨"C2", 2⟩, ⟨"C1", 2⟩]⟩] = (1, 2) := by
  decide

/-! ## Balanced accuracy of a confusion matrix -/

/-- The balanced accuracy of a matrix whose columns sum to the positive sample
counts A and U. -/
theorem evaluate_model_BA_range (enum_value : eval_function → Int) (sqrt : ℚ → ℚ)
    (TP FN FP TN A U : Nat) (hA : 1 ≤ A) (hU : 1 ≤ U) (hsA : TP + FN = A) (hsU : FP + TN = U) :
    evaluate_model enum_value sqrt (TP, FN, FP, TN) eval_function.BA =
      some ((((TP : ℚ) / ((TP : ℚ) + (FN : ℚ))) + ((TN : ℚ) / ((TN : ℚ) + (FP : ℚ)))) / 2) ∧
    0 ≤ (((TP : ℚ) / ((TP : ℚ) + (FN : ℚ))) + ((TN : ℚ) / ((TN : ℚ) + (FP : ℚ)))) / 2 ∧
    (((TP : ℚ) / ((TP : ℚ) + (FN : ℚ))) + ((TN : ℚ) / ((TN : ℚ) + (FP : ℚ)))) / 2 ≤ 1 ∧
    ((((TP : ℚ) / ((TP : ℚ) + (FN : ℚ))) + ((TN : ℚ) / ((TN : ℚ) + (FP : ℚ)))) / 2 = 1 ↔
      FN = 0 ∧ FP = 0) := by
  have hdA : (0 : ℚ) < (TP : ℚ) + (FN : ℚ) := by
    have : (0 : ℚ) < ((TP + FN : Nat) : ℚ) := by
      rw [hsA]
      exact_mod_cast hA
    push_cast at this
    exact this
  have hdU : (0 : ℚ) < (TN : ℚ) + (FP : ℚ) := by
    have : (0 : ℚ) < ((FP + TN : Nat) : ℚ) := by
      rw [hsU]
      exact_mod_cast hU
    push_cast at this
    linarith
  have hTP : (0 : ℚ) ≤ (TP : ℚ) := Nat.cast_nonneg TP
  have hFN : (0 : ℚ) ≤ (FN : ℚ) := Nat.cast_nonneg FN
  have hFP : (0 : ℚ) ≤ (FP : ℚ) := Nat.cast_nonneg FP
  have hTN : (0 : ℚ) ≤ (TN : ℚ) := Nat.cast_nonneg TN
  have hx0 : 0 ≤ (TP : ℚ) / ((TP : ℚ) + (FN : ℚ)) := div_nonneg hTP (le_of_lt hdA)
  have hy0 : 0 ≤ (TN : ℚ) / ((TN : ℚ) + (FP : ℚ)) := div_nonneg hTN (le_of_lt hdU)
  have hx1 : (TP : ℚ) / ((TP : ℚ) + (FN : ℚ)) ≤ 1 := by
    rw [div_le_one hdA]
    linarith
  have hy1 : (TN : ℚ) / ((TN : ℚ) + (FP : ℚ)) ≤ 1 := by
    rw [div_le_one hdU]
    linarith
  have hxe : (TP : ℚ) / ((TP : ℚ) + (FN : ℚ)) = 1 ↔ FN = 0 := by
    rw [div_eq_one_iff_eq (ne_of_gt hdA)]
    constructor
    · intro h
      have h0 : (FN : ℚ) = 0 := by linarith
      exact_mod_cast h0
    · intro h
      rw [h]
      simp
  have hye : (TN : ℚ) / ((TN : ℚ) + (FP : ℚ)) = 1 ↔ FP = 0 := by
    rw [div_eq_one_iff_eq (ne_of_gt hdU)]
    constructor
    · intro h
      have h0 : (FP : ℚ) = 0 := by linarith
      exact_mod_cast h0
    · intro h
      rw [h]
      simp
  refine ⟨?_, by linarith, by linarith, ?_⟩
  · rw [evaluate_model_BA]
    show (match double_div (TP : ℚ) ((TP : ℚ) + (FN : ℚ)),
        double_div (TN : ℚ) ((TN : ℚ) + (FP : ℚ)) with
      | some x, some y => some ((x + y) / 2)
      | _, _ => NAN) = _
    rw [double_div_of_ne _ _ (ne_of_gt hdA), double_div_of_ne _ _ (ne_of_gt hdU)]
  · constructor
    · intro h
      have hx : (TP : ℚ) / ((TP : ℚ) + (FN : ℚ)) = 1 := by linarith
      have hy : (TN : ℚ) / ((TN : ℚ) + (FP : ℚ)) = 1 := by linarith
      exact ⟨hxe.mp hx, hye.mp hy⟩
    · rintro ⟨h1, h2⟩
      rw [hxe.mpr h1, hye.mpr h2]
      norm_num

/-- A layout is accepted by `masks_info_init` only with at least one affected
and one unaffected sample. -/
theorem masks_info_init_positive (order R A U : Nat) (info : masks_info)
    (hinit : masks_info_init order R A U = some info) : 1 ≤ A ∧ 1 ≤ U := by
  unfold masks_info_init at hinit
  simp only [] at hinit
  split_ifs at hinit with hpad
  obtain ⟨h1, h2⟩ := hpad
  constructor
  · by_contra h
    have hA0 : A = 0 := by omega
    rw [hA0] at h1
    exact h1 (by decide)
  · by_contra h
    have hU0 : U = 0 := by omega
    rw [hU0] at h2
    exact h2 (by decide)

/-- C32. For a layout accepted by `masks_info_init` (which requires at least
one affected and one unaffected sample; sample counts within the range of
`int`) every matrix (TP, FN, FP, TN) produced by `confusion_matrix` has
TP + FN ≥ 1 and TN + FP ≥ 1; the balanced accuracy returned by `test_model`
is therefore defined (no division by zero), equals
(TP/(TP+FN) + TN/(TN+FP)) / 2, lies in the closed interval [0, 1], and is 1
exactly when FN = 0 and FP = 0. -/
theorem test_model_balanced_accuracy_bounds (enum_value : eval_function → Int) (sqrt : ℚ → ℚ)
    (order R A U : Nat) (info : masks_info)
    (hinit : masks_info_init order R A U = some info)
    (hA : A ≤ 2147483647) (hU : U ≤ 2147483647)
    (order' : Nat) (combination : risky_combination) (genotypes : Nat → Nat → uint8_t)
    (stack_confusion stack_final : Nat → Nat) :
    1 ≤ A ∧ 1 ≤ U ∧
    1 ≤ (confusion_matrix order' combination info genotypes stack_confusion stack_final).1
      + (confusion_matrix order' combination info genotypes stack_confusion stack_final).2.1 ∧
    1 ≤ (confusion_matrix order' combination info genotypes stack_confusion stack_final).2.2.2
      + (confusion_matrix order' combination info genotypes stack_confusion
          stack_final).2.2.1 ∧
    ∃ q : ℚ,
      (test_model enum_value sqrt order' combination genotypes info stack_confusion
        stack_final).1 = some q ∧
      q = ((((confusion_matrix order' combination info genotypes stack_confusion
                stack_final).1 : ℚ) /
            (((confusion_matrix order' combination info genotypes stack_confusion
                stack_final).1 : ℚ) +
              ((confusion_matrix order' combination info genotypes stack_confusion
                stack_final).2.1 : ℚ))) +
         (((confusion_matrix order' combination info genotypes stack_confusion
                stack_final).2.2.2 : ℚ) /
            (((confusion_matrix order' combination info genotypes stack_confusion
                stack_final).2.2.2 : ℚ) +
              ((confusion_matrix order' combination info genotypes stack_confusion
                stack_final).2.2.1 : ℚ)))) / 2 ∧
      0 ≤ q ∧ q ≤ 1 ∧
      (q = 1 ↔
        (confusion_matrix order' combination info genotypes stack_confusion stack_final).2.1
          = 0 ∧
        (confusion_matrix order' combination info genotypes stack_confusion
          stack_final).2.2.1 = 0) := by
  obtain ⟨hA1, hU1⟩ := masks_info_init_positive order R A U info hinit
  obtain ⟨hsA, hsU, -, -, -, -⟩ := confusion_matrix_sums order R A U info hinit hA hU order'
    combination genotypes stack_confusion stack_final
  generalize hcm : confusion_matrix order' combination info genotypes stack_confusion
    stack_final = cm at hsA hsU
  obtain ⟨TP, FN, FP, TN⟩ := cm
  simp only [] at hsA hsU ⊢
  obtain ⟨e1, e2, e3, e4⟩ := evaluate_model_BA_range enum_value sqrt TP FN FP TN A U hA1 hU1
    hsA hsU
  refine ⟨hA1, hU1, by omega, by omega, _, ?_, rfl, e2, e3, e4⟩
  unfold test_model
  simp only [hcm]
  exact e1

/-- C32 witness: a combination without any high-risk cell, scored on three
affected and five unaffected samples: the balanced accuracy is defined and
lies in [0, 1]. -/
theorem test_model_balanced_accuracy_bounds_witness :
    masks_info_init 2 1 3 5 = some ⟨3, 5, 16, 16, 1, 9, 32, 192⟩ ∧
    ∃ q : ℚ,
      (test_model (fun _ => 1) (fun x => x) 2 ⟨2, [0, 1], fun _ => 2, 0, none, none⟩
        (fun _ _ => 2) ⟨3, 5, 16, 16, 1, 9, 32, 192⟩ (fun _ => 0) (fun _ => 0)).1 = some q ∧
      0 ≤ q ∧ q ≤ 1 :=
  ⟨by decide,
    (test_model_balanced_accuracy_bounds (fun _ => 1) (fun x => x) 2 1 3 5
      ⟨3, 5, 16, 16, 1, 9, 32, 192⟩ (by decide) (by decide) (by decide) 2
      ⟨2, [0, 1], fun _ => 2, 0, none, none⟩ (fun _ _ => 2) (fun _ => 0)
      (fun _ => 0)).2.2.2.2.imp (fun _ h => ⟨h.1, h.2.2.1, h.2.2.2.1⟩)⟩

/-! ## Confusion matrix against the cell counts -/

theorem length_filter_or_disjoint (l : List Nat) (a b : Nat → Bool)
    (h : ∀ x ∈ l, ¬ (a x = true ∧ b x = true)) :
    (l.filter (fun x => a x || b x)).length = (l.filter a).length + (l.filter b).length := by
  induction l with
  | nil => rfl
  | cons x xs ih =>
    have hx := h x (List.mem_cons_self _ _)
    have ih' := ih (fun y hy => h y (List.mem_cons_of_mem _ hy))
    simp only [List.filter_cons]
    cases ha : a x <;> cases hb : b x
    · simp only [Bool.or_self, Bool.false_eq_true, if_false]
      exact ih'
    · simp only [Bool.or_true, Bool.false_or, if_true, Bool.false_eq_true, if_false,
        List.length_cons]
      omega
    · simp only [Bool.or_false, Bool.true_or, if_true, Bool.false_eq_true, if_false,
        List.length_cons]
      omega
    · exact absurd ⟨ha, hb⟩ hx

/-- Counting the positions that pass one of several pairwise exclusive tests
is adding the counts of the tests. -/
theorem length_filter_exists_mem (l : List Nat) (Q : Nat → Nat → Bool) (cs : List Nat)
    (hex : cs.Pairwise (fun c d => ∀ p ∈ l, ¬ (Q c p = true ∧ Q d p = true))) :
    (l.filter (fun p => decide (∃ c ∈ cs, Q c p = true))).length =
      (cs.map (fun c => (l.filter (Q c)).length)).sum := by
  induction cs with
  | nil => simp
  | cons c cs ih =>
    obtain ⟨hhead, htail⟩ := List.pairwise_cons.mp hex
    have hsplit : l.filter (fun p => decide (∃ d ∈ c :: cs, Q d p = true)) =
        l.filter (fun p => Q c p || decide (∃ d ∈ cs, Q d p = true)) := by
      apply List.filter_congr
      intro p _
      rw [Bool.eq_iff_iff]
      simp
    rw [hsplit, length_filter_or_disjoint l (Q c) (fun p => decide (∃ d ∈ cs, Q d p = true)),
      ih htail, List.map_cons, List.sum_cons]
    intro p hp hboth
    obtain ⟨h1, h2⟩ := hboth
    obtain ⟨d, hd, hq⟩ := of_decide_eq_true h2
    exact hhead d hd p hp ⟨h1, hq⟩

/-- The cells copied by `risky_combination_new`: cell `i` of the record holds
the codes of cell `risky_idx[i]` of the table. -/
theorem risky_combination_new_genotypes (order : Nat) (comb : List Int)
    (possible_genotypes_combinations : Nat → Nat → uint8_t) (risky_idx : List Nat)
    (aux_info : Option Nat) (fresh : risky_combination) (i j : Nat)
    (hi : i < risky_idx.length) (hj : j < order) :
    (risky_combination_new order comb possible_genotypes_combinations risky_idx.length
      risky_idx aux_info fresh).genotypes (i * order + j) =
      possible_genotypes_combinations (risky_idx.getD i 0) j := by
  have hpos : 0 < order := by omega
  have hlt : i * order + j < order * risky_idx.length := by
    have h1 : (i + 1) * order ≤ risky_idx.length * order := Nat.mul_le_mul_right order hi
    rw [Nat.add_mul, Nat.one_mul] at h1
    rw [Nat.mul_comm order risky_idx.length]
    omega
  have hdiv : (i * order + j) / order = i := by
    rw [Nat.add_comm, Nat.add_mul_div_right _ _ hpos, Nat.div_eq_of_lt hj, Nat.zero_add]
  have hmod : (i * order + j) % order = j := by
    rw [Nat.add_comm, Nat.add_mul_mod_self_right, Nat.mod_eq_of_lt hj]
  show (if i * order + j < order * risky_idx.length then
      possible_genotypes_combinations (risky_idx.getD ((i * order + j) / order) 0)
        ((i * order + j) % order)
    else fresh.genotypes (i * order + j)) = _
  rw [if_pos hlt, hdiv, hmod]

/-- A position matches one of the cells of the record exactly when it matches
one of the listed cells of the table. -/
theorem risky_combination_new_match (order : Nat) (comb : List Int)
    (possible_genotypes_combinations : Nat → Nat → uint8_t) (risky_idx : List Nat)
    (aux_info : Option Nat) (fresh : risky_combination) (bytes : Nat → uint8_t) :
    (∃ i, i < (risky_combination_new order comb possible_genotypes_combinations
          risky_idx.length risky_idx aux_info fresh).num_risky_genotypes ∧
        ∀ j, j < order → bytes j =
          (risky_combination_new order comb possible_genotypes_combinations risky_idx.length
            risky_idx aux_info fresh).genotypes (i * order + j)) ↔
      ∃ c ∈ risky_idx, decide (∀ j, j < order →
        bytes j = possible_genotypes_combinations c j) = true := by
  constructor
  · rintro ⟨i, hi, hall⟩
    have hi' : i < risky_idx.length := hi
    refine ⟨risky_idx.getD i 0, ?_, ?_⟩
    · rw [List.getD_eq_getElem _ _ hi']
      exact List.getElem_mem hi'
    · apply decide_eq_true
      intro j hj
      rw [hall j hj, risky_combination_new_genotypes order comb _ risky_idx aux_info fresh i j
        hi' hj]
  · rintro ⟨c, hc, hall⟩
    obtain ⟨i, hi, hci⟩ := List.getElem_of_mem hc
    refine ⟨i, hi, ?_⟩
    intro j hj
    rw [risky_combination_new_genotypes order comb _ risky_idx aux_info fresh i j hi hj,
      List.getD_eq_getElem _ _ hi, hci]
    exact of_decide_eq_true hall j hj

/-- C31. When a risky combination with pairwise distinct high-risk cells
(built by `risky_combination_new` from cells of the table) is evaluated by
`confusion_matrix` on the same genotype columns that `combination_counts`
counted (one row, order at least 1, codes of the table in {0,1,2}, layout of
`masks_info_init`), TP equals the sum of `counts_aff` over the high-risk
cells and FP equals the sum of `counts_unaff` over the high-risk cells: the
OR of the per-cell masks counts no sample twice. -/
theorem confusion_matrix_sum_of_counts (order A U : Nat) (info : masks_info)
    (hinit : masks_info_init order 1 A U = some info)
    (hA : A ≤ 2147483647) (hU : U ≤ 2147483647) (horder : 1 ≤ order)
    (genotypes : Nat → Nat → uint8_t) (masks : Nat → Nat)
    (genotype_combinations : Nat → Nat → uint8_t)
    (hcodes : ∀ c j, c < 3 ^ order → j < order → (genotype_combinations c j).val < 3)
    (counts_aff counts_unaff : Nat → Nat) (comb : List Int) (risky_idx : List Nat)
    (aux_info : Option Nat) (fresh : risky_combination)
    (hne : 1 ≤ risky_idx.length) (hidx : ∀ c ∈ risky_idx, c < 3 ^ order)
    (hdistinct : risky_idx.Pairwise (fun c d =>
      ∃ j, j < order ∧ genotype_combinations c j ≠ genotype_combinations d j))
    (stack_confusion stack_final : Nat → Nat) :
    (confusion_matrix order
        (risky_combination_new order comb genotype_combinations risky_idx.length risky_idx
          aux_info fresh)
        info genotypes stack_confusion stack_final).1 =
      (risky_idx.map
        (combination_counts order (set_genotypes_masks order genotypes 1 info masks)
          genotype_combinations (3 ^ order) counts_aff counts_unaff info).1).sum ∧
    (confusion_matrix order
        (risky_combination_new order comb genotype_combinations risky_idx.length risky_idx
          aux_info fresh)
        info genotypes stack_confusion stack_final).2.2.1 =
      (risky_idx.map
        (combination_counts order (set_genotypes_masks order genotypes 1 info masks)
          genotype_combinations (3 ^ order) counts_aff counts_unaff info).2).sum := by
  have hcm := confusion_matrix_cells order 1 A U info hinit hA hU horder
    (risky_combination_new order comb genotype_combinations risky_idx.length risky_idx
      aux_info fresh) hne genotypes stack_confusion stack_final
  have hcounts : ∀ c, c ∈ risky_idx →
      (combination_counts order (set_genotypes_masks order genotypes 1 info masks)
        genotype_combinations (3 ^ order) counts_aff counts_unaff info).1 c =
        ((List.range A).filter (fun p => decide (∀ j, j < order →
          genotypes j p = genotype_combinations c j))).length ∧
      (combination_counts order (set_genotypes_masks order genotypes 1 info masks)
        genotype_combinations (3 ^ order) counts_aff counts_unaff info).2 c =
        ((List.range U).filter (fun q => decide (∀ j, j < order →
          genotypes j (info.num_affected_with_padding + q) =
            genotype_combinations c j))).length := by
    intro c hc
    have h := combination_counts_cells order 1 A U info hinit horder genotypes masks
      genotype_combinations hcodes counts_aff counts_unaff 0 c (by decide) (hidx c hc)
    simp only [Nat.zero_mul, Nat.zero_add] at h
    exact ⟨h.1, h.2.1⟩
  rw [hcm]
  constructor
  · show ((List.range A).filter _).length = _
    rw [List.filter_congr (fun p _ => decide_eq_decide.mpr
        (risky_combination_new_match order comb genotype_combinations risky_idx aux_info fresh
          (fun j => genotypes j p))),
      length_filter_exists_mem (List.range A)
        (fun c p => decide (∀ j, j < order → genotypes j p = genotype_combinations c j))
        risky_idx
        (hdistinct.imp (by
          rintro c d ⟨j, hj, hne'⟩ p _ ⟨h1, h2⟩
          have e1 := of_decide_eq_true h1 j hj
          have e2 := of_decide_eq_true h2 j hj
          exact hne' (e1.symm.trans e2)))]
    apply congrArg
    apply List.map_congr_left
    intro c hc
    exact ((hcounts c hc).1).symm
  · show ((List.range U).filter _).length = _
    rw [List.filter_congr (fun q _ => decide_eq_decide.mpr
        (risky_combination_new_match order comb genotype_combinations risky_idx aux_info fresh
          (fun j => genotypes j (info.num_affected_with_padding + q)))),
      length_filter_exists_mem (List.range U)
        (fun c q => decide (∀ j, j < order →
          genotypes j (info.num_affected_with_padding + q) = genotype_combinations c j))
        risky_idx
        (hdistinct.imp (by
          rintro c d ⟨j, hj, hne'⟩ q _ ⟨h1, h2⟩
          have e1 := of_decide_eq_true h1 j hj
          have e2 := of_decide_eq_true h2 j hj
          exact hne' (e1.symm.trans e2)))]
    apply congrArg
    apply List.map_congr_left
    intro c hc
    exact ((hcounts c hc).2).symm

/-- C31 witness: one SNP, two affected samples with genotype 1 and two
unaffected samples with genotype 0, high-risk cells 1 and 2. -/
theorem confusion_matrix_sum_of_counts_witness :
    (confusion_matrix 1
        (risky_combination_new 1 [0] (fun c _ => set1_epi8 c) [1, 2].length [1, 2] none
          ⟨0, [], fun _ => 0, 0, none, none⟩)
        ⟨2, 2, 16, 16, 1, 3, 32, 96⟩ (fun _ p => if p < 16 then 1 else 0) (fun _ => 170)
        (fun _ => 170)).1 =
      ([1, 2].map
        (combination_counts 1
          (set_genotypes_masks 1 (fun _ p => if p < 16 then 1 else 0) 1
            ⟨2, 2, 16, 16, 1, 3, 32, 96⟩ (fun _ => 170))
          (fun c _ => set1_epi8 c) (3 ^ 1) (fun _ => 0) (fun _ => 0)
          ⟨2, 2, 16, 16, 1, 3, 32, 96⟩).1).sum :=
  (confusion_matrix_sum_of_counts 1 2 2 ⟨2, 2, 16, 16, 1, 3, 32, 96⟩ (by decide) (by decide)
    (by decide) (by decide) (fun _ p => if p < 16 then 1 else 0) (fun _ => 170)
    (fun c _ => set1_epi8 c)
    (fun c j hc _ => by
      show c % 256 < 3
      have h3 : (3 : Nat) ^ 1 = 3 := by decide
      omega)
    (fun _ => 0) (fun _ => 0) [0] [1, 2] none ⟨0, [], fun _ => 0, 0, none, none⟩ (by decide)
    (by decide) (by decide) (fun _ => 170) (fun _ => 170)).1

end HpgVariant
